import Mathlib

/-!
# AudioModifier: the DSP stages of the real-time pipeline

A shallow embedding of `audiothread.cpp` / `audiothread.h` and of the parameter
handlers of `mainwindow.cpp`.

Modelling conventions.

* A C++ `float` / `double` is an element of a linearly ordered field `α`.  Where only
  the structure of a computation matters the arithmetic is exact.  Where a statement
  depends on the value a `float` operation delivers (the crossfade length, the gain ramp of
  the noise gate, the range of the distortion, the tail of the filter's impulse response),
  the operation is its exact result rounded to IEEE 754 binary32 by `roundF32` (round to
  nearest, ties to even, 24 significant bits, gradual underflow down to `2^-149`), and a
  `double` operation likewise by `roundF64`.  NaN, infinities and overflow are outside the
  model, except for the one `double` division of `performSampleRateConversionToFloat`
  whose special values decide a guard.  Every definition is computable at `α = ℚ`;
  statements that need analytic facts are instantiated at `α = ℝ`.
* Functions of the C math library (`sinf`, `cosf`, `sinhf`, `logf`, `std::tanh`,
  `std::pow`) and the constant `M_PI` are parameters of the definitions that
  call them; the binary32 filter uses the `double` value of `M_PI` itself.
* `int` is `ℤ` (no wrap-around: the pipeline's sample rates and buffer sizes are
  far below `2^31`); `static_cast<int>` of a quotient is truncation toward zero.
* A `QByteArray` / `std::vector<float>` / `float*` buffer of float samples is a
  `List α`; a `QByteArray` of raw capture bytes is a `List (Fin 256)` read as
  little-endian two's-complement 16-bit words.
* Member variables mutated by a function are passed in and returned explicitly.
* External objects (libsamplerate, SoundTouch, Qt sliders) appear through the calls the
  code makes on them; the reads the loop makes of the main window are arguments of the
  loop body, one per point in the code where the window is read.
-/

namespace AudioModifier

universe u

/-! ## 0. Binary32 rounding -/

section Binary32

variable {α : Type u} [LinearOrderedField α] [FloorRing α]

/-- The integer nearest to `y`; when `y` lies halfway between two integers, the even one. -/
def roundHalfEven (y : α) : ℤ :=
  if y - ⌊y⌋ < 1 / 2 then ⌊y⌋
  else if 1 / 2 < y - ⌊y⌋ then ⌊y⌋ + 1
  else if ⌊y⌋ % 2 = 0 then ⌊y⌋ else ⌊y⌋ + 1

/-- Exponent of the spacing of the binary32 values around `x`: with `2^E ≤ |x| < 2^(E+1)`
the 24-bit significand gives spacing `2^(E-23)`, and no spacing is finer than that of the
subnormal numbers, `2^-149`. -/
def ulpExp (x : α) : ℤ :=
  max (Int.log 2 |x| - 23) (-149)

/-- The value a `float` operation stores for the exact result `x`: the nearest multiple
of the spacing around `x`, ties to even (the IEEE 754 default rounding).  The exponent
range is not bounded above: overflow to infinity is not modelled. -/
def roundF32 (x : α) : α :=
  (roundHalfEven (x / 2 ^ ulpExp x) : α) * 2 ^ ulpExp x

/-- `static_cast<int>` of a float value: truncation toward zero. -/
def truncToInt (x : α) : ℤ :=
  if 0 ≤ x then ⌊x⌋ else ⌈x⌉

/-- Exponent of the spacing of the binary64 values around `x`: a 53-bit significand, and no
spacing finer than that of the subnormal numbers, `2^-1074`. -/
def ulpExp64 (x : α) : ℤ :=
  max (Int.log 2 |x| - 52) (-1074)

/-- The value a `double` operation stores for the exact result `x`: the nearest multiple of
the spacing around `x`, ties to even.  Overflow to infinity is not modelled. -/
def roundF64 (x : α) : α :=
  (roundHalfEven (x / 2 ^ ulpExp64 x) : α) * 2 ^ ulpExp64 x

end Binary32

/-! ## 1. Biquad filter -/

/-- The C math library as seen by the filter setup code. -/
structure MathFns (α : Type u) where
  sinf : α → α
  cosf : α → α
  sinhf : α → α
  logf : α → α
  M_PI : α

/-- Members of `class Biquad`: coefficients and the two delay-line cells. -/
structure Biquad (α : Type u) where
  b0 : α
  b1 : α
  b2 : α
  a0 : α
  a1 : α
  a2 : α
  z1 : α
  z2 : α

namespace Biquad

variable {α : Type u} [LinearOrderedField α]

/-- Default argument `Q = 0.7071f` of the four setup functions. -/
def defaultQ : α := 7071 / 10000

/-- Constructor `Biquad::Biquad()`. -/
def init : Biquad α :=
  { b0 := 1, b1 := 0, b2 := 0, a0 := 1, a1 := 0, a2 := 0, z1 := 0, z2 := 0 }

/-- `Biquad::setupLowPass(cutoff, sampleRate, Q)`. -/
def setupLowPass (m : MathFns α) (f : Biquad α) (cutoff sampleRate Q : α) : Biquad α :=
  let omega := 2 * m.M_PI * cutoff / sampleRate
  let alpha := m.sinf omega / (2 * Q)
  let cos_omega := m.cosf omega
  let a0_inv := 1 / (1 + alpha)
  { f with
    b0 := (1 - cos_omega) / 2 * a0_inv
    b1 := (1 - cos_omega) * a0_inv
    b2 := (1 - cos_omega) / 2 * a0_inv
    a0 := 1 + alpha
    a1 := -2 * cos_omega * a0_inv
    a2 := (1 - alpha) * a0_inv }

/-- `Biquad::setupHighPass(cutoff, sampleRate, Q)`. -/
def setupHighPass (m : MathFns α) (f : Biquad α) (cutoff sampleRate Q : α) : Biquad α :=
  let omega := 2 * m.M_PI * cutoff / sampleRate
  let alpha := m.sinf omega / (2 * Q)
  let cos_omega := m.cosf omega
  let a0_inv := 1 / (1 + alpha)
  { f with
    b0 := (1 + cos_omega) / 2 * a0_inv
    b1 := -(1 + cos_omega) * a0_inv
    b2 := (1 + cos_omega) / 2 * a0_inv
    a0 := 1 + alpha
    a1 := -2 * cos_omega * a0_inv
    a2 := (1 - alpha) * a0_inv }

/-- `Biquad::setupBandPass(centerFreq, bandwidth, sampleRate, Q)`; the body never reads `Q`. -/
def setupBandPass (m : MathFns α) (f : Biquad α) (centerFreq bandwidth sampleRate _Q : α) :
    Biquad α :=
  let omega := 2 * m.M_PI * centerFreq / sampleRate
  let alpha := m.sinf omega * m.sinhf (m.logf 2 / 2 * bandwidth * omega / m.sinf omega)
  let cos_omega := m.cosf omega
  let a0_inv := 1 / (1 + alpha)
  { f with
    b0 := alpha * a0_inv
    b1 := 0 * a0_inv
    b2 := -alpha * a0_inv
    a0 := 1 + alpha
    a1 := -2 * cos_omega * a0_inv
    a2 := (1 - alpha) * a0_inv }

/-- `Biquad::setupNotch(centerFreq, bandwidth, sampleRate, Q)`; the body never reads `Q`. -/
def setupNotch (m : MathFns α) (f : Biquad α) (centerFreq bandwidth sampleRate _Q : α) :
    Biquad α :=
  let omega := 2 * m.M_PI * centerFreq / sampleRate
  let alpha := m.sinf omega * m.sinhf (m.logf 2 / 2 * bandwidth * omega / m.sinf omega)
  let cos_omega := m.cosf omega
  let a0_inv := 1 / (1 + alpha)
  { f with
    b0 := 1 * a0_inv
    b1 := -2 * cos_omega * a0_inv
    b2 := 1 * a0_inv
    a0 := 1 + alpha
    a1 := -2 * cos_omega * a0_inv
    a2 := (1 - alpha) * a0_inv }

/-- `Biquad::process(in)`: returns the output sample and the filter with its delay line
advanced (`z2 = z1; z1 = out`). -/
def process (f : Biquad α) (x : α) : α × Biquad α :=
  let out := f.b0 * x + f.b1 * f.z1 + f.b2 * f.z2 - f.a1 * f.z1 - f.a2 * f.z2
  (out, { f with z2 := f.z1, z1 := out })

/-- The loop `for (auto &sample : buffer) sample = process(sample);` shared by the four
`apply*` functions. -/
def processBuffer (f : Biquad α) : List α → List α × Biquad α
  | [] => ([], f)
  | sample :: rest =>
    let r := f.process sample
    let t := processBuffer r.2 rest
    (r.1 :: t.1, t.2)

/-- `Biquad::applyLowPass(buffer, cutoffHz, sampleRate)`. -/
def applyLowPass (m : MathFns α) (f : Biquad α) (buffer : List α) (cutoffHz : α)
    (sampleRate : ℤ) : List α × Biquad α :=
  if cutoffHz ≤ 0 ∨ cutoffHz ≥ (sampleRate : α) * (1 / 2) then
    (buffer, f)
  else
    (f.setupLowPass m cutoffHz (sampleRate : α) defaultQ).processBuffer buffer

/-- `Biquad::applyHighPass(buffer, cutoffHz, sampleRate)`. -/
def applyHighPass (m : MathFns α) (f : Biquad α) (buffer : List α) (cutoffHz : α)
    (sampleRate : ℤ) : List α × Biquad α :=
  if cutoffHz ≤ 0 ∨ cutoffHz ≥ (sampleRate : α) * (1 / 2) then
    (buffer, f)
  else
    (f.setupHighPass m cutoffHz (sampleRate : α) defaultQ).processBuffer buffer

/-- `Biquad::applyBandPass(buffer, centerFreq, bandwidth, sampleRate)`. -/
def applyBandPass (m : MathFns α) (f : Biquad α) (buffer : List α) (centerFreq bandwidth : α)
    (sampleRate : ℤ) : List α × Biquad α :=
  if centerFreq ≤ 0 ∨ centerFreq ≥ (sampleRate : α) * (1 / 2) then
    (buffer, f)
  else
    (f.setupBandPass m centerFreq bandwidth (sampleRate : α) defaultQ).processBuffer buffer

/-- `Biquad::applyBandStop(buffer, centerFreq, bandwidth, sampleRate)`. -/
def applyBandStop (m : MathFns α) (f : Biquad α) (buffer : List α) (centerFreq bandwidth : α)
    (sampleRate : ℤ) : List α × Biquad α :=
  if centerFreq ≤ 0 ∨ centerFreq ≥ (sampleRate : α) * (1 / 2) then
    (buffer, f)
  else
    (f.setupNotch m centerFreq bandwidth (sampleRate : α) defaultQ).processBuffer buffer

end Biquad

/-! ## 2. AudioThread: per-chunk stages -/

section Stages

variable {α : Type u} [LinearOrderedField α]

/-! ### Distortion -/

/-- The loop of `AudioThread::applyDistortion`: `remaining` iterations are still to run and
`i` is the loop index. -/
def applyDistortionLoop (tanh : α → α) (gain : α) : ℕ → ℕ → List α → List α
  | 0, _, samples => samples
  | remaining + 1, i, samples =>
    let x := samples.getD i 0 * gain
    let y := tanh x
    applyDistortionLoop tanh gain remaining (i + 1) (samples.set i y)

/-- `AudioThread::applyDistortion(samples, numSamples, gain)`; `tanh` is `std::tanh`. -/
def applyDistortion (tanh : α → α) (samples : List α) (numSamples : ℤ) (gain : α) : List α :=
  applyDistortionLoop tanh gain numSamples.toNat 0 samples

/-! ### Int16 to float -/

/-- `reinterpret_cast<const qint16*>(bytes)[i]` on a little-endian machine. -/
def int16At (bytes : List (Fin 256)) (i : ℕ) : ℤ :=
  let u : ℕ := (bytes.getD (2 * i) 0).val + 256 * (bytes.getD (2 * i + 1) 0).val
  if u < 32768 then (u : ℤ) else (u : ℤ) - 65536

/-- The conversion loop `outPtr[i] = inPtr[i] * scale` with `scale = 1.0f / 32768.0f`. -/
def int16ToFloatLoop (input : List (Fin 256)) : ℕ → ℕ → List α → List α
  | 0, _, out => out
  | remaining + 1, i, out =>
    int16ToFloatLoop input remaining (i + 1) (out.set i ((int16At input i : α) * (1 / 32768)))

/-- `AudioThread::int16ToFloat(input, channels)`.  `none` is the integer division by zero
of `channels == 0` on a non-empty input. -/
def int16ToFloat (input : List (Fin 256)) (channels : ℕ) : Option (List α) :=
  if input.isEmpty then some []
  else if channels = 0 then none
  else
    let frames := input.length / (channels * 2)
    let out : List α := List.replicate (frames * channels) 0
    some (int16ToFloatLoop input (frames * channels) 0 out)

/-! ### Level meter -/

/-- The scan loop of `computeLevel`, carrying `maxVal`. -/
def computeLevelLoop : List α → α → α
  | [], maxVal => maxVal
  | sample :: rest, maxVal =>
    let val := |sample|
    computeLevelLoop rest (if val > maxVal then val else maxVal)

/-- `AudioThread::computeLevel(buffer)`. -/
def computeLevel (buffer : List α) : α :=
  if buffer.length = 0 then 0 else computeLevelLoop buffer 0

/-! ### Sample-rate conversion -/

/-- Value of the `double` division `double(outSampleRate) / double(inSampleRate)`: a
quotient of two `int`s is a finite number unless the divisor is zero. -/
inductive DoubleRatio where
  | nan : DoubleRatio
  | posInf : DoubleRatio
  | negInf : DoubleRatio
  | finite (q : ℚ) : DoubleRatio
deriving DecidableEq

/-- `static_cast<double>(outSampleRate) / static_cast<double>(inSampleRate)`. -/
def srcRatioOf (inSampleRate outSampleRate : ℤ) : DoubleRatio :=
  if inSampleRate = 0 then
    if outSampleRate = 0 then DoubleRatio.nan
    else if 0 < outSampleRate then DoubleRatio.posInf
    else DoubleRatio.negInf
  else DoubleRatio.finite ((outSampleRate : ℚ) / (inSampleRate : ℚ))

/-- The guard `src_ratio <= 0.0 || src_ratio > 256.0` (both comparisons are false on NaN). -/
def DoubleRatio.invalid : DoubleRatio → Bool
  | DoubleRatio.nan => false
  | DoubleRatio.posInf => true
  | DoubleRatio.negInf => true
  | DoubleRatio.finite q => decide (q ≤ 0) || decide (q > 256)

/-- The fields of libsamplerate's `SRC_DATA` that the stage sets or reads. -/
structure SRC_DATA (α : Type u) where
  data_in : List α
  data_out : List α
  input_frames : ℤ
  output_frames : ℤ
  output_frames_gen : ℤ
  end_of_input : ℤ
  src_ratio : ℚ

/-- What a call of `performSampleRateConversionToFloat` leaves behind: the `output`
argument, the converter handle, and how often `src_process` was called. -/
structure SrcOutcome (σ : Type) (α : Type u) where
  output : List α
  converter : Option σ
  engineCalls : ℕ

/-- `AudioThread::performSampleRateConversionToFloat(input, output, inSampleRate,
outSampleRate, inChannels)`.  `src_process` is the external engine: from the converter
state and the request it gives the new state, the filled request and the error code.
`none` stands for undefined behaviour (NaN converted to `int`, division by a zero
channel count). -/
def performSampleRateConversionToFloat {σ : Type}
    (src_process : σ → SRC_DATA α → σ × SRC_DATA α × ℤ)
    (m_sampleRateConverter : Option σ) (input : List (Fin 256)) (output : List α)
    (inSampleRate outSampleRate : ℤ) (inChannels : ℕ) : Option (SrcOutcome σ α) :=
  match m_sampleRateConverter with
  | none => some { output := output, converter := none, engineCalls := 0 }
  | some conv =>
    if input.isEmpty then
      some { output := output, converter := some conv, engineCalls := 0 }
    else
      let src_ratio := srcRatioOf inSampleRate outSampleRate
      if src_ratio.invalid then
        some { output := output, converter := some conv, engineCalls := 0 }
      else if inChannels = 0 then none
      else
        match src_ratio with
        | DoubleRatio.finite q =>
          let inputFrames : ℕ := input.length / (inChannels * 2)
          let maxOutputFrames : ℤ := Int.ceil ((inputFrames : ℚ) * q * (12 / 10))
          let inputBuffer : List α :=
            int16ToFloatLoop input (inputFrames * inChannels) 0
              (List.replicate (inputFrames * inChannels) 0)
          let outputBuffer : List α :=
            List.replicate (maxOutputFrames * (inChannels : ℤ)).toNat 0
          let srcData : SRC_DATA α :=
            { data_in := inputBuffer, data_out := outputBuffer,
              input_frames := inputFrames, output_frames := maxOutputFrames,
              output_frames_gen := 0, end_of_input := 0, src_ratio := q }
          let r := src_process conv srcData
          if r.2.2 ≠ 0 then
            some { output := output, converter := some r.1, engineCalls := 1 }
          else
            let outCount : ℤ := r.2.1.output_frames_gen * (inChannels : ℤ)
            some { output := r.2.1.data_out.take outCount.toNat, converter := some r.1,
                   engineCalls := 1 }
        | _ => none

/-! ### Noise gate -/

/-- The members `m_isGateClosed`, `m_holdCounter`, `m_gain` of `AudioThread`. -/
structure GateState (α : Type u) where
  m_isGateClosed : Bool
  m_holdCounter : ℤ
  m_gain : α

/-- Gate members as set by the constructor `AudioThread::AudioThread`. -/
def GateState.init : GateState α :=
  { m_isGateClosed := false, m_holdCounter := 0, m_gain := 1 }

/-- The member `noiseGateDB` as set by the constructor; no function of `AudioThread`
assigns it afterwards. -/
def noiseGateDB_init : ℤ := -20

/-- `std::clamp(v, lo, hi)`. -/
def clamp (v lo hi : α) : α :=
  if v < lo then lo else if hi < v then hi else v

/-- Local `thresholdLinear` of `applyNoiseGate`: `std::pow(10.0f, noiseGateDB / 20.0f)`. -/
def thresholdLinear (pow : α → α → α) (noiseGateDB : ℤ) : α :=
  pow 10 ((noiseGateDB : α) / 20)

/-- Local `attackSamples`: `static_cast<int>((sampleRate * attackMs) / 1000.0f)`,
`attackMs = 10`. -/
def attackSamples (sampleRate : ℤ) : ℤ :=
  Int.tdiv (sampleRate * 10) 1000

/-- Local `releaseSamples`: `static_cast<int>((sampleRate * releaseMs) / 1000.0f)`,
`releaseMs = 50`. -/
def releaseSamples (sampleRate : ℤ) : ℤ :=
  Int.tdiv (sampleRate * 50) 1000

/-- Local `reduction`: `1 - pow(10, noiseGateDB / 20)` clamped to `[0, 0.9]`. -/
def reduction (pow : α → α → α) (noiseGateDB : ℤ) : α :=
  clamp (1 - pow 10 ((noiseGateDB : α) / 20)) 0 (9 / 10)

/-- One pass through the body of the sample loop of `applyNoiseGate`: the new gate
members and the value written back to `samples[i]`. -/
def gateIteration (thresholdLinear reduction : α) (attackSamples releaseSamples : ℤ)
    (st : GateState α) (sample : α) : GateState α × α :=
  let level := |sample|
  let st1 : GateState α :=
    if level < thresholdLinear then
      let st2 : GateState α :=
        if !st.m_isGateClosed then { st with m_isGateClosed := true, m_holdCounter := 0 }
        else st
      if st2.m_gain > reduction then
        let gainStep := (1 - reduction) / (releaseSamples : α)
        { st2 with m_gain := max (st2.m_gain - gainStep) reduction }
      else st2
    else
      let st2 : GateState α :=
        if st.m_isGateClosed then
          let st3 : GateState α := { st with m_holdCounter := st.m_holdCounter + 1 }
          if st3.m_holdCounter > attackSamples then { st3 with m_isGateClosed := false }
          else st3
        else st
      if st2.m_gain < 1 then
        let gainStep := (1 - reduction) / (attackSamples : α)
        { st2 with m_gain := min (st2.m_gain + gainStep) 1 }
      else st2
  (st1, sample * st1.m_gain)

/-- The sample loop of `applyNoiseGate`: `remaining` iterations are still to run and `i`
is the loop index. -/
def applyNoiseGateLoop (thresholdLinear reduction : α) (attackSamples releaseSamples : ℤ) :
    ℕ → ℕ → GateState α → List α → GateState α × List α
  | 0, _, st, samples => (st, samples)
  | remaining + 1, i, st, samples =>
    let r := gateIteration thresholdLinear reduction attackSamples releaseSamples st
      (samples.getD i 0)
    applyNoiseGateLoop thresholdLinear reduction attackSamples releaseSamples remaining (i + 1)
      r.1 (samples.set i r.2)

/-- `AudioThread::applyNoiseGate(inBuffer, sampleRate)`; `pow` is `std::pow` and
`noiseGateDB` the member of that name. -/
def applyNoiseGate (pow : α → α → α) (noiseGateDB : ℤ) (st : GateState α)
    (inBuffer : List α) (sampleRate : ℤ) : GateState α × List α :=
  if inBuffer.isEmpty then (st, inBuffer)
  else
    applyNoiseGateLoop (thresholdLinear pow noiseGateDB) (reduction pow noiseGateDB)
      (attackSamples sampleRate) (releaseSamples sampleRate) inBuffer.length 0 st inBuffer

/-- The sample loop of `applyNoiseGate` presented as a recursion over the samples it
visits: the gate members after the last sample and the samples written back.  It is
proved equal to `applyNoiseGateLoop` (`applyNoiseGate_eq_gateRun`) and used to reason
about it. -/
def gateRun (thresholdLinear reduction : α) (attackSamples releaseSamples : ℤ) :
    GateState α → List α → GateState α × List α
  | st, [] => (st, [])
  | st, sample :: rest =>
    let r := gateIteration thresholdLinear reduction attackSamples releaseSamples st sample
    let t := gateRun thresholdLinear reduction attackSamples releaseSamples r.1 rest
    (t.1, r.2 :: t.2)

end Stages

/-! ### Noise gate in binary32

The same function once more, statement by statement, with every `float` operation
rounded by `roundF32`: the conversions of `int` values to `float`, the quotients, the
differences and sums, and the product written back.  `std::fabs`, `std::max`, `std::min`,
`std::clamp` and the comparisons are exact on `float` values.  A window of zero samples
makes the code divide by zero (an infinite step); the quotient is then `0` here, and the
statements about these definitions are about windows of at least one sample. -/

namespace Binary32

section NoiseGate

variable {α : Type u} [LinearOrderedField α] [FloorRing α]

/-- Local `thresholdLinear` of `applyNoiseGate`: `std::pow(10.0f, noiseGateDB / 20.0f)`;
`powf` is `std::pow` on `float` arguments. -/
def thresholdLinear (powf : α → α → α) (noiseGateDB : ℤ) : α :=
  powf 10 (roundF32 (roundF32 (noiseGateDB : α) / 20))

/-- Local `attackSamples`: `static_cast<int>((sampleRate * attackMs) / 1000.0f)`,
`attackMs = 10`; the `int` product is converted to `float` and divided as a `float`. -/
def attackSamples (sampleRate : ℤ) : ℤ :=
  truncToInt (roundF32 (roundF32 ((sampleRate * 10 : ℤ) : ℚ) / 1000))

/-- Local `releaseSamples`: `static_cast<int>((sampleRate * releaseMs) / 1000.0f)`,
`releaseMs = 50`. -/
def releaseSamples (sampleRate : ℤ) : ℤ :=
  truncToInt (roundF32 (roundF32 ((sampleRate * 50 : ℤ) : ℚ) / 1000))

/-- Local `reduction`: `1.0f - std::pow(10.0f, noiseGateDB / 20.0f)` clamped to
`[0.0f, 0.9f]`; the literal `0.9f` is the binary32 value nearest to `9/10`. -/
def reduction (powf : α → α → α) (noiseGateDB : ℤ) : α :=
  clamp (roundF32 (1 - powf 10 (roundF32 (roundF32 (noiseGateDB : α) / 20)))) 0
    (roundF32 (9 / 10))

/-- One pass through the body of the sample loop of `applyNoiseGate`: the new gate
members and the value written back to `samples[i]`. -/
def gateIteration (thresholdLinear reduction : α) (attackSamples releaseSamples : ℤ)
    (st : GateState α) (sample : α) : GateState α × α :=
  let level := |sample|
  let st1 : GateState α :=
    if level < thresholdLinear then
      let st2 : GateState α :=
        if !st.m_isGateClosed then { st with m_isGateClosed := true, m_holdCounter := 0 }
        else st
      if st2.m_gain > reduction then
        let gainStep := roundF32 (roundF32 (1 - reduction) / roundF32 (releaseSamples : α))
        { st2 with m_gain := max (roundF32 (st2.m_gain - gainStep)) reduction }
      else st2
    else
      let st2 : GateState α :=
        if st.m_isGateClosed then
          let st3 : GateState α := { st with m_holdCounter := st.m_holdCounter + 1 }
          if st3.m_holdCounter > attackSamples then { st3 with m_isGateClosed := false }
          else st3
        else st
      if st2.m_gain < 1 then
        let gainStep := roundF32 (roundF32 (1 - reduction) / roundF32 (attackSamples : α))
        { st2 with m_gain := min (roundF32 (st2.m_gain + gainStep)) 1 }
      else st2
  (st1, roundF32 (sample * st1.m_gain))

/-- The sample loop of `applyNoiseGate`: `remaining` iterations are still to run and `i`
is the loop index. -/
def applyNoiseGateLoop (thresholdLinear reduction : α) (attackSamples releaseSamples : ℤ) :
    ℕ → ℕ → GateState α → List α → GateState α × List α
  | 0, _, st, samples => (st, samples)
  | remaining + 1, i, st, samples =>
    let r := gateIteration thresholdLinear reduction attackSamples releaseSamples st
      (samples.getD i 0)
    applyNoiseGateLoop thresholdLinear reduction attackSamples releaseSamples remaining (i + 1)
      r.1 (samples.set i r.2)

/-- `AudioThread::applyNoiseGate(inBuffer, sampleRate)`; `powf` is `std::pow` on `float`
arguments and `noiseGateDB` the member of that name. -/
def applyNoiseGate (powf : α → α → α) (noiseGateDB : ℤ) (st : GateState α)
    (inBuffer : List α) (sampleRate : ℤ) : GateState α × List α :=
  if inBuffer.isEmpty then (st, inBuffer)
  else
    applyNoiseGateLoop (thresholdLinear powf noiseGateDB) (reduction powf noiseGateDB)
      (attackSamples sampleRate) (releaseSamples sampleRate) inBuffer.length 0 st inBuffer

/-- The sample loop presented as a recursion over the samples it visits; proved equal to
`applyNoiseGateLoop` (`applyNoiseGate_eq_gateRun_binary32`) and used to reason about it. -/
def gateRun (thresholdLinear reduction : α) (attackSamples releaseSamples : ℤ) :
    GateState α → List α → GateState α × List α
  | st, [] => (st, [])
  | st, sample :: rest =>
    let r := gateIteration thresholdLinear reduction attackSamples releaseSamples st sample
    let t := gateRun thresholdLinear reduction attackSamples releaseSamples r.1 rest
    (t.1, r.2 :: t.2)

end NoiseGate

end Binary32

/-! ## 2a. Driving a filter sample by sample -/

namespace Biquad

variable {α : Type u} [LinearOrderedField α]

/-- The filter object after `n` successive calls `process(x 0)`, ..., `process(x (n-1))`. -/
def stateAfter (f : Biquad α) (x : ℕ → α) : ℕ → Biquad α
  | 0 => f
  | n + 1 => ((stateAfter f x n).process (x n)).2

/-- The value returned by the call `process(x n)` that follows the calls on
`x 0`, ..., `x (n-1)`. -/
def outputAt (f : Biquad α) (x : ℕ → α) (n : ℕ) : α :=
  ((stateAfter f x n).process (x n)).1

end Biquad

/-- A unit impulse followed by zeros. -/
def unitImpulse {α : Type u} [LinearOrderedField α] : ℕ → α :=
  fun n => if n = 0 then 1 else 0

/-! ### The low-pass filter in binary32

`Biquad::setupLowPass` and `Biquad::process` once more, statement by statement, with every
arithmetic operation rounded: the expression for `omega` is evaluated in `double` (the
constant `M_PI` is a `double`) and converted to `float` on assignment, every other operation
is a `float` operation rounded by `roundF32`.  The sums of `process` are rounded one by one
in the order of evaluation of the expression, from left to right; no multiplication is fused
with the addition that follows it. -/

namespace Binary32

section Filter

variable {α : Type u} [LinearOrderedField α] [FloorRing α]

/-- The constant `M_PI` of `<math.h>`: the `double` nearest to `π`,
`0x1.921fb54442d18p+1`. -/
def M_PI : α := 884279719003555 / 281474976710656

/-- Default argument `Q = 0.7071f` of the setup functions: the `float` nearest to
`0.7071`. -/
def defaultQ : α := roundF32 (7071 / 10000)

/-- `Biquad::setupLowPass(cutoff, sampleRate, Q)`; `sinf` and `cosf` are the library
functions on `float` arguments. -/
def setupLowPass (sinf cosf : α → α) (f : Biquad α) (cutoff sampleRate Q : α) : Biquad α :=
  let omega := roundF32 (roundF64 (roundF64 (roundF64 (2 * M_PI) * cutoff) / sampleRate))
  let alpha := roundF32 (sinf omega / roundF32 (2 * Q))
  let cos_omega := cosf omega
  let a0_inv := roundF32 (1 / roundF32 (1 + alpha))
  { f with
    b0 := roundF32 (roundF32 (roundF32 (1 - cos_omega) / 2) * a0_inv)
    b1 := roundF32 (roundF32 (1 - cos_omega) * a0_inv)
    b2 := roundF32 (roundF32 (roundF32 (1 - cos_omega) / 2) * a0_inv)
    a0 := roundF32 (1 + alpha)
    a1 := roundF32 (roundF32 (-2 * cos_omega) * a0_inv)
    a2 := roundF32 (roundF32 (1 - alpha) * a0_inv) }

/-- `Biquad::process(in)`: returns the output sample and the filter with its delay line
advanced (`z2 = z1; z1 = out`). -/
def process (f : Biquad α) (x : α) : α × Biquad α :=
  let out := roundF32 (roundF32 (roundF32 (roundF32 (roundF32 (f.b0 * x)
    + roundF32 (f.b1 * f.z1)) + roundF32 (f.b2 * f.z2)) - roundF32 (f.a1 * f.z1))
    - roundF32 (f.a2 * f.z2))
  (out, { f with z2 := f.z1, z1 := out })

/-- The filter object after `n` successive calls `process(x 0)`, ..., `process(x (n-1))`. -/
def stateAfter (f : Biquad α) (x : ℕ → α) : ℕ → Biquad α
  | 0 => f
  | n + 1 => (process (stateAfter f x n) (x n)).2

/-- The value returned by the call `process(x n)` that follows the calls on
`x 0`, ..., `x (n-1)`. -/
def outputAt (f : Biquad α) (x : ℕ → α) (n : ℕ) : α :=
  (process (stateAfter f x n) (x n)).1

end Filter

/-! ### Evaluating binary32 operations on natural numbers

Not part of the source: an evaluator for long runs of `process`.  A non-negative `float`
value below `2^128` is `n / 2^149` for a natural number `n`; the functions below compute on
these numerators what `roundF32` delivers on the values (`roundF32_natCast_div`,
`process_eq_of_processNat`), and they return `none` where they do not apply: when a
difference would be negative. -/

section Evaluation

end Evaluation

end Binary32

/-! ## 2b. Pitch shifter -/

/-- The calls the pipeline makes on the external `soundtouch::SoundTouch` object, as
functions of the engine state `τ`.  `putSamples` gives `none` when the engine throws;
`receiveSamples st max` gives the engine after the call and the samples it delivered. -/
structure SoundTouchOps (τ : Type) (α : Type u) where
  setPitchSemiTones : τ → α → τ
  numUnprocessedSamples : τ → ℕ
  clear : τ → τ
  putSamples : τ → List α → Option τ
  numSamples : τ → ℕ
  receiveSamples : τ → ℕ → τ × List α

/-- `std::clamp(v, lo, hi)` on `int`. -/
def clampInt (v lo hi : ℤ) : ℤ :=
  if v < lo then lo else if hi < v then hi else v

section PitchShifter

variable {α : Type u} [LinearOrderedField α] [FloorRing α]

/-- Local `crossfadeSamples` of `applyPitchShifting`:
`std::clamp(static_cast<int>(minCrossfade * std::abs(pitchFactor)), 50, 256)`.  The
product of the `int` 50 and the `float` is a `float` product, rounded to binary32
before the cast.  The cast of a product of `2^31` or more is undefined in C++; the
statements about this value say where they rely on the product being smaller. -/
def crossfadeSamplesOf (pitchFactor : α) : ℤ :=
  clampInt (truncToInt (roundF32 (50 * |pitchFactor|))) 50 256

/-- The drain loop `while (numSamples() > 0) { received = receiveSamples(temp, chunkSize);
if (received <= 0) break; append }`.  Every pass that does not break takes at least one
sample out of the engine, so the first argument, set to `numSamples()` on entry, bounds
the number of passes. -/
def receiveLoop {τ : Type} (ops : SoundTouchOps τ α) (chunkSize : ℕ) :
    ℕ → τ → List α → τ × List α
  | 0, st, outputSamples => (st, outputSamples)
  | passes + 1, st, outputSamples =>
    if ops.numSamples st > 0 then
      let r := ops.receiveSamples st chunkSize
      if r.2.length = 0 then (r.1, outputSamples)
      else receiveLoop ops chunkSize passes r.1 (outputSamples ++ r.2)
    else (st, outputSamples)

/-- The crossfade loop of `applyPitchShifting`: `remaining` iterations are still to run and
`i` is the loop index. -/
def crossfadeLoop (cos : α → α) (M_PI : α) (prevSamples : List α)
    (prevSampleCount fadeLength : ℕ) : ℕ → ℕ → List α → List α
  | 0, _, outputSamples => outputSamples
  | remaining + 1, i, outputSamples =>
    let fadeIn := 1 / 2 * (1 - cos (M_PI * (i : α) / (fadeLength : α)))
    let fadeOut := 1 - fadeIn
    let prevIndex := prevSampleCount - fadeLength + i
    crossfadeLoop cos M_PI prevSamples prevSampleCount fadeLength remaining (i + 1)
      (outputSamples.set i
        (prevSamples.getD prevIndex 0 * fadeOut + outputSamples.getD i 0 * fadeIn))

/-- Local `fadeIn` of the crossfade loop as a function of the loop index:
`0.5 * (1 - cos(M_PI * i / fadeLength))`. -/
def fadeIn (cos : α → α) (M_PI : α) (fadeLength i : ℕ) : α :=
  1 / 2 * (1 - cos (M_PI * (i : α) / (fadeLength : α)))

/-- What `applyPitchShifting` leaves behind: the engine, the stored overlap and the
`outputBuffer` argument. -/
structure PitchResult (τ : Type) (α : Type u) where
  m_soundTouch : τ
  m_previousPitchOutput : List α
  outputBuffer : List α

/-- `AudioThread::applyPitchShifting(inputSamples, numSamples, outputBuffer)`.
`pitchFactor` is the value of `m_mainWindow->m_pitchFactor` read under the mutex inside
the function. -/
def applyPitchShifting {τ : Type} (ops : SoundTouchOps τ α) (cos : α → α) (M_PI : α)
    (m_soundTouch : τ) (m_previousPitchOutput : List α) (pitchFactor : α)
    (inputSamples : List α) (numSamples : ℤ) (outputBuffer : List α) : PitchResult τ α :=
  if numSamples ≤ 0 then
    { m_soundTouch := m_soundTouch, m_previousPitchOutput := m_previousPitchOutput,
      outputBuffer := outputBuffer }
  else
    let crossfadeSamples : ℤ := crossfadeSamplesOf pitchFactor
    let st0 : τ :=
      if ops.numUnprocessedSamples m_soundTouch > 8192 then ops.clear m_soundTouch
      else m_soundTouch
    match ops.putSamples st0 (inputSamples.take numSamples.toNat) with
    | none =>
      { m_soundTouch := st0, m_previousPitchOutput := m_previousPitchOutput,
        outputBuffer := outputBuffer }
    | some st1 =>
      let r := receiveLoop ops 1024 (ops.numSamples st1) st1 []
      let received : List α := r.2
      let outputSamples : List α :=
        if !m_previousPitchOutput.isEmpty && !received.isEmpty then
          let prevSampleCount := m_previousPitchOutput.length
          let fadeLength := min (min crossfadeSamples.toNat prevSampleCount) received.length
          crossfadeLoop cos M_PI m_previousPitchOutput prevSampleCount fadeLength
            fadeLength 0 received
        else received
      let stored : List α :=
        if !outputSamples.isEmpty then
          let storeSize := min outputSamples.length crossfadeSamples.toNat
          outputSamples.drop (outputSamples.length - storeSize)
        else m_previousPitchOutput
      { m_soundTouch := r.1, m_previousPitchOutput := stored, outputBuffer := outputSamples }

end PitchShifter

/-! ## 2c. Band filter stage and filter configuration -/

section BandFilter

variable {α : Type u} [LinearOrderedField α]

/-- `AudioThread::applyBandFilterFloat(samples, numSamples, filterIndex, lowFreq, highFreq,
sampleRate)`: the first `numSamples` samples are copied to `floatBuf`, filtered by
`m_biquadFilter` and copied back. -/
def applyBandFilterFloat (m : MathFns α) (m_biquadFilter : Biquad α) (samples : List α)
    (numSamples : ℤ) (filterIndex : ℤ) (lowFreq highFreq : α) (sampleRate : ℤ) :
    List α × Biquad α :=
  let floatBuf : List α := samples.take numSamples.toNat
  let r : List α × Biquad α :=
    if filterIndex = 1 then m_biquadFilter.applyLowPass m floatBuf lowFreq sampleRate
    else if filterIndex = 2 then m_biquadFilter.applyHighPass m floatBuf highFreq sampleRate
    else if filterIndex = 3 then
      m_biquadFilter.applyBandPass m floatBuf lowFreq highFreq sampleRate
    else if filterIndex = 4 then
      m_biquadFilter.applyBandStop m floatBuf lowFreq highFreq sampleRate
    else (floatBuf, m_biquadFilter)
  (r.1 ++ samples.drop numSamples.toNat, r.2)

/-- `AudioThread::updateFilter(filterIdx, lowFreq, highFreq, sampleRate)`. -/
def updateFilter (m : MathFns α) (m_biquadFilter : Biquad α) (filterIdx : ℤ)
    (lowFreq highFreq : α) (sampleRate : ℤ) : Biquad α :=
  if filterIdx = 1 then
    m_biquadFilter.setupLowPass m lowFreq (sampleRate : α) Biquad.defaultQ
  else if filterIdx = 2 then
    m_biquadFilter.setupHighPass m highFreq (sampleRate : α) Biquad.defaultQ
  else if filterIdx = 3 then
    m_biquadFilter.setupBandPass m ((lowFreq + highFreq) / 2) (highFreq - lowFreq)
      (sampleRate : α) Biquad.defaultQ
  else if filterIdx = 4 then
    m_biquadFilter.setupNotch m ((lowFreq + highFreq) / 2) (highFreq - lowFreq)
      (sampleRate : α) Biquad.defaultQ
  else m_biquadFilter

/-- `AudioThread::initializeFilters()`: `filterIdx`, `lowFreq`, `highFreq` are the values
read from the main window and `sampleRate` is `m_inputFormat.sampleRate()`. -/
def initializeFilters (m : MathFns α) (m_biquadFilter : Biquad α) (filterIdx : ℤ)
    (lowFreq highFreq : α) (sampleRate : ℤ) : Biquad α :=
  if filterIdx = 1 then
    m_biquadFilter.setupLowPass m lowFreq (sampleRate : α) Biquad.defaultQ
  else if filterIdx = 2 then
    m_biquadFilter.setupHighPass m highFreq (sampleRate : α) Biquad.defaultQ
  else if filterIdx = 3 then
    m_biquadFilter.setupBandPass m ((lowFreq + highFreq) * (1 / 2)) (highFreq - lowFreq)
      (sampleRate : α) Biquad.defaultQ
  else if filterIdx = 4 then
    m_biquadFilter.setupNotch m ((lowFreq + highFreq) * (1 / 2)) (highFreq - lowFreq)
      (sampleRate : α) Biquad.defaultQ
  else m_biquadFilter

end BandFilter

/-! ## 2d. Main window: parameters and entry handlers -/

/-- Range and value of a `QSlider`. -/
structure QSlider where
  minimum : ℤ
  maximum : ℤ
  value : ℤ

/-- `QAbstractSlider::setValue` as Qt documents it: the value is bounded to the range; when
that leaves the value as it is nothing happens, otherwise it is stored and `valueChanged`
is emitted (second component `true`). -/
def QSlider.setValue (s : QSlider) (v : ℤ) : QSlider × Bool :=
  let bounded := max s.minimum (min s.maximum v)
  if bounded = s.value then (s, false) else ({ s with value := bounded }, true)

/-- The members of `MainWindow` that hold effect parameters, and its sliders. -/
structure MainWindow (α : Type u) where
  m_distortionGain : α
  m_pitchFactor : α
  m_lowBandFreq : ℤ
  m_highBandFreq : ℤ
  m_filterIndex : ℤ
  noiseGateSlider : QSlider
  pitchSlider : QSlider
  distortionSlider : QSlider
  lowBandSlider : QSlider
  highBandSlider : QSlider

namespace MainWindow

variable {α : Type u} [LinearOrderedField α] [FloorRing α]

/-- Parameters and sliders as the constructor `MainWindow::MainWindow` leaves them. -/
def init : MainWindow α :=
  { m_distortionGain := 1, m_pitchFactor := 1, m_lowBandFreq := 500, m_highBandFreq := 5000,
    m_filterIndex := 0,
    noiseGateSlider := { minimum := -60, maximum := 0, value := 0 },
    pitchSlider := { minimum := 50, maximum := 200, value := 100 },
    distortionSlider := { minimum := 0, maximum := 400, value := 100 },
    lowBandSlider := { minimum := 20, maximum := 22000, value := 500 },
    highBandSlider := { minimum := 20, maximum := 22000, value := 5000 } }

/-- `MainWindow::getNoiseGate()`. -/
def getNoiseGate (w : MainWindow α) : ℤ :=
  w.noiseGateSlider.value

/-- `MainWindow::on_pitchSlider_valueChanged(value)`, as far as the parameters go. -/
def on_pitchSlider_valueChanged (w : MainWindow α) (value : ℤ) : MainWindow α :=
  { w with m_pitchFactor := (value : α) / 100 }

/-- `MainWindow::on_distortionSlider_valueChanged(value)`, as far as the parameters go. -/
def on_distortionSlider_valueChanged (w : MainWindow α) (value : ℤ) : MainWindow α :=
  { w with m_distortionGain := (value : α) / 100 }

/-- `MainWindow::on_lowBandSlider_valueChanged(value)`, as far as the parameters go. -/
def on_lowBandSlider_valueChanged (w : MainWindow α) (value : ℤ) : MainWindow α :=
  { w with m_lowBandFreq := value }

/-- `MainWindow::on_highBandSlider_valueChanged(value)`, as far as the parameters go. -/
def on_highBandSlider_valueChanged (w : MainWindow α) (value : ℤ) : MainWindow α :=
  { w with m_highBandFreq := value }

/-- `MainWindow::on_pitchValueEditLine_editingFinished()`; `parsed` is the result of
`text.toDouble(&ok)`, `none` when `ok` is false.  The slider's `valueChanged` signal is
connected to `on_pitchSlider_valueChanged`. -/
def on_pitchValueEditLine_editingFinished (w : MainWindow α) (parsed : Option α) :
    MainWindow α :=
  match parsed with
  | none => w
  | some value =>
    if value ≥ 1 / 2 ∧ value ≤ 2 then
      let w1 : MainWindow α := { w with m_pitchFactor := value }
      let sliderValue : ℤ := ⌊w1.m_pitchFactor * 100⌋
      if w1.pitchSlider.value ≠ sliderValue then
        let r := w1.pitchSlider.setValue sliderValue
        let w2 : MainWindow α := { w1 with pitchSlider := r.1 }
        if r.2 then w2.on_pitchSlider_valueChanged r.1.value else w2
      else w1
    else w

/-- `MainWindow::on_distortionValueEditLine_editingFinished()`; `parsed` is the result of
`text.toDouble(&ok)`, `none` when `ok` is false. -/
def on_distortionValueEditLine_editingFinished (w : MainWindow α) (parsed : Option α) :
    MainWindow α :=
  match parsed with
  | none => w
  | some value =>
    if value ≥ 0 ∧ value ≤ 4 then
      let w1 : MainWindow α := { w with m_distortionGain := value }
      let sliderValue : ℤ := ⌊w1.m_distortionGain * 100⌋
      if w1.distortionSlider.value ≠ sliderValue then
        let r := w1.distortionSlider.setValue sliderValue
        let w2 : MainWindow α := { w1 with distortionSlider := r.1 }
        if r.2 then w2.on_distortionSlider_valueChanged r.1.value else w2
      else w1
    else w

/-- `MainWindow::on_lowBandValueEditLine_editingFinished()`; `parsed` is the result of
`text.toInt(&ok)`, `none` when `ok` is false. -/
def on_lowBandValueEditLine_editingFinished (w : MainWindow α) (parsed : Option ℤ) :
    MainWindow α :=
  match parsed with
  | none => w
  | some value =>
    if value ≥ 20 ∧ value ≤ 22000 then
      let w1 : MainWindow α := { w with m_lowBandFreq := value }
      if w1.lowBandSlider.value ≠ w1.m_lowBandFreq then
        let r := w1.lowBandSlider.setValue w1.m_lowBandFreq
        let w2 : MainWindow α := { w1 with lowBandSlider := r.1 }
        if r.2 then w2.on_lowBandSlider_valueChanged r.1.value else w2
      else w1
    else w

/-- `MainWindow::on_highBandValueEditLine_editingFinished()`; `parsed` is the result of
`text.toInt(&ok)`, `none` when `ok` is false. -/
def on_highBandValueEditLine_editingFinished (w : MainWindow α) (parsed : Option ℤ) :
    MainWindow α :=
  match parsed with
  | none => w
  | some value =>
    if value ≥ 20 ∧ value ≤ 22000 then
      let w1 : MainWindow α := { w with m_highBandFreq := value }
      if w1.highBandSlider.value ≠ w1.m_highBandFreq then
        let r := w1.highBandSlider.setValue w1.m_highBandFreq
        let w2 : MainWindow α := { w1 with highBandSlider := r.1 }
        if r.2 then w2.on_highBandSlider_valueChanged r.1.value else w2
      else w1
    else w

end MainWindow

/-! ## 2e. The audio thread: members, shutdown and one loop iteration -/

/-- The external code the loop calls: the C math library, `std::tanh`, `std::pow`,
libsamplerate's `src_process` and the SoundTouch object. -/
structure Libs (σ τ : Type) (α : Type u) where
  math : MathFns α
  tanh : α → α
  pow : α → α → α
  src_process : σ → SRC_DATA α → σ × SRC_DATA α × ℤ
  soundTouch : SoundTouchOps τ α

/-- Members of `AudioThread` that the loop and `cleanup` use.  Stream objects are
represented by their addresses; `inputSampleRate`, `outputSampleRate` stand for
`m_inputFormat.sampleRate()` and `m_outputFormat.sampleRate()`. -/
structure AudioThread (σ τ : Type) (α : Type u) where
  m_audioSource : Option ℕ
  m_audioSink : Option ℕ
  m_sampleRateConverter : Option σ
  m_soundTouch : τ
  m_biquadFilter : Biquad α
  m_previousPitchOutput : List α
  gate : GateState α
  noiseGateDB : ℤ
  m_inChannels : ℕ
  inputSampleRate : ℤ
  outputSampleRate : ℤ

/-- A release performed by `cleanup`. -/
inductive Release (σ : Type) where
  | stopSource (p : ℕ) : Release σ
  | stopSink (p : ℕ) : Release σ
  | deleteSource (p : ℕ) : Release σ
  | deleteSink (p : ℕ) : Release σ
  | srcDelete (c : σ) : Release σ

section Thread

variable {α : Type u} [LinearOrderedField α] [FloorRing α] {σ τ : Type}

/-- `AudioThread::cleanup()`: the thread afterwards and the releases performed, in order
(`delete` of a null pointer does nothing). -/
def cleanup (t : AudioThread σ τ α) : AudioThread σ τ α × List (Release σ) :=
  let log1 : List (Release σ) :=
    match t.m_audioSource with
    | some p => [Release.stopSource p]
    | none => []
  let log2 : List (Release σ) :=
    match t.m_audioSink with
    | some p => [Release.stopSink p]
    | none => []
  let log3 : List (Release σ) :=
    match t.m_audioSource with
    | some p => [Release.deleteSource p]
    | none => []
  let log4 : List (Release σ) :=
    match t.m_audioSink with
    | some p => [Release.deleteSink p]
    | none => []
  let log5 : List (Release σ) :=
    match t.m_sampleRateConverter with
    | some c => [Release.srcDelete c]
    | none => []
  ({ t with m_audioSource := none, m_audioSink := none, m_sampleRateConverter := none },
   log1 ++ log2 ++ log3 ++ log4 ++ log5)

/-- What one pass through the loop body leaves behind: the thread members, the buffer
handed to `outputIO->write` and the level emitted with `levelChanged`. -/
structure IterationResult (σ τ : Type) (α : Type u) where
  thread : AudioThread σ τ α
  written : List α
  level : α

/-- One pass through the body of `while (m_running)` in `AudioThread::run`, from the
parameter fetch on, for a chunk `inputBuffer` of `len > 0` bytes read from the microphone.
The main window is read three times: `uiSnapshot` is its content when the loop copies the
parameters under the mutex, `uiGate` when the loop calls `getNoiseGate()`, and `uiPitch`
when `applyPitchShifting` reads `m_pitchFactor`.  `none` stands for undefined behaviour
(a `memcpy` of `numSamples` floats from or to a shorter `convertedBuffer`, and the cases
of the conversion functions). -/
def runIterationWith (libs : Libs σ τ α) (t : AudioThread σ τ α)
    (uiSnapshot uiGate uiPitch : MainWindow α) (inputBuffer : List (Fin 256)) :
    Option (IterationResult σ τ α) :=
  let pitchFactor := uiSnapshot.m_pitchFactor
  let distortionGain := uiSnapshot.m_distortionGain
  let currentFilterIdx := uiSnapshot.m_filterIndex
  let lowFreq : α := (uiSnapshot.m_lowBandFreq : α)
  let highFreq : α := (uiSnapshot.m_highBandFreq : α)
  let touch0 : τ :=
    if |pitchFactor - 1| > 1 / 10000 then
      libs.soundTouch.setPitchSemiTones t.m_soundTouch
        (12 * libs.math.logf pitchFactor / libs.math.logf 2)
    else libs.soundTouch.setPitchSemiTones t.m_soundTouch 0
  let converted : Option (List α × Option σ) :=
    if t.inputSampleRate ≠ t.outputSampleRate then
      (performSampleRateConversionToFloat libs.src_process t.m_sampleRateConverter
          inputBuffer [] t.inputSampleRate t.outputSampleRate t.m_inChannels).map
        (fun o => (o.output, o.converter))
    else
      (int16ToFloat inputBuffer t.m_inChannels).map (fun b => (b, t.m_sampleRateConverter))
  match converted with
  | none => none
  | some (convertedBuffer0, converter) =>
    let dBValue := uiGate.getNoiseGate
    let gated : GateState α × List α :=
      if dBValue < 0 then
        applyNoiseGate libs.pow t.noiseGateDB t.gate convertedBuffer0 t.outputSampleRate
      else (t.gate, convertedBuffer0)
    let convertedBuffer1 := gated.2
    let numSamples : ℕ := convertedBuffer1.length
    let inputSamples0 : List α := convertedBuffer1
    let pitched : Option (PitchResult τ α × List α) :=
      if |pitchFactor - 1| > 1 / 10000 then
        let r := applyPitchShifting libs.soundTouch libs.math.cosf libs.math.M_PI touch0
          t.m_previousPitchOutput uiPitch.m_pitchFactor inputSamples0 (numSamples : ℤ)
          convertedBuffer1
        if r.outputBuffer.length < numSamples then none
        else some (r, r.outputBuffer.take numSamples)
      else
        some ({ m_soundTouch := touch0, m_previousPitchOutput := t.m_previousPitchOutput,
                outputBuffer := convertedBuffer1 }, inputSamples0)
    match pitched with
    | none => none
    | some (pr, inputSamples1) =>
      let inputSamples2 : List α :=
        if |distortionGain - 1| > 1 / 10000 then
          applyDistortion libs.tanh inputSamples1 (numSamples : ℤ) distortionGain
        else inputSamples1
      let filtered : List α × Biquad α :=
        if currentFilterIdx ≠ 0 then
          applyBandFilterFloat libs.math t.m_biquadFilter inputSamples2 (numSamples : ℤ)
            currentFilterIdx lowFreq highFreq t.outputSampleRate
        else (inputSamples2, t.m_biquadFilter)
      let convertedBuffer2 : List α := filtered.1 ++ pr.outputBuffer.drop numSamples
      some
        { thread :=
            { t with
              m_sampleRateConverter := converter
              m_soundTouch := pr.m_soundTouch
              m_biquadFilter := filtered.2
              m_previousPitchOutput := pr.m_previousPitchOutput
              gate := gated.1 }
          written := convertedBuffer2
          level := computeLevel convertedBuffer2 }

/-- One pass through the loop body when the main window does not change while it runs. -/
def runIteration (libs : Libs σ τ α) (t : AudioThread σ τ α) (ui : MainWindow α)
    (inputBuffer : List (Fin 256)) : Option (IterationResult σ τ α) :=
  runIterationWith libs t ui ui ui inputBuffer

/-- The stage chain in the words of the specification: gate, pitch shift, distortion and
band filter applied in that order to the converted chunk, each stage taking the whole
buffer the previous one produced and a stage that is switched off leaving the buffer as it
is.  It is the reference `runIteration` is compared with. -/
def composedStages (libs : Libs σ τ α) (t : AudioThread σ τ α) (ui : MainWindow α)
    (convertedBuffer : List α) : List α :=
  let gated : List α :=
    if ui.getNoiseGate < 0 then
      (applyNoiseGate libs.pow t.noiseGateDB t.gate convertedBuffer t.outputSampleRate).2
    else convertedBuffer
  let pitched : List α :=
    if |ui.m_pitchFactor - 1| > 1 / 10000 then
      (applyPitchShifting libs.soundTouch libs.math.cosf libs.math.M_PI
        (libs.soundTouch.setPitchSemiTones t.m_soundTouch
          (12 * libs.math.logf ui.m_pitchFactor / libs.math.logf 2))
        t.m_previousPitchOutput ui.m_pitchFactor gated (gated.length : ℤ) gated).outputBuffer
    else gated
  let distorted : List α :=
    if |ui.m_distortionGain - 1| > 1 / 10000 then
      applyDistortion libs.tanh pitched (pitched.length : ℤ) ui.m_distortionGain
    else pitched
  if ui.m_filterIndex ≠ 0 then
    (applyBandFilterFloat libs.math t.m_biquadFilter distorted (distorted.length : ℤ)
      ui.m_filterIndex (ui.m_lowBandFreq : α) (ui.m_highBandFreq : α) t.outputSampleRate).1
  else distorted

end Thread

/-! ## 3. Theorems -/

/-! ### Rounding to binary32 -/

section PowersOfTwo

variable {α : Type u} [LinearOrderedField α]

/-- Powers of two are positive. -/
theorem two_zpow_pos (k : ℤ) : (0 : α) < 2 ^ k := zpow_pos (by norm_num) k

end PowersOfTwo

section Binary32Theory

variable {α : Type u} [LinearOrderedField α] [FloorRing α]

/-- The rounded integer is within one half of `y`, and even when exactly one half away. -/
theorem roundHalfEven_spec (y : α) :
    |y - (roundHalfEven y : α)| ≤ 1 / 2 ∧
      (|y - (roundHalfEven y : α)| = 1 / 2 → roundHalfEven y % 2 = 0) := by
  have h0 : 0 ≤ y - ⌊y⌋ := sub_nonneg.mpr (Int.floor_le y)
  have h1 : y - ⌊y⌋ < 1 := by
    have := Int.lt_floor_add_one y
    linarith
  unfold roundHalfEven
  by_cases hlt : y - ⌊y⌋ < 1 / 2
  · rw [if_pos hlt, abs_of_nonneg h0]
    exact ⟨hlt.le, fun h => absurd h hlt.ne⟩
  · rw [if_neg hlt]
    by_cases hgt : 1 / 2 < y - ⌊y⌋
    · rw [if_pos hgt]
      have hneg : y - ((⌊y⌋ + 1 : ℤ) : α) < 0 := by push_cast; linarith
      rw [abs_of_neg hneg]
      push_cast
      constructor
      · linarith
      · intro h; exfalso; linarith
    · rw [if_neg hgt]
      have heq : y - ⌊y⌋ = 1 / 2 := le_antisymm (not_lt.mp hgt) (not_lt.mp hlt)
      by_cases hev : ⌊y⌋ % 2 = 0
      · rw [if_pos hev, abs_of_nonneg h0]
        exact ⟨heq.le, fun _ => hev⟩
      · rw [if_neg hev]
        have hneg : y - ((⌊y⌋ + 1 : ℤ) : α) < 0 := by push_cast; linarith
        rw [abs_of_neg hneg]
        push_cast
        constructor
        · linarith
        · intro _; omega

/-- An integer within one half of `y`, even when exactly one half away, is the rounded one. -/
theorem roundHalfEven_unique (y : α) (n : ℤ)
    (h : |y - (n : α)| < 1 / 2 ∨ (|y - (n : α)| = 1 / 2 ∧ n % 2 = 0)) :
    roundHalfEven y = n := by
  obtain ⟨hm, hmev⟩ := roundHalfEven_spec y
  set m := roundHalfEven y with hmdef
  have hn : |y - (n : α)| ≤ 1 / 2 := by
    rcases h with h | h
    · exact h.le
    · exact h.1.le
  have hdist : |((m - n : ℤ) : α)| ≤ 1 := by
    have : ((m - n : ℤ) : α) = (y - n) - (y - m) := by push_cast; ring
    rw [this]
    calc |(y - (n : α)) - (y - (m : α))| ≤ |y - (n : α)| + |y - (m : α)| := abs_sub _ _
      _ ≤ 1 / 2 + 1 / 2 := add_le_add hn hm
      _ = 1 := by norm_num
  have hdz : |m - n| ≤ 1 := by
    have : ((|m - n| : ℤ) : α) ≤ ((1 : ℤ) : α) := by
      rw [Int.cast_abs]; simpa using hdist
    exact_mod_cast this
  by_contra hne
  have hone : |m - n| = 1 := by
    have : 0 < |m - n| := abs_pos.mpr (sub_ne_zero.mpr hne)
    omega
  have hboth : |y - (n : α)| = 1 / 2 ∧ |y - (m : α)| = 1 / 2 := by
    have hsum : (1 : α) ≤ |y - (n : α)| + |y - (m : α)| := by
      have h1 : |((m - n : ℤ) : α)| = 1 := by
        rw [← Int.cast_abs, hone]; simp
      have : ((m - n : ℤ) : α) = (y - n) - (y - m) := by push_cast; ring
      rw [this] at h1
      calc (1 : α) = |(y - (n : α)) - (y - (m : α))| := h1.symm
        _ ≤ |y - (n : α)| + |y - (m : α)| := abs_sub _ _
    constructor
    · linarith
    · linarith
  have hnev : n % 2 = 0 := by
    rcases h with h | h
    · exfalso; linarith [hboth.1]
    · exact h.2
  have hmev2 : m % 2 = 0 := hmev hboth.2
  rcases abs_eq (by norm_num : (0 : ℤ) ≤ 1) |>.mp hone with h1 | h1 <;> omega

/-- An integer rounds to itself. -/
theorem roundHalfEven_intCast (n : ℤ) : roundHalfEven (n : α) = n :=
  roundHalfEven_unique _ _ (Or.inl (by simp))

/-- Rounding to the nearest integer, ties to even, commutes with negation. -/
theorem roundHalfEven_neg (y : α) : roundHalfEven (-y) = -roundHalfEven y := by
  obtain ⟨hm, hmev⟩ := roundHalfEven_spec y
  apply roundHalfEven_unique
  have habs : |(-y) - ((-roundHalfEven y : ℤ) : α)| = |y - (roundHalfEven y : α)| := by
    rw [← abs_neg]; congr 1; push_cast; ring
  rw [habs]
  rcases hm.lt_or_eq with h | h
  · exact Or.inl h
  · exact Or.inr ⟨h, by have := hmev h; omega⟩

/-- Rounding to the nearest integer, ties to even, is monotone. -/
theorem roundHalfEven_mono {y z : α} (h : y ≤ z) : roundHalfEven y ≤ roundHalfEven z := by
  obtain ⟨hy, hyev⟩ := roundHalfEven_spec y
  obtain ⟨hz, hzev⟩ := roundHalfEven_spec z
  by_contra hlt
  push_neg at hlt
  have h1 : (roundHalfEven z : α) + 1 ≤ roundHalfEven y := by exact_mod_cast hlt
  have hy' := abs_le.mp hy
  have hz' := abs_le.mp hz
  have hyz : y = z := le_antisymm h (by linarith)
  rw [hyz] at hlt
  exact lt_irrefl _ hlt


/-- The binary logarithm is below `k` exactly for the values below `2^k`. -/
theorem log_two_lt_iff {x : α} (hx : 0 < x) (k : ℤ) : Int.log 2 x < k ↔ x < 2 ^ k := by
  have h := Int.lt_zpow_iff_log_lt (R := α) (b := 2) (by norm_num) (x := k) hx
  rw [Nat.cast_ofNat] at h
  exact h.symm

/-- The binary logarithm is at least `k` exactly for the values from `2^k` on. -/
theorem le_log_two_iff {x : α} (hx : 0 < x) (k : ℤ) : k ≤ Int.log 2 x ↔ 2 ^ k ≤ x := by
  have h := Int.zpow_le_iff_le_log (R := α) (b := 2) (by norm_num) (x := k) hx
  rw [Nat.cast_ofNat] at h
  exact h.symm

/-- The binary logarithm of a value of the binade `[2^E, 2^(E+1))` is `E`. -/
theorem log_two_eq {x : α} (E : ℤ) (h1 : 2 ^ E ≤ x) (h2 : x < 2 ^ (E + 1)) :
    Int.log 2 x = E := by
  have hx : 0 < x := lt_of_lt_of_le (two_zpow_pos E) h1
  have ha := (le_log_two_iff hx E).mpr h1
  have hb := (log_two_lt_iff hx (E + 1)).mpr h2
  omega

/-- The spacing around `-x` is the spacing around `x`. -/
theorem ulpExp_neg (x : α) : ulpExp (-x) = ulpExp x := by
  unfold ulpExp; rw [abs_neg]

/-- No spacing is finer than `2^-149`. -/
theorem ulpExp_ge (x : α) : -149 ≤ ulpExp x := le_max_right _ _

/-- The spacing around `x` is at most `2^k` exactly when `|x| < 2^(k+24)`. -/
theorem ulpExp_le_iff {x : α} (hx : x ≠ 0) (k : ℤ) (hk : -149 ≤ k) :
    ulpExp x ≤ k ↔ |x| < 2 ^ (k + 24) := by
  unfold ulpExp
  rw [max_le_iff, ← log_two_lt_iff (abs_pos.mpr hx)]
  constructor
  · intro h; omega
  · intro h; exact ⟨by omega, hk⟩

/-- Zero is a binary32 value. -/
theorem roundF32_zero : roundF32 (0 : α) = 0 := by
  unfold roundF32
  rw [zero_div]
  have : roundHalfEven (0 : α) = 0 := by
    have := roundHalfEven_intCast (α := α) 0
    simpa using this
  rw [this]; simp

/-- Rounding to binary32 commutes with negation. -/
theorem roundF32_neg (x : α) : roundF32 (-x) = -roundF32 x := by
  unfold roundF32
  rw [ulpExp_neg, neg_div, roundHalfEven_neg]
  push_cast; ring

/-- The rounding error is at most half the spacing around `x`. -/
theorem roundF32_abs_sub_le (x : α) : |roundF32 x - x| ≤ 2 ^ ulpExp x / 2 := by
  unfold roundF32
  have hp := two_zpow_pos (α := α) (ulpExp x)
  have h := (roundHalfEven_spec (x / 2 ^ ulpExp x)).1
  have hx : (roundHalfEven (x / 2 ^ ulpExp x) : α) * 2 ^ ulpExp x - x
      = -((x / 2 ^ ulpExp x - (roundHalfEven (x / 2 ^ ulpExp x) : α)) * 2 ^ ulpExp x) := by
    field_simp
    ring
  rw [hx, abs_neg, abs_mul, abs_of_pos hp]
  calc |x / 2 ^ ulpExp x - (roundHalfEven (x / 2 ^ ulpExp x) : α)| * 2 ^ ulpExp x
      ≤ 1 / 2 * 2 ^ ulpExp x := mul_le_mul_of_nonneg_right h hp.le
    _ = 2 ^ ulpExp x / 2 := by ring

/-- Rounding keeps a non-negative value non-negative. -/
theorem roundF32_nonneg {x : α} (hx : 0 ≤ x) : 0 ≤ roundF32 x := by
  unfold roundF32
  have hp := two_zpow_pos (α := α) (ulpExp x)
  have h0 : roundHalfEven (0 : α) ≤ roundHalfEven (x / 2 ^ ulpExp x) :=
    roundHalfEven_mono (div_nonneg hx hp.le)
  have hz : roundHalfEven (0 : α) = 0 := by
    have := roundHalfEven_intCast (α := α) 0
    simpa using this
  rw [hz] at h0
  exact mul_nonneg (by exact_mod_cast h0) hp.le

/-- Rounding keeps a non-positive value non-positive. -/
theorem roundF32_nonpos {x : α} (hx : x ≤ 0) : roundF32 x ≤ 0 := by
  have := roundF32_nonneg (neg_nonneg.mpr hx)
  rw [roundF32_neg] at this
  linarith

/-- A value on the grid of its own binade is left unchanged. -/
theorem roundF32_of_grid_le (x : α) (m k : ℤ) (hx : x = (m : α) * 2 ^ k) (hk : ulpExp x ≤ k) :
    roundF32 x = x := by
  unfold roundF32
  generalize ulpExp x = e at hk
  have hp := two_zpow_pos (α := α) e
  have hdiv : x / 2 ^ e = ((m * 2 ^ (k - e).toNat : ℤ) : α) := by
    rw [hx]
    push_cast
    rw [div_eq_iff hp.ne', mul_assoc, ← zpow_natCast, ← zpow_add₀ (by norm_num : (2 : α) ≠ 0)]
    congr 2
    rw [Int.toNat_of_nonneg (by omega)]
    ring
  rw [hdiv, roundHalfEven_intCast, ← hdiv]
  field_simp

/-- An integer of fewer than 25 bits times a power of two from `2^-149` on is a binary32
value. -/
theorem roundF32_of_grid (m k : ℤ) (hk : -149 ≤ k) (hm : |m| < 2 ^ 24) :
    roundF32 ((m : α) * 2 ^ k) = (m : α) * 2 ^ k := by
  by_cases h0 : m = 0
  · subst h0; simp [roundF32_zero]
  · apply roundF32_of_grid_le _ m k rfl
    have hne : (m : α) * 2 ^ k ≠ 0 :=
      mul_ne_zero (by exact_mod_cast h0) (two_zpow_pos k).ne'
    rw [ulpExp_le_iff hne k hk, abs_mul, abs_of_pos (two_zpow_pos (α := α) k),
      zpow_add₀ (by norm_num : (2 : α) ≠ 0), mul_comm]
    apply mul_lt_mul_of_pos_left _ (two_zpow_pos k)
    have : ((|m| : ℤ) : α) < ((2 ^ 24 : ℤ) : α) := by exact_mod_cast hm
    rw [Int.cast_abs] at this
    have e : (((2 ^ 24 : ℤ) : α)) = 2 ^ (24 : ℤ) := by norm_num
    rw [e] at this
    exact this

/-- The integers up to `2^24` in magnitude are binary32 values. -/
theorem roundF32_intCast (n : ℤ) (h : |n| ≤ 2 ^ 24) : roundF32 (n : α) = n := by
  rcases h.lt_or_eq with h | h
  · have := roundF32_of_grid (α := α) n 0 (by norm_num) h
    simpa using this
  · have hn : n = 2 ^ 24 ∨ n = -2 ^ 24 := by
      rcases abs_eq (by norm_num : (0 : ℤ) ≤ 2 ^ 24) |>.mp h with h | h
      · exact Or.inl h
      · exact Or.inr h
    rcases hn with hn | hn
    · have := roundF32_of_grid (α := α) (2 ^ 23) 1 (by norm_num) (by norm_num)
      rw [hn]
      have e : (((2 ^ 23 : ℤ) : α)) * 2 ^ (1 : ℤ) = ((2 ^ 24 : ℤ) : α) := by norm_num
      rw [e] at this; exact this
    · have := roundF32_of_grid (α := α) (-2 ^ 23) 1 (by norm_num) (by norm_num)
      rw [hn]
      have e : (((-2 ^ 23 : ℤ) : α)) * 2 ^ (1 : ℤ) = ((-2 ^ 24 : ℤ) : α) := by norm_num
      rw [e] at this; exact this

/-- One is a binary32 value. -/
theorem roundF32_one : roundF32 (1 : α) = 1 := by
  have := roundF32_intCast (α := α) 1 (by norm_num)
  simpa using this


/-- Monotonicity of the rounding above a positive value. -/
theorem roundF32_mono_of_pos {x y : α} (hx : 0 < x) (h : x ≤ y) : roundF32 x ≤ roundF32 y := by
  have hy : 0 < y := lt_of_lt_of_le hx h
  have hL : Int.log 2 |x| ≤ Int.log 2 |y| := by
    rw [abs_of_pos hx, abs_of_pos hy]
    exact Int.log_mono_right hx h
  have hexy : ulpExp x ≤ ulpExp y := max_le_max (sub_le_sub_right hL 23) le_rfl
  rcases hexy.eq_or_lt with heq | hlt
  · unfold roundF32
    rw [heq]
    have hp := two_zpow_pos (α := α) (ulpExp y)
    apply mul_le_mul_of_nonneg_right _ hp.le
    have : roundHalfEven (x / 2 ^ ulpExp y) ≤ roundHalfEven (y / 2 ^ ulpExp y) :=
      roundHalfEven_mono (div_le_div_of_nonneg_right h hp.le)
    exact_mod_cast this
  · have hB : roundF32 x ≤ 2 ^ (ulpExp x + 24) := by
      have hlt1 : x < 2 ^ (Int.log 2 |x| + 1) := by
        have := (log_two_lt_iff (abs_pos.mpr hx.ne') (Int.log 2 |x| + 1)).mp (by omega)
        exact (le_abs_self x).trans_lt this
      have hle : Int.log 2 |x| + 1 ≤ ulpExp x + 24 := by
        have : Int.log 2 |x| - 23 ≤ ulpExp x := le_max_left _ _
        omega
      have hx24 : x ≤ 2 ^ (ulpExp x + 24) :=
        hlt1.le.trans (zpow_le_zpow_right₀ (by norm_num) hle)
      have hp := two_zpow_pos (α := α) (ulpExp x)
      have hdiv : x / 2 ^ ulpExp x ≤ ((2 ^ 24 : ℤ) : α) := by
        rw [div_le_iff₀ hp]
        have e : (((2 ^ 24 : ℤ) : α)) * 2 ^ ulpExp x = 2 ^ (ulpExp x + 24) := by
          rw [zpow_add₀ (by norm_num : (2 : α) ≠ 0)]; norm_num; ring
        rw [e]; exact hx24
      have hr := roundHalfEven_mono hdiv
      rw [roundHalfEven_intCast] at hr
      unfold roundF32
      have hr' : (roundHalfEven (x / 2 ^ ulpExp x) : α) ≤ ((2 ^ 24 : ℤ) : α) := by
        exact_mod_cast hr
      calc (roundHalfEven (x / 2 ^ ulpExp x) : α) * 2 ^ ulpExp x
          ≤ ((2 ^ 24 : ℤ) : α) * 2 ^ ulpExp x := mul_le_mul_of_nonneg_right hr' hp.le
        _ = 2 ^ (ulpExp x + 24) := by
          rw [zpow_add₀ (by norm_num : (2 : α) ≠ 0)]; norm_num; ring
    have hA : (2 : α) ^ (ulpExp y + 23) ≤ roundF32 y := by
      have hey : ulpExp y = Int.log 2 |y| - 23 := by
        have h149 := ulpExp_ge x
        unfold ulpExp at hlt ⊢
        rcases max_cases (Int.log 2 |y| - 23) (-149) with ⟨h1, _⟩ | ⟨h1, _⟩
        · exact h1
        · rw [h1] at hlt
          have := le_max_right (Int.log 2 |x| - 23) (-149)
          omega
      have hge : (2 : α) ^ (ulpExp y + 23) ≤ y := by
        have := (le_log_two_iff (abs_pos.mpr hy.ne') (ulpExp y + 23)).mp (by omega)
        rwa [abs_of_pos hy] at this
      have hp := two_zpow_pos (α := α) (ulpExp y)
      have hdiv : ((2 ^ 23 : ℤ) : α) ≤ y / 2 ^ ulpExp y := by
        rw [le_div_iff₀ hp]
        have e : (((2 ^ 23 : ℤ) : α)) * 2 ^ ulpExp y = 2 ^ (ulpExp y + 23) := by
          rw [zpow_add₀ (by norm_num : (2 : α) ≠ 0)]; norm_num; ring
        rw [e]; exact hge
      have hr := roundHalfEven_mono hdiv
      rw [roundHalfEven_intCast] at hr
      unfold roundF32
      have hr' : ((2 ^ 23 : ℤ) : α) ≤ (roundHalfEven (y / 2 ^ ulpExp y) : α) := by
        exact_mod_cast hr
      calc (2 : α) ^ (ulpExp y + 23) = ((2 ^ 23 : ℤ) : α) * 2 ^ ulpExp y := by
            rw [zpow_add₀ (by norm_num : (2 : α) ≠ 0)]; norm_num; ring
        _ ≤ (roundHalfEven (y / 2 ^ ulpExp y) : α) * 2 ^ ulpExp y :=
            mul_le_mul_of_nonneg_right hr' hp.le
    have hpow : (2 : α) ^ (ulpExp x + 24) ≤ 2 ^ (ulpExp y + 23) :=
      zpow_le_zpow_right₀ (by norm_num) (by omega)
    exact hB.trans (hpow.trans hA)

/-- Rounding to binary32 is monotone. -/
theorem roundF32_mono {x y : α} (h : x ≤ y) : roundF32 x ≤ roundF32 y := by
  rcases lt_trichotomy 0 x with hx | hx | hx
  · exact roundF32_mono_of_pos hx h
  · rw [← hx, roundF32_zero]
    exact roundF32_nonneg (hx ▸ h)
  · rcases le_or_lt 0 y with hy | hy
    · exact (roundF32_nonpos hx.le).trans (roundF32_nonneg hy)
    · have := roundF32_mono_of_pos (neg_pos.mpr hy) (neg_le_neg h)
      rw [roundF32_neg, roundF32_neg] at this
      linarith

/-- Evaluation of a rounding: `x` lies in the binade `[2^E, 2^(E+1))` and closer than half a
grid step to the grid value `n * 2^e`. -/
theorem roundF32_eq_of_close {x : α} (E e n : ℤ) (h1 : 2 ^ E ≤ x) (h2 : x < 2 ^ (E + 1))
    (he : e = max (E - 23) (-149)) (hlo : (n : α) * 2 ^ e - 2 ^ e / 2 < x)
    (hhi : x < (n : α) * 2 ^ e + 2 ^ e / 2) : roundF32 x = (n : α) * 2 ^ e := by
  have hx : 0 < x := lt_of_lt_of_le (two_zpow_pos E) h1
  have hu : ulpExp x = e := by
    unfold ulpExp
    rw [abs_of_pos hx, log_two_eq E h1 h2, he]
  unfold roundF32
  rw [hu]
  have hp := two_zpow_pos (α := α) e
  have : roundHalfEven (x / 2 ^ e) = n := by
    apply roundHalfEven_unique
    left
    rw [abs_lt]
    constructor
    · rw [lt_sub_iff_add_lt, lt_div_iff₀ hp]
      linarith
    · rw [sub_lt_iff_lt_add, div_lt_iff₀ hp]
      linarith
  rw [this]

/-- Evaluation of a rounding at a tie: `x` lies in the binade `[2^E, 2^(E+1))`, exactly
halfway above the grid value `n * 2^e`, and `n` is even. -/
theorem roundF32_eq_of_tie {x : α} (E e n : ℤ) (h1 : 2 ^ E ≤ x) (h2 : x < 2 ^ (E + 1))
    (he : e = max (E - 23) (-149)) (hx : x = (n : α) * 2 ^ e + 2 ^ e / 2) (hn : n % 2 = 0) :
    roundF32 x = (n : α) * 2 ^ e := by
  have hx0 : 0 < x := lt_of_lt_of_le (two_zpow_pos E) h1
  have hu : ulpExp x = e := by
    unfold ulpExp
    rw [abs_of_pos hx0, log_two_eq E h1 h2, he]
  unfold roundF32
  rw [hu]
  have hp := two_zpow_pos (α := α) e
  have : roundHalfEven (x / 2 ^ e) = n := by
    apply roundHalfEven_unique
    right
    refine ⟨?_, hn⟩
    have hdiv : x / 2 ^ e - (n : α) = 1 / 2 := by
      rw [hx]; field_simp; ring
    rw [hdiv, abs_of_pos (by norm_num)]
  rw [this]

/-- In `[-1, 1]` the rounding error is at most `2^-25`. -/
theorem roundF32_abs_sub_le_of_abs_le_one {x : α} (h : |x| ≤ 1) :
    |roundF32 x - x| ≤ 2 ^ (-25 : ℤ) := by
  have hpos : (0 : α) ≤ 2 ^ (-25 : ℤ) := (two_zpow_pos _).le
  rcases h.lt_or_eq with hlt | heq
  · by_cases h0 : x = 0
    · rw [h0, roundF32_zero]; simpa using hpos
    · have hu : ulpExp x ≤ -24 := by
        rw [ulpExp_le_iff h0 (-24) (by norm_num)]
        simpa using hlt
      calc |roundF32 x - x| ≤ 2 ^ ulpExp x / 2 := roundF32_abs_sub_le x
        _ ≤ 2 ^ (-24 : ℤ) / 2 := by
          apply div_le_div_of_nonneg_right _ (by norm_num)
          exact zpow_le_zpow_right₀ (by norm_num) hu
        _ = 2 ^ (-25 : ℤ) := by
          rw [show (-24 : ℤ) = -25 + 1 by norm_num, zpow_add₀ (by norm_num : (2 : α) ≠ 0)]
          simp
  · rcases abs_eq (by norm_num : (0 : α) ≤ 1) |>.mp heq with h1 | h1
    · rw [h1, roundF32_one]; simpa using hpos
    · rw [h1, roundF32_neg, roundF32_one]; simpa using hpos

/-- In the normal range the rounding error is at most `2^-24` times the magnitude. -/
theorem roundF32_abs_sub_le_mul {x : α} (h : 2 ^ (-126 : ℤ) ≤ |x|) :
    |roundF32 x - x| ≤ |x| * 2 ^ (-24 : ℤ) := by
  have hx : 0 < |x| := lt_of_lt_of_le (two_zpow_pos _) h
  have hlog : -126 ≤ Int.log 2 |x| := (le_log_two_iff hx (-126)).mpr h
  have hu : ulpExp x = Int.log 2 |x| - 23 := by
    unfold ulpExp
    exact max_eq_left (by omega)
  have hle : (2 : α) ^ Int.log 2 |x| ≤ |x| := (le_log_two_iff hx _).mp le_rfl
  calc |roundF32 x - x| ≤ 2 ^ ulpExp x / 2 := roundF32_abs_sub_le x
    _ = 2 ^ Int.log 2 |x| * 2 ^ (-24 : ℤ) := by
      rw [hu, show Int.log 2 |x| - 23 = Int.log 2 |x| + (-24) + 1 by ring,
        zpow_add₀ (by norm_num : (2 : α) ≠ 0), zpow_add₀ (by norm_num : (2 : α) ≠ 0)]
      simp
    _ ≤ |x| * 2 ^ (-24 : ℤ) := mul_le_mul_of_nonneg_right hle (two_zpow_pos _).le

/-- The truncation of a non-negative value is its floor. -/
theorem truncToInt_of_nonneg {x : α} (hx : 0 ≤ x) : truncToInt x = ⌊x⌋ := by
  unfold truncToInt
  rw [if_pos hx]

/-- Truncation toward zero is monotone. -/
theorem truncToInt_mono {x y : α} (h : x ≤ y) : truncToInt x ≤ truncToInt y := by
  unfold truncToInt
  by_cases hx : 0 ≤ x
  · rw [if_pos hx, if_pos (hx.trans h)]
    exact Int.floor_mono h
  · rw [if_neg hx]
    by_cases hy : 0 ≤ y
    · rw [if_pos hy]
      have h1 : ⌈x⌉ ≤ 0 := Int.ceil_le.mpr (by simpa using (not_le.mp hx).le)
      have h2 : (0 : ℤ) ≤ ⌊y⌋ := Int.floor_nonneg.mpr hy
      omega
    · rw [if_neg hy]
      exact Int.ceil_mono h

end Binary32Theory

section CrossfadeProduct

variable {α : Type u} [LinearOrderedField α] [FloorRing α]

/-- When the product `50 * |pitchFactor|` is an integer `n` of at most 24 bits, the rounding
leaves it alone and the crossfade length is `n` clamped to `[50, 256]`. -/
theorem crossfadeSamplesOf_of_product_eq (pitchFactor : α) (n : ℤ) (h0 : 0 ≤ n)
    (h24 : n ≤ 2 ^ 24) (h : 50 * |pitchFactor| = (n : α)) :
    crossfadeSamplesOf pitchFactor = clampInt n 50 256 := by
  unfold crossfadeSamplesOf
  rw [h, roundF32_intCast n (by rw [abs_of_nonneg h0]; exact h24),
    truncToInt_of_nonneg (by exact_mod_cast h0), Int.floor_intCast]

end CrossfadeProduct

section BiquadGuards

variable {α : Type u} [LinearOrderedField α]

/-- C1: when the frequency (cutoff, or centre frequency for the band filters) is `<= 0` or
`>= sampleRate / 2`, each of `applyLowPass`, `applyHighPass`, `applyBandPass` and
`applyBandStop` returns the buffer and the whole filter object (all coefficients and the
delay cells `z1`, `z2`) exactly as they were passed in. -/
theorem Biquad.apply_noop_outside_nyquist (m : MathFns α) (f : Biquad α) (buffer : List α)
    (freq bandwidth : α) (sampleRate : ℤ)
    (h : freq ≤ 0 ∨ freq ≥ (sampleRate : α) / 2) :
    f.applyLowPass m buffer freq sampleRate = (buffer, f) ∧
    f.applyHighPass m buffer freq sampleRate = (buffer, f) ∧
    f.applyBandPass m buffer freq bandwidth sampleRate = (buffer, f) ∧
    f.applyBandStop m buffer freq bandwidth sampleRate = (buffer, f) := by
  have h' : freq ≤ 0 ∨ freq ≥ (sampleRate : α) * (1 / 2) := by
    rcases h with h | h
    · exact Or.inl h
    · exact Or.inr (by rw [mul_one_div]; exact h)
  refine ⟨?_, ?_, ?_, ?_⟩
  · unfold Biquad.applyLowPass; rw [if_pos h']
  · unfold Biquad.applyHighPass; rw [if_pos h']
  · unfold Biquad.applyBandPass; rw [if_pos h']
  · unfold Biquad.applyBandStop; rw [if_pos h']

/-- Witness for C1: a 30 kHz cutoff at a 44.1 kHz sample rate is above Nyquist. -/
theorem Biquad.apply_noop_outside_nyquist_witness :
    ((30000 : ℚ) ≤ 0 ∨ (30000 : ℚ) ≥ ((44100 : ℤ) : ℚ) / 2) ∧
    (Biquad.init : Biquad ℚ).applyLowPass ⟨id, id, id, id, 3⟩ [1, -1] 30000 44100
      = ([1, -1], Biquad.init) ∧
    (Biquad.init : Biquad ℚ).applyHighPass ⟨id, id, id, id, 3⟩ [1, -1] 30000 44100
      = ([1, -1], Biquad.init) ∧
    (Biquad.init : Biquad ℚ).applyBandPass ⟨id, id, id, id, 3⟩ [1, -1] 30000 100 44100
      = ([1, -1], Biquad.init) ∧
    (Biquad.init : Biquad ℚ).applyBandStop ⟨id, id, id, id, 3⟩ [1, -1] 30000 100 44100
      = ([1, -1], Biquad.init) :=
  ⟨by norm_num,
   Biquad.apply_noop_outside_nyquist ⟨id, id, id, id, 3⟩ Biquad.init [1, -1] 30000 100 44100
     (by norm_num)⟩

end BiquadGuards

section Distortion

variable {α : Type u} [LinearOrderedField α]

/-- Cell `j` after the distortion loop has run `k` iterations from index `i`. -/
theorem applyDistortionLoop_getElem? (tanh : α → α) (gain : α) (k : ℕ) :
    ∀ (i : ℕ) (samples : List α) (j : ℕ),
      (applyDistortionLoop tanh gain k i samples)[j]? =
        if i ≤ j ∧ j < i + k then (samples[j]?).map (fun s => tanh (s * gain))
        else samples[j]? := by
  induction k with
  | zero =>
    intro i samples j
    have hc : ¬ (i ≤ j ∧ j < i + 0) := by omega
    rw [if_neg hc]
    rfl
  | succ k ih =>
    intro i samples j
    simp only [applyDistortionLoop]
    rw [ih]
    by_cases hji : j = i
    · subst hji
      have h1 : ¬ (j + 1 ≤ j ∧ j < j + 1 + k) := by omega
      have h2 : j ≤ j ∧ j < j + (k + 1) := by omega
      rw [if_neg h1, if_pos h2, List.getElem?_set]
      by_cases hlt : j < samples.length
      · simp [hlt, List.getD_eq_getElem?_getD, List.getElem?_eq_getElem hlt]
      · have hnone : samples[j]? = none := List.getElem?_eq_none (by omega)
        simp [hlt, hnone]
    · have hne : i ≠ j := fun h => hji h.symm
      rw [List.getElem?_set, if_neg hne]
      by_cases hc : i ≤ j ∧ j < i + (k + 1)
      · have hc' : i + 1 ≤ j ∧ j < i + 1 + k := by omega
        rw [if_pos hc, if_pos hc']
      · have hc' : ¬ (i + 1 ≤ j ∧ j < i + 1 + k) := by omega
        rw [if_neg hc, if_neg hc']

/-- On a buffer of exactly `numSamples` samples the stage is the elementwise map
`s ↦ tanh (s * gain)`. -/
theorem applyDistortion_eq_map (tanh : α → α) (samples : List α) (gain : α) :
    applyDistortion tanh samples (samples.length : ℤ) gain
      = samples.map (fun s => tanh (s * gain)) := by
  apply List.ext_getElem?
  intro j
  unfold applyDistortion
  rw [Int.toNat_ofNat, applyDistortionLoop_getElem?, List.getElem?_map]
  by_cases hj : j < samples.length
  · have : 0 ≤ j ∧ j < 0 + samples.length := by omega
    rw [if_pos this]
  · have : ¬ (0 ≤ j ∧ j < 0 + samples.length) := by omega
    rw [if_neg this, List.getElem?_eq_none (by omega)]
    rfl

/-- C2: on a buffer of `n` samples `applyDistortion` keeps the length and writes
`tanh (input[i] * gain)` into every cell `i`, a value that depends on `input[i]` and the
gain only; with gain `1` the output is `tanh` applied elementwise. -/
theorem applyDistortion_elementwise (tanh : α → α) (samples : List α) (gain : α) :
    (applyDistortion tanh samples (samples.length : ℤ) gain).length = samples.length ∧
    applyDistortion tanh samples (samples.length : ℤ) gain
      = samples.map (fun s => tanh (s * gain)) ∧
    applyDistortion tanh samples (samples.length : ℤ) 1 = samples.map tanh := by
  refine ⟨?_, applyDistortion_eq_map tanh samples gain, ?_⟩
  · rw [applyDistortion_eq_map, List.length_map]
  · rw [applyDistortion_eq_map]
    simp

end Distortion

section DistortionRange

/-- The real hyperbolic tangent lies strictly between `-1` and `1`. -/
theorem tanh_strict_range (x : ℝ) : -1 < Real.tanh x ∧ Real.tanh x < 1 := by
  have hc : 0 < Real.cosh x := Real.cosh_pos _
  have hlt : Real.sinh x < Real.cosh x := Real.sinh_lt_cosh _
  have hgt : -Real.cosh x < Real.sinh x := by
    have := Real.sinh_lt_cosh (-x)
    rw [Real.sinh_neg, Real.cosh_neg] at this
    linarith
  rw [Real.tanh_eq_sinh_div_cosh]
  constructor
  · rw [lt_div_iff₀ hc]; linarith
  · rw [div_lt_iff₀ hc]; linarith

/-- `std::tanh` on a `float`, taken as the real hyperbolic tangent of the binary32 argument
rounded to binary32, has its values in `[-1, 1]`. -/
theorem roundF32_tanh_range (x : ℝ) :
    -1 ≤ roundF32 (Real.tanh (roundF32 x)) ∧ roundF32 (Real.tanh (roundF32 x)) ≤ 1 := by
  obtain ⟨h1, h2⟩ := tanh_strict_range (roundF32 x)
  constructor
  · have h := roundF32_mono h1.le
    rwa [roundF32_neg, roundF32_one] at h
  · have h := roundF32_mono h2.le
    rwa [roundF32_one] at h

/-- The real hyperbolic tangent of `500` is closer to `1` than half the spacing of the
binary32 values below `1`. -/
theorem one_sub_tanh_500_lt : 1 - Real.tanh 500 < 2 ^ (-24 : ℤ) / 2 := by
  have hc : 0 < Real.cosh 500 := Real.cosh_pos _
  have h1 : 1 - Real.tanh 500 = Real.exp (-500) / Real.cosh 500 := by
    rw [Real.tanh_eq_sinh_div_cosh, ← Real.cosh_sub_sinh]
    field_simp
  have hexp : (2 : ℝ) ^ 500 ≤ Real.exp 500 := by
    have h2 : (2 : ℝ) ≤ Real.exp 1 := by
      have := Real.exp_one_gt_d9
      linarith
    have := pow_le_pow_left₀ (by norm_num : (0 : ℝ) ≤ 2) h2 500
    rw [Real.exp_one_pow] at this
    simpa using this
  have hcosh : Real.exp 500 / 2 ≤ Real.cosh 500 := by
    rw [Real.cosh_eq]
    have := Real.exp_pos (-500)
    linarith
  have hneg : Real.exp (-500) ≤ 1 / 2 ^ 500 := by
    rw [Real.exp_neg, inv_eq_one_div]
    exact one_div_le_one_div_of_le (by positivity) hexp
  rw [h1, div_lt_iff₀ hc]
  have hprod : (1 : ℝ) / 2 ^ 500 < 2 ^ (-24 : ℤ) / 2 * (2 ^ 500 / 2) := by
    norm_num
  calc Real.exp (-500) ≤ 1 / 2 ^ 500 := hneg
    _ < 2 ^ (-24 : ℤ) / 2 * (2 ^ 500 / 2) := hprod
    _ ≤ 2 ^ (-24 : ℤ) / 2 * Real.cosh 500 := by
      apply mul_le_mul_of_nonneg_left _ (by positivity)
      linarith

/-- In binary32 the hyperbolic tangent of `500` is `1`. -/
theorem roundF32_tanh_500 : roundF32 (Real.tanh 500) = 1 := by
  obtain ⟨-, hlt⟩ := tanh_strict_range 500
  have hclose := one_sub_tanh_500_lt
  have hpow : (2 : ℝ) ^ (-24 : ℤ) / 2 < 1 / 2 := by norm_num
  have h := roundF32_eq_of_close (x := Real.tanh 500) (-1) (-24) (2 ^ 24)
    (by norm_num; linarith) (by norm_num; linarith) (by decide)
    (by norm_num; norm_num at hclose; linarith) (by norm_num; linarith)
  rw [h]; norm_num

end DistortionRange

section DistortionBounds

variable {α : Type u} [LinearOrderedField α]

/-- C3, as amended: for every input buffer and every gain, gains outside `[0, 4]` and
negative gains included, every sample that `applyDistortion` writes lies in the closed
interval from `-1` to `+1`, for every `std::tanh` whose values lie in that interval. -/
theorem applyDistortion_within_unit_interval (tanh : α → α)
    (htanh : ∀ x, -1 ≤ tanh x ∧ tanh x ≤ 1) (samples : List α) (gain y : α)
    (hy : y ∈ applyDistortion tanh samples (samples.length : ℤ) gain) :
    -1 ≤ y ∧ y ≤ 1 := by
  rw [applyDistortion_eq_map, List.mem_map] at hy
  obtain ⟨s, -, rfl⟩ := hy
  exact htanh _

end DistortionBounds

section DistortionBinary32

/-- The sample `5` with gain `-100` in binary32: the stage writes `-1`. -/
theorem applyDistortion_five_gain_minus_hundred :
    applyDistortion (fun x : ℝ => roundF32 (Real.tanh (roundF32 x))) [5]
      (([5] : List ℝ).length : ℤ) (-100) = [-1] := by
  rw [applyDistortion_eq_map]
  have hprod : roundF32 ((5 : ℝ) * -100) = -500 := by
    have := roundF32_intCast (α := ℝ) (-500) (by norm_num)
    norm_num at this ⊢
    exact this
  simp only [List.map_cons, List.map_nil, hprod]
  rw [Real.tanh_neg, roundF32_neg, roundF32_tanh_500]

/-- Counterexample to C3 as stated: the sample `5` with gain `-100`.  The `float` product is
`-500`; the hyperbolic tangent of `-500` differs from `-1` by less than `10^-400`, and the
nearest `float` is `-1` itself, which is what the stage writes: a sample that is not
strictly above `-1`. -/
theorem applyDistortion_reaches_minus_one :
    (-1 : ℝ) ∈ applyDistortion (fun x : ℝ => roundF32 (Real.tanh (roundF32 x))) [5]
        (([5] : List ℝ).length : ℤ) (-100) ∧
    ¬ ((-1 : ℝ) < -1) := by
  rw [applyDistortion_five_gain_minus_hundred]
  exact ⟨by simp, lt_irrefl _⟩

/-- Witness for C3: binary32 `std::tanh`, gain `-100` (outside `[0, 4]`) on the one-sample
buffer `[5]`. -/
theorem applyDistortion_within_unit_interval_witness :
    ((∀ x : ℝ, -1 ≤ roundF32 (Real.tanh (roundF32 x)) ∧
        roundF32 (Real.tanh (roundF32 x)) ≤ 1) ∧
     (-1 : ℝ) ∈ applyDistortion (fun x : ℝ => roundF32 (Real.tanh (roundF32 x))) [5]
        (([5] : List ℝ).length : ℤ) (-100)) ∧
    (-1 ≤ (-1 : ℝ) ∧ (-1 : ℝ) ≤ 1) :=
  ⟨⟨roundF32_tanh_range, by rw [applyDistortion_five_gain_minus_hundred]; simp⟩,
   applyDistortion_within_unit_interval (fun x : ℝ => roundF32 (Real.tanh (roundF32 x)))
     roundF32_tanh_range [5] (-100) (-1)
     (by rw [applyDistortion_five_gain_minus_hundred]; simp)⟩

end DistortionBinary32

section Conversion

variable {α : Type u} [LinearOrderedField α]

/-- Every 16-bit word read from the capture bytes is in the `int16` range. -/
theorem int16At_range (bytes : List (Fin 256)) (i : ℕ) :
    -32768 ≤ int16At bytes i ∧ int16At bytes i ≤ 32767 := by
  have h1 := (bytes.getD (2 * i) 0).isLt
  have h2 := (bytes.getD (2 * i + 1) 0).isLt
  unfold int16At
  simp only
  split_ifs with h <;> constructor <;> omega

/-- A scaled 16-bit word lies in `[-1, 1]`. -/
theorem int16At_scaled_range (bytes : List (Fin 256)) (i : ℕ) :
    -1 ≤ (int16At bytes i : α) * (1 / 32768) ∧ (int16At bytes i : α) * (1 / 32768) ≤ 1 := by
  obtain ⟨hlo, hhi⟩ := int16At_range bytes i
  have hlo' : (-32768 : α) ≤ (int16At bytes i : α) := by exact_mod_cast hlo
  have hhi' : (int16At bytes i : α) ≤ 32767 := by exact_mod_cast hhi
  constructor
  · rw [mul_one_div, le_div_iff₀ (by norm_num)]; linarith
  · rw [mul_one_div, div_le_iff₀ (by norm_num)]; linarith

/-- Cell `j` after the conversion loop has run `k` iterations from index `i`. -/
theorem int16ToFloatLoop_getElem? (input : List (Fin 256)) (k : ℕ) :
    ∀ (i : ℕ) (out : List α) (j : ℕ),
      (int16ToFloatLoop input k i out)[j]? =
        if i ≤ j ∧ j < i + k ∧ j < out.length then some ((int16At input j : α) * (1 / 32768))
        else out[j]? := by
  induction k with
  | zero =>
    intro i out j
    have hc : ¬ (i ≤ j ∧ j < i + 0 ∧ j < out.length) := by omega
    rw [if_neg hc]
    rfl
  | succ k ih =>
    intro i out j
    simp only [int16ToFloatLoop]
    rw [ih, List.length_set, List.getElem?_set]
    by_cases hji : i = j
    · subst hji
      have h1 : ¬ (i + 1 ≤ i ∧ i < i + 1 + k ∧ i < out.length) := by omega
      rw [if_neg h1, if_pos rfl]
      by_cases hlt : i < out.length
      · have h2 : i ≤ i ∧ i < i + (k + 1) ∧ i < out.length := by omega
        rw [if_pos hlt, if_pos h2]
      · have h2 : ¬ (i ≤ i ∧ i < i + (k + 1) ∧ i < out.length) := by omega
        rw [if_neg hlt, if_neg h2, List.getElem?_eq_none (by omega)]
    · rw [if_neg hji]
      by_cases hc : i ≤ j ∧ j < i + (k + 1) ∧ j < out.length
      · have hc' : i + 1 ≤ j ∧ j < i + 1 + k ∧ j < out.length := by omega
        rw [if_pos hc, if_pos hc']
      · have hc' : ¬ (i + 1 ≤ j ∧ j < i + 1 + k ∧ j < out.length) := by omega
        rw [if_neg hc, if_neg hc']

/-- Filling a fresh buffer of `n` cells gives the `n` scaled words in order. -/
theorem int16ToFloatLoop_replicate (input : List (Fin 256)) (n : ℕ) :
    int16ToFloatLoop input n 0 (List.replicate n (0 : α))
      = (List.range n).map (fun i => (int16At input i : α) * (1 / 32768)) := by
  apply List.ext_getElem?
  intro j
  rw [int16ToFloatLoop_getElem?, List.length_replicate, List.getElem?_map]
  by_cases hj : j < n
  · have hc : 0 ≤ j ∧ j < 0 + n ∧ j < n := by omega
    rw [if_pos hc, List.getElem?_range hj]
    rfl
  · have hc : ¬ (0 ≤ j ∧ j < 0 + n ∧ j < n) := by omega
    rw [if_neg hc, List.getElem?_eq_none (by simp; omega),
      List.getElem?_eq_none (by simp; omega)]
    rfl

/-- C4: for a non-empty capture buffer and at least one channel, `int16ToFloat` returns
`frames * channels` floats with `frames = byteCount / (2 * channels)` (bytes of a partial
frame are dropped), sample `i` being the `i`-th 16-bit word divided by `32768`; every
returned sample lies in `[-1, 1]`; the words `0, 16384, -32768, 32767` give
`0, 1/2, -1, 32767/32768`; and an empty input gives an empty output. -/
theorem int16ToFloat_spec (input : List (Fin 256)) (channels : ℕ)
    (hne : input ≠ []) (hch : 1 ≤ channels) :
    int16ToFloat input channels
      = some ((List.range (input.length / (2 * channels) * channels)).map
          (fun i => (int16At input i : α) / 32768)) ∧
    (∀ out : List α, int16ToFloat input channels = some out →
      out.length = input.length / (2 * channels) * channels ∧
      ∀ y ∈ out, -1 ≤ y ∧ y ≤ 1) ∧
    int16ToFloat [0, 0, 0, 64, 0, 128, 255, 127] 1
      = some [(0 : α), 1 / 2, -1, 32767 / 32768] ∧
    int16ToFloat [] channels = some ([] : List α) := by
  have hmain : int16ToFloat input channels
      = some ((List.range (input.length / (2 * channels) * channels)).map
          (fun i => (int16At input i : α) / 32768)) := by
    unfold int16ToFloat
    have h1 : input.isEmpty = false := by
      cases input with
      | nil => exact absurd rfl hne
      | cons _ _ => rfl
    have h2 : ¬ channels = 0 := by omega
    rw [h1]
    simp only [Bool.false_eq_true, if_false, if_neg h2]
    rw [int16ToFloatLoop_replicate, mul_comm channels 2]
    simp only [mul_one_div]
  refine ⟨hmain, ?_, ?_, ?_⟩
  · intro out hout
    rw [hmain] at hout
    have hout' := Option.some.inj hout
    subst hout'
    refine ⟨by simp, ?_⟩
    intro y hy
    rw [List.mem_map] at hy
    obtain ⟨i, -, rfl⟩ := hy
    have := int16At_scaled_range (α := α) input i
    rw [mul_one_div] at this
    exact this
  · have e0 : int16At [0, 0, 0, 64, 0, 128, 255, 127] 0 = 0 := by decide
    have e1 : int16At [0, 0, 0, 64, 0, 128, 255, 127] 1 = 16384 := by decide
    have e2 : int16At [0, 0, 0, 64, 0, 128, 255, 127] 2 = -32768 := by decide
    have e3 : int16At [0, 0, 0, 64, 0, 128, 255, 127] 3 = 32767 := by decide
    simp only [int16ToFloat, int16ToFloatLoop, e0, e1, e2, e3, List.isEmpty_cons,
      Bool.false_eq_true, if_false, one_ne_zero, List.length_cons, List.length_nil,
      List.replicate, List.set]
    norm_num
  · rfl

/-- Witness for C4: nine capture bytes on two channels are two whole frames (the ninth
byte is dropped). -/
theorem int16ToFloat_spec_witness :
    ([0, 0, 0, 64, 0, 128, 255, 127, 7] : List (Fin 256)) ≠ [] ∧ 1 ≤ 2 ∧
    int16ToFloat [0, 0, 0, 64, 0, 128, 255, 127, 7] 2
      = some ((List.range (([0, 0, 0, 64, 0, 128, 255, 127, 7] : List (Fin 256)).length
            / (2 * 2) * 2)).map
          (fun i => (int16At [0, 0, 0, 64, 0, 128, 255, 127, 7] i : ℚ) / 32768)) :=
  ⟨by simp, by decide,
   (int16ToFloat_spec (α := ℚ) [0, 0, 0, 64, 0, 128, 255, 127, 7] 2 (by simp)
      (by decide)).1⟩

end Conversion

section LevelMeter

variable {α : Type u} [LinearOrderedField α]

/-- The running maximum never drops below its starting value. -/
theorem le_computeLevelLoop (buffer : List α) : ∀ maxVal : α,
    maxVal ≤ computeLevelLoop buffer maxVal := by
  induction buffer with
  | nil => intro maxVal; exact le_refl _
  | cons sample rest ih =>
    intro maxVal
    simp only [computeLevelLoop]
    refine le_trans ?_ (ih _)
    split_ifs with h
    · exact le_of_lt h
    · exact le_refl _

/-- The scan result dominates the magnitude of every scanned sample. -/
theorem abs_le_computeLevelLoop (buffer : List α) : ∀ (maxVal s : α), s ∈ buffer →
    |s| ≤ computeLevelLoop buffer maxVal := by
  induction buffer with
  | nil => intro maxVal s hs; exact absurd hs (List.not_mem_nil s)
  | cons sample rest ih =>
    intro maxVal s hs
    simp only [computeLevelLoop]
    rcases List.mem_cons.mp hs with rfl | hs'
    · refine le_trans ?_ (le_computeLevelLoop rest _)
      split_ifs with h
      · exact le_refl _
      · exact not_lt.mp h
    · exact ih _ s hs'

/-- The scan result is the starting value or the magnitude of a scanned sample. -/
theorem computeLevelLoop_attained (buffer : List α) : ∀ maxVal : α,
    computeLevelLoop buffer maxVal = maxVal ∨
      ∃ s ∈ buffer, computeLevelLoop buffer maxVal = |s| := by
  induction buffer with
  | nil => intro maxVal; exact Or.inl rfl
  | cons sample rest ih =>
    intro maxVal
    simp only [computeLevelLoop]
    split_ifs with h
    · rcases ih |sample| with h1 | ⟨s, hs, h1⟩
      · exact Or.inr ⟨sample, List.mem_cons_self _ _, h1⟩
      · exact Or.inr ⟨s, List.mem_cons_of_mem _ hs, h1⟩
    · rcases ih maxVal with h1 | ⟨s, hs, h1⟩
      · exact Or.inl h1
      · exact Or.inr ⟨s, List.mem_cons_of_mem _ hs, h1⟩

/-- The scan result stays below any bound that holds for the start value and for every
sample magnitude. -/
theorem computeLevelLoop_le (buffer : List α) (bound : α) : ∀ maxVal : α, maxVal ≤ bound →
    (∀ s ∈ buffer, |s| ≤ bound) → computeLevelLoop buffer maxVal ≤ bound := by
  induction buffer with
  | nil => intro maxVal h0 _; exact h0
  | cons sample rest ih =>
    intro maxVal h0 hall
    simp only [computeLevelLoop]
    apply ih
    · split_ifs with h
      · exact hall sample (List.mem_cons_self _ _)
      · exact h0
    · intro s hs
      exact hall s (List.mem_cons_of_mem _ hs)

/-- The level is never negative. -/
theorem computeLevel_nonneg (buffer : List α) : 0 ≤ computeLevel buffer := by
  unfold computeLevel
  split_ifs with h
  · exact le_refl _
  · exact le_computeLevelLoop buffer 0

/-- C5: `computeLevel` returns the maximum absolute sample value: it is at least `|s|` for
every sample `s`, on a non-empty buffer it is `|s|` for some sample `s`, on the empty
buffer it is `0`, and on `[0.1, -0.9, 0.3]` it is `0.9`. -/
theorem computeLevel_is_peak (buffer : List α) :
    (∀ s ∈ buffer, |s| ≤ computeLevel buffer) ∧
    (buffer ≠ [] → ∃ s ∈ buffer, computeLevel buffer = |s|) ∧
    computeLevel ([] : List α) = 0 ∧
    computeLevel [(1 / 10 : α), -9 / 10, 3 / 10] = 9 / 10 := by
  refine ⟨?_, ?_, ?_, ?_⟩
  · intro s hs
    have hlen : ¬ buffer.length = 0 := by
      intro h0
      rw [List.length_eq_zero] at h0
      rw [h0] at hs
      exact absurd hs (List.not_mem_nil s)
    unfold computeLevel
    rw [if_neg hlen]
    exact abs_le_computeLevelLoop buffer 0 s hs
  · intro hne
    have hlen : ¬ buffer.length = 0 := by
      intro h0
      exact hne (List.length_eq_zero.mp h0)
    unfold computeLevel
    rw [if_neg hlen]
    rcases computeLevelLoop_attained buffer 0 with h0 | h1
    · obtain ⟨x, hx⟩ := List.exists_mem_of_ne_nil buffer hne
      refine ⟨x, hx, ?_⟩
      have hle := abs_le_computeLevelLoop buffer 0 x hx
      rw [h0] at hle ⊢
      exact le_antisymm (abs_nonneg x) hle
    · exact h1
  · rfl
  · have a1 : |(1 / 10 : α)| = 1 / 10 := abs_of_nonneg (by norm_num)
    have a2 : |(-9 / 10 : α)| = 9 / 10 := by
      rw [abs_of_nonpos (by norm_num)]; norm_num
    have a3 : |(3 / 10 : α)| = 3 / 10 := abs_of_nonneg (by norm_num)
    simp only [computeLevel, computeLevelLoop, a1, a2, a3, List.length_cons, List.length_nil]
    norm_num

/-- C6, as stated, fails: the one-sample buffer `[2]` has level `2`, outside `[0, 1]`. -/
theorem computeLevel_exceeds_one :
    computeLevel ([2] : List ℚ) = 2 ∧
    ¬ (0 ≤ computeLevel ([2] : List ℚ) ∧ computeLevel ([2] : List ℚ) ≤ 1) := by
  have h : computeLevel ([2] : List ℚ) = 2 := by
    have a : |(2 : ℚ)| = 2 := abs_of_nonneg (by norm_num)
    simp only [computeLevel, computeLevelLoop, a, List.length_cons, List.length_nil]
    norm_num
  refine ⟨h, ?_⟩
  rw [h]
  norm_num

/-- C6, amended: the level is never negative, and for a buffer whose samples all lie in
`[-1, 1]` it lies in `[0, 1]`. -/
theorem computeLevel_unit_range (buffer : List α) (h : ∀ s ∈ buffer, -1 ≤ s ∧ s ≤ 1) :
    0 ≤ computeLevel buffer ∧ computeLevel buffer ≤ 1 := by
  refine ⟨computeLevel_nonneg buffer, ?_⟩
  unfold computeLevel
  split_ifs with h0
  · exact zero_le_one
  · apply computeLevelLoop_le buffer 1 0 zero_le_one
    intro s hs
    exact abs_le.mpr (h s hs)

/-- Witness for the amended C6 on the buffer `[1/2, -1]`. -/
theorem computeLevel_unit_range_witness :
    (∀ s ∈ ([1 / 2, -1] : List ℚ), -1 ≤ s ∧ s ≤ 1) ∧
    (0 ≤ computeLevel ([1 / 2, -1] : List ℚ) ∧ computeLevel ([1 / 2, -1] : List ℚ) ≤ 1) :=
  ⟨by intro s hs; simp at hs; rcases hs with rfl | rfl <;> norm_num,
   computeLevel_unit_range [1 / 2, -1]
     (by intro s hs; simp at hs; rcases hs with rfl | rfl <;> norm_num)⟩

end LevelMeter

section Resampling

variable {α : Type u} [LinearOrderedField α]

/-- The ratio guard fires on every quotient of two `int` rates that is `<= 0` or `> 256`,
and on the infinite quotients of a zero input rate. -/
theorem srcRatioOf_invalid (inSampleRate outSampleRate : ℤ)
    (h : (inSampleRate ≠ 0 ∧ ((outSampleRate : ℚ) / (inSampleRate : ℚ) ≤ 0 ∨
            (outSampleRate : ℚ) / (inSampleRate : ℚ) > 256)) ∨
         (inSampleRate = 0 ∧ outSampleRate ≠ 0)) :
    (srcRatioOf inSampleRate outSampleRate).invalid = true := by
  unfold srcRatioOf
  rcases h with ⟨hin, hq⟩ | ⟨hin, hout⟩
  · rw [if_neg hin]
    simp only [DoubleRatio.invalid, Bool.or_eq_true, decide_eq_true_eq]
    exact hq
  · rw [if_pos hin, if_neg hout]
    split_ifs <;> rfl

/-- A ratio of exactly `256` passes the guard. -/
theorem srcRatioOf_256_valid (inSampleRate : ℤ) (hin : inSampleRate ≠ 0) :
    (srcRatioOf inSampleRate (256 * inSampleRate)).invalid = false := by
  unfold srcRatioOf
  rw [if_neg hin]
  have hq : ((256 * inSampleRate : ℤ) : ℚ) / (inSampleRate : ℚ) = 256 := by
    have : (inSampleRate : ℚ) ≠ 0 := by exact_mod_cast hin
    push_cast
    field_simp
  simp only [DoubleRatio.invalid, hq]
  norm_num

/-- C7: when the ratio `outRate / inRate` is `<= 0` or `> 256` (an infinite quotient of a zero
input rate included), `performSampleRateConversionToFloat` returns without calling the
resampling engine and leaves the output buffer and the converter as they were passed in;
whereas with a converter, a non-empty input and at least one channel a ratio of exactly
`256` reaches the engine, which is called once. -/
theorem performSampleRateConversionToFloat_ratio_guard {σ : Type}
    (src_process : σ → SRC_DATA α → σ × SRC_DATA α × ℤ)
    (m_sampleRateConverter : Option σ) (input : List (Fin 256)) (output : List α)
    (inSampleRate outSampleRate : ℤ) (inChannels : ℕ)
    (h : (inSampleRate ≠ 0 ∧ ((outSampleRate : ℚ) / (inSampleRate : ℚ) ≤ 0 ∨
            (outSampleRate : ℚ) / (inSampleRate : ℚ) > 256)) ∨
         (inSampleRate = 0 ∧ outSampleRate ≠ 0)) :
    performSampleRateConversionToFloat src_process m_sampleRateConverter input output
        inSampleRate outSampleRate inChannels
      = some { output := output, converter := m_sampleRateConverter, engineCalls := 0 } ∧
    (∀ (conv : σ) (rate : ℤ), input ≠ [] → 1 ≤ inChannels → rate ≠ 0 →
      ∃ r, performSampleRateConversionToFloat src_process (some conv) input output
          rate (256 * rate) inChannels = some r ∧ r.engineCalls = 1) := by
  constructor
  · unfold performSampleRateConversionToFloat
    cases m_sampleRateConverter with
    | none => rfl
    | some conv =>
      have hinv := srcRatioOf_invalid inSampleRate outSampleRate h
      simp only
      by_cases h1 : input.isEmpty = true
      · rw [if_pos h1]
      · rw [if_neg h1, if_pos hinv]
  · intro conv rate hne hch hrate
    have h1 : input.isEmpty = false := by
      cases input with
      | nil => exact absurd rfl hne
      | cons _ _ => rfl
    have h2 : ¬ inChannels = 0 := by omega
    have h3 := srcRatioOf_256_valid rate hrate
    have h4 : srcRatioOf rate (256 * rate)
        = DoubleRatio.finite (((256 * rate : ℤ) : ℚ) / (rate : ℚ)) := by
      unfold srcRatioOf
      rw [if_neg hrate]
    unfold performSampleRateConversionToFloat
    simp only [h1, h3, Bool.false_eq_true, if_false, if_neg h2]
    rw [h4]
    simp only
    split_ifs with herr
    · exact ⟨_, rfl, rfl⟩
    · exact ⟨_, rfl, rfl⟩

/-- Witness for C7: input rate `1`, output rate `257`, a ratio just above `256`. -/
theorem performSampleRateConversionToFloat_ratio_guard_witness :
    (((1 : ℤ) ≠ 0 ∧ (((257 : ℤ) : ℚ) / ((1 : ℤ) : ℚ) ≤ 0 ∨
        ((257 : ℤ) : ℚ) / ((1 : ℤ) : ℚ) > 256)) ∨ ((1 : ℤ) = 0 ∧ (257 : ℤ) ≠ 0)) ∧
    performSampleRateConversionToFloat
        (fun (c : ℕ) (d : SRC_DATA ℚ) => (c + 1, d, (0 : ℤ))) (some 0) [1, 0] [5] 1 257 1
      = some { output := [5], converter := some 0, engineCalls := 0 } :=
  ⟨Or.inl ⟨by decide, Or.inr (by norm_num)⟩,
   (performSampleRateConversionToFloat_ratio_guard
      (fun (c : ℕ) (d : SRC_DATA ℚ) => (c + 1, d, (0 : ℤ))) (some 0) [1, 0] [5] 1 257 1
      (Or.inl ⟨by decide, Or.inr (by norm_num)⟩)).1⟩

end Resampling

section BufferCells

variable {α : Type u}

/-- Reading the cell right after a prefix. -/
theorem getD_append_cons_length (pre : List α) (x : α) (rest : List α) (d : α) :
    (pre ++ x :: rest).getD pre.length d = x := by
  induction pre with
  | nil => rfl
  | cons p pre ih => simpa using ih

/-- Writing the cell right after a prefix. -/
theorem set_append_cons_length (pre : List α) (x v : α) (rest : List α) :
    (pre ++ x :: rest).set pre.length v = pre ++ v :: rest := by
  induction pre with
  | nil => rfl
  | cons p pre ih => simp [ih]

end BufferCells

section NoiseGate

variable {α : Type u} [LinearOrderedField α]

/-- Running the indexed loop over the middle part of a buffer rewrites exactly that part,
as `gateRun` computes it. -/
theorem applyNoiseGateLoop_eq_gateRun (th red : α) (att rel : ℤ) (k : ℕ) :
    ∀ (st : GateState α) (pre mid post : List α), mid.length = k →
      applyNoiseGateLoop th red att rel k pre.length st (pre ++ mid ++ post)
        = ((gateRun th red att rel st mid).1,
           pre ++ (gateRun th red att rel st mid).2 ++ post) := by
  induction k with
  | zero =>
    intro st pre mid post hlen
    have hmid : mid = [] := List.length_eq_zero.mp hlen
    subst hmid
    rfl
  | succ k ih =>
    intro st pre mid post hlen
    cases mid with
    | nil => simp at hlen
    | cons x mid' =>
      have hlen' : mid'.length = k := by simpa using hlen
      have hshape : pre ++ x :: mid' ++ post = pre ++ x :: (mid' ++ post) := by simp
      simp only [applyNoiseGateLoop, gateRun]
      rw [hshape, getD_append_cons_length, set_append_cons_length]
      have hrew : pre ++ (gateIteration th red att rel st x).2 :: (mid' ++ post)
          = (pre ++ [(gateIteration th red att rel st x).2]) ++ mid' ++ post := by simp
      have hidx : pre.length + 1 = (pre ++ [(gateIteration th red att rel st x).2]).length := by
        simp
      rw [hrew, hidx, ih _ _ mid' post hlen']
      simp

/-- The stage is the recursion `gateRun` over its buffer, from the member values on entry. -/
theorem applyNoiseGate_eq_gateRun (pow : α → α → α) (noiseGateDB : ℤ) (st : GateState α)
    (inBuffer : List α) (sampleRate : ℤ) :
    applyNoiseGate pow noiseGateDB st inBuffer sampleRate
      = gateRun (thresholdLinear pow noiseGateDB) (reduction pow noiseGateDB)
          (attackSamples sampleRate) (releaseSamples sampleRate) st inBuffer := by
  unfold applyNoiseGate
  cases inBuffer with
  | nil => rfl
  | cons x rest =>
    simp only [List.isEmpty_cons, Bool.false_eq_true, if_false]
    have h := applyNoiseGateLoop_eq_gateRun (thresholdLinear pow noiseGateDB)
      (reduction pow noiseGateDB) (attackSamples sampleRate) (releaseSamples sampleRate)
      (x :: rest).length st [] (x :: rest) [] rfl
    simpa using h

/-- The recursion over a concatenation is the recursion over the first part followed by
the recursion over the second part from the state the first one left. -/
theorem gateRun_append (th red : α) (att rel : ℤ) (a b : List α) : ∀ st : GateState α,
    gateRun th red att rel st (a ++ b)
      = ((gateRun th red att rel (gateRun th red att rel st a).1 b).1,
         (gateRun th red att rel st a).2
           ++ (gateRun th red att rel (gateRun th red att rel st a).1 b).2) := by
  induction a with
  | nil => intro st; rfl
  | cons x a ih =>
    intro st
    simp only [List.cons_append, gateRun, List.append_eq]
    rw [ih]

/-- `std::clamp` lands in `[lo, hi]`. -/
theorem clamp_mem (v lo hi : α) (h : lo ≤ hi) : lo ≤ clamp v lo hi ∧ clamp v lo hi ≤ hi := by
  unfold clamp
  split_ifs with h1 h2
  · exact ⟨le_refl _, h⟩
  · exact ⟨h, le_refl _⟩
  · exact ⟨not_lt.mp h1, not_lt.mp h2⟩

/-- The floor `reduction` lies in `[0, 0.9]`. -/
theorem reduction_range (pow : α → α → α) (noiseGateDB : ℤ) :
    0 ≤ reduction pow noiseGateDB ∧ reduction pow noiseGateDB ≤ 9 / 10 :=
  clamp_mem _ 0 (9 / 10) (by norm_num)

/-- C10: applying the gate to `a` and then, from the members that call left, to `b` gives
the same output samples and the same final gain, latch and hold counter as applying it
once to `a ++ b`. -/
theorem applyNoiseGate_chunk_continuity (pow : α → α → α) (noiseGateDB : ℤ)
    (st : GateState α) (a b : List α) (sampleRate : ℤ) :
    applyNoiseGate pow noiseGateDB st (a ++ b) sampleRate
      = ((applyNoiseGate pow noiseGateDB
            (applyNoiseGate pow noiseGateDB st a sampleRate).1 b sampleRate).1,
         (applyNoiseGate pow noiseGateDB st a sampleRate).2
           ++ (applyNoiseGate pow noiseGateDB
                (applyNoiseGate pow noiseGateDB st a sampleRate).1 b sampleRate).2) := by
  simp only [applyNoiseGate_eq_gateRun]
  exact gateRun_append _ _ _ _ a b st

end NoiseGate

/-! ### The noise gate in binary32 -/

namespace Binary32

section NoiseGateLoop

variable {α : Type u} [LinearOrderedField α] [FloorRing α]

/-- Running the indexed loop over the middle part of a buffer rewrites exactly that part,
as `gateRun` computes it. -/
theorem applyNoiseGateLoop_eq_gateRun_binary32 (th red : α) (att rel : ℤ) (k : ℕ) :
    ∀ (st : GateState α) (pre mid post : List α), mid.length = k →
      applyNoiseGateLoop th red att rel k pre.length st (pre ++ mid ++ post)
        = ((gateRun th red att rel st mid).1,
           pre ++ (gateRun th red att rel st mid).2 ++ post) := by
  induction k with
  | zero =>
    intro st pre mid post hlen
    have hmid : mid = [] := List.length_eq_zero.mp hlen
    subst hmid
    rfl
  | succ k ih =>
    intro st pre mid post hlen
    cases mid with
    | nil => simp at hlen
    | cons x mid' =>
      have hlen' : mid'.length = k := by simpa using hlen
      have hshape : pre ++ x :: mid' ++ post = pre ++ x :: (mid' ++ post) := by simp
      simp only [applyNoiseGateLoop, gateRun]
      rw [hshape, getD_append_cons_length, set_append_cons_length]
      have hrew : pre ++ (gateIteration th red att rel st x).2 :: (mid' ++ post)
          = (pre ++ [(gateIteration th red att rel st x).2]) ++ mid' ++ post := by simp
      have hidx : pre.length + 1 = (pre ++ [(gateIteration th red att rel st x).2]).length := by
        simp
      rw [hrew, hidx, ih _ _ mid' post hlen']
      simp

/-- The stage is the recursion `gateRun` over its buffer, from the member values on entry. -/
theorem applyNoiseGate_eq_gateRun_binary32 (powf : α → α → α) (noiseGateDB : ℤ) (st : GateState α)
    (inBuffer : List α) (sampleRate : ℤ) :
    applyNoiseGate powf noiseGateDB st inBuffer sampleRate
      = gateRun (thresholdLinear powf noiseGateDB) (reduction powf noiseGateDB)
          (attackSamples sampleRate) (releaseSamples sampleRate) st inBuffer := by
  unfold applyNoiseGate
  cases inBuffer with
  | nil => rfl
  | cons x rest =>
    simp only [List.isEmpty_cons, Bool.false_eq_true, if_false]
    have h := applyNoiseGateLoop_eq_gateRun_binary32 (thresholdLinear powf noiseGateDB)
      (reduction powf noiseGateDB) (attackSamples sampleRate) (releaseSamples sampleRate)
      (x :: rest).length st [] (x :: rest) [] rfl
    simpa using h

/-- The literal `0.9f`. -/
theorem roundF32_nine_tenths : roundF32 (9 / 10 : α) = 15099494 / 2 ^ 24 := by
  have h := roundF32_eq_of_close (x := (9 / 10 : α)) (-1) (-24) 15099494
    (by norm_num) (by norm_num) (by decide) (by norm_num) (by norm_num)
  rw [h]; norm_num

/-- The floor `reduction` lies in `[0, 0.9f]`, and `0.9f` is below `9/10`. -/
theorem reduction_range_binary32 (powf : α → α → α) (noiseGateDB : ℤ) :
    0 ≤ reduction powf noiseGateDB ∧ reduction powf noiseGateDB ≤ 9 / 10 := by
  have h9 : (0 : α) ≤ roundF32 (9 / 10) := roundF32_nonneg (by norm_num)
  obtain ⟨h1, h2⟩ := clamp_mem
    (roundF32 (1 - powf 10 (roundF32 (roundF32 (noiseGateDB : α) / 20)))) 0
    (roundF32 (9 / 10)) h9
  refine ⟨h1, le_trans h2 ?_⟩
  rw [roundF32_nine_tenths]
  norm_num

/-- A window of `N` samples, `1 ≤ N ≤ 3145728`: the step `(1.0f - reduction) / N` as the
code computes it is at least `2^-25` and at most `1`, and `N` steps fall short of
`1 - reduction` by at most `3 * 2^-25`. -/
theorem gainStep_bounds (red : α) (N : ℤ) (hr0 : 0 ≤ red) (hr9 : red ≤ 9 / 10) (hN1 : 1 ≤ N)
    (hN : N ≤ 3145728) :
    2 ^ (-25 : ℤ) ≤ roundF32 (roundF32 (1 - red) / roundF32 (N : α)) ∧
    roundF32 (roundF32 (1 - red) / roundF32 (N : α)) ≤ 1 ∧
    1 - red - 3 * 2 ^ (-25 : ℤ)
      ≤ (N : α) * roundF32 (roundF32 (1 - red) / roundF32 (N : α)) := by
  have hNf : roundF32 (N : α) = N :=
    roundF32_intCast N (by rw [abs_of_nonneg (by omega)]; omega)
  rw [hNf]
  have hNpos : (0 : α) < N := by exact_mod_cast (by omega : (0 : ℤ) < N)
  have hN1' : (1 : α) ≤ N := by exact_mod_cast hN1
  have hNle : (N : α) ≤ 3145728 := by exact_mod_cast hN
  have habs1 : |1 - red| ≤ 1 := by
    rw [abs_le]; constructor <;> linarith
  have hderr := abs_le.mp (roundF32_abs_sub_le_of_abs_le_one habs1)
  have hd1 : roundF32 (1 - red) ≤ 1 := by
    have h := roundF32_mono (show 1 - red ≤ 1 by linarith)
    rwa [roundF32_one] at h
  have he : (2 : α) ^ (-25 : ℤ) = 1 / 33554432 := by norm_num
  have he24 : (2 : α) ^ (-24 : ℤ) = 1 / 16777216 := by norm_num
  have hdlo : 1 / 10 - 1 / 33554432 ≤ roundF32 (1 - red) := by
    rw [he] at hderr; linarith [hderr.1]
  have hdpos : 0 < roundF32 (1 - red) := lt_of_lt_of_le (by norm_num) hdlo
  have hxpos : 0 < roundF32 (1 - red) / (N : α) := div_pos hdpos hNpos
  have hx1 : roundF32 (1 - red) / (N : α) ≤ 1 := by
    rw [div_le_iff₀ hNpos]; linarith
  have hxlo : (1 / 10 - 1 / 33554432) / 3145728 ≤ roundF32 (1 - red) / (N : α) := by
    rw [div_le_div_iff₀ (by norm_num) hNpos]
    have h1 : (1 / 10 - 1 / 33554432) * (N : α) ≤ (1 / 10 - 1 / 33554432) * 3145728 :=
      mul_le_mul_of_nonneg_left hNle (by norm_num)
    have h2 : (1 / 10 - 1 / 33554432) * 3145728 ≤ roundF32 (1 - red) * 3145728 :=
      mul_le_mul_of_nonneg_right hdlo (by norm_num)
    linarith
  have hnormal : (2 : α) ^ (-126 : ℤ) ≤ |roundF32 (1 - red) / (N : α)| := by
    rw [abs_of_pos hxpos]
    refine le_trans ?_ hxlo
    have : (2 : α) ^ (-126 : ℤ) ≤ 2 ^ (-30 : ℤ) := zpow_le_zpow_right₀ (by norm_num) (by norm_num)
    refine le_trans this ?_
    norm_num
  have hrel := abs_le.mp (roundF32_abs_sub_le_mul hnormal)
  rw [abs_of_pos hxpos, he24] at hrel
  have hs1 : roundF32 (roundF32 (1 - red) / (N : α)) ≤ 1 := by
    have h := roundF32_mono hx1
    rwa [roundF32_one] at h
  have hslo : roundF32 (1 - red) / (N : α) * (1 - 1 / 16777216)
      ≤ roundF32 (roundF32 (1 - red) / (N : α)) := by
    linarith [hrel.1]
  refine ⟨?_, hs1, ?_⟩
  · rw [he]
    refine le_trans ?_ hslo
    refine le_trans ?_ (mul_le_mul_of_nonneg_right hxlo (by norm_num))
    norm_num
  · rw [he]
    have h1 : (N : α) * (roundF32 (1 - red) / (N : α) * (1 - 1 / 16777216))
        ≤ (N : α) * roundF32 (roundF32 (1 - red) / (N : α)) :=
      mul_le_mul_of_nonneg_left hslo hNpos.le
    have h2 : (N : α) * (roundF32 (1 - red) / (N : α) * (1 - 1 / 16777216))
        = roundF32 (1 - red) * (1 - 1 / 16777216) := by
      field_simp
      ring
    rw [h2] at h1
    rw [he] at hderr
    nlinarith [hderr.1, hd1, hdpos]


/-- Gain after one sample below the threshold. -/
theorem gateIteration_below_gain (th red : α) (att rel : ℤ) (st : GateState α) (s : α)
    (hs : |s| < th) :
    (gateIteration th red att rel st s).1.m_gain
      = if st.m_gain > red then
          max (roundF32 (st.m_gain - roundF32 (roundF32 (1 - red) / roundF32 (rel : α)))) red
        else st.m_gain := by
  unfold gateIteration
  simp only [if_pos hs]
  by_cases hg : st.m_gain > red
  · cases hc : st.m_isGateClosed <;> simp [hg]
  · cases hc : st.m_isGateClosed <;> simp [hg]

/-- Gain after one sample at or above the threshold. -/
theorem gateIteration_above_gain (th red : α) (att rel : ℤ) (st : GateState α) (s : α)
    (hs : ¬ |s| < th) :
    (gateIteration th red att rel st s).1.m_gain
      = if st.m_gain < 1 then
          min (roundF32 (st.m_gain + roundF32 (roundF32 (1 - red) / roundF32 (att : α)))) 1
        else st.m_gain := by
  unfold gateIteration
  simp only [if_neg hs]
  by_cases hg : st.m_gain < 1
  · cases hc : st.m_isGateClosed
    · simp [hg]
    · by_cases hh : st.m_holdCounter + 1 > att <;> simp [hg, hh]
  · cases hc : st.m_isGateClosed
    · simp [hg]
    · by_cases hh : st.m_holdCounter + 1 > att <;> simp [hg, hh]

/-- One release step: the gain stays at or above the floor and comes down by the step, up
to a rounding error of `2^-25`, unless the floor stops it. -/
theorem gateIteration_below_bounds (th red : α) (att rel : ℤ) (st : GateState α) (s step : α)
    (hstep : step = roundF32 (roundF32 (1 - red) / roundF32 (rel : α)))
    (hs : |s| < th) (h0 : 0 ≤ red) (hlo : red ≤ st.m_gain) (hhi : st.m_gain ≤ 1)
    (hs0 : 0 ≤ step) (hs1 : step ≤ 1) :
    red ≤ (gateIteration th red att rel st s).1.m_gain ∧
    (gateIteration th red att rel st s).1.m_gain
      ≤ max red (st.m_gain - (step - 2 ^ (-25 : ℤ))) := by
  rw [gateIteration_below_gain th red att rel st s hs, ← hstep]
  by_cases hg : st.m_gain > red
  · rw [if_pos hg]
    refine ⟨le_max_right _ _, ?_⟩
    have habs : |st.m_gain - step| ≤ 1 := by
      rw [abs_le]; constructor <;> linarith
    have herr := (abs_le.mp (roundF32_abs_sub_le_of_abs_le_one habs)).2
    apply max_le
    · exact le_trans (by linarith) (le_max_right _ _)
    · exact le_max_left _ _
  · rw [if_neg hg]
    have heq : st.m_gain = red := le_antisymm (not_lt.mp hg) hlo
    exact ⟨hlo, by rw [heq]; exact le_max_left _ _⟩

/-- One attack step: the gain stays at or below `1` and goes up by the step, up to a
rounding error of `2^-25`, unless `1` stops it. -/
theorem gateIteration_above_bounds (th red : α) (att rel : ℤ) (st : GateState α) (s step : α)
    (hstep : step = roundF32 (roundF32 (1 - red) / roundF32 (att : α)))
    (hs : ¬ |s| < th) (hlo : 0 ≤ st.m_gain) (hhi : st.m_gain ≤ 1)
    (hs0 : 0 ≤ step) :
    (gateIteration th red att rel st s).1.m_gain ≤ 1 ∧
    min 1 (st.m_gain + (step - 2 ^ (-25 : ℤ)))
      ≤ (gateIteration th red att rel st s).1.m_gain := by
  rw [gateIteration_above_gain th red att rel st s hs, ← hstep]
  by_cases hg : st.m_gain < 1
  · rw [if_pos hg]
    refine ⟨min_le_right _ _, ?_⟩
    apply le_min
    · rcases le_or_lt (st.m_gain + step) 1 with hsum | hsum
      · have habs : |st.m_gain + step| ≤ 1 := by
          rw [abs_le]; constructor <;> linarith
        have herr := (abs_le.mp (roundF32_abs_sub_le_of_abs_le_one habs)).1
        exact le_trans (min_le_right _ _) (by linarith)
      · have h1 := roundF32_mono hsum.le
        rw [roundF32_one] at h1
        exact le_trans (min_le_left _ _) h1
    · exact min_le_left _ _
  · rw [if_neg hg]
    have heq : st.m_gain = 1 := le_antisymm hhi (not_lt.mp hg)
    exact ⟨hhi, by rw [heq]; exact min_le_left _ _⟩

/-- Over a run of samples below the threshold the gain stays at or above the floor and has
come down by one release step per sample, less `2^-25` for each rounding, unless the floor
stopped it. -/
theorem gateRun_below_bounds (th red : α) (att rel : ℤ) (step : α)
    (hstep : step = roundF32 (roundF32 (1 - red) / roundF32 (rel : α)))
    (h0 : 0 ≤ red) (hs0 : 2 ^ (-25 : ℤ) ≤ step) (hs1 : step ≤ 1) (buf : List α) :
    ∀ st : GateState α, (∀ s ∈ buf, |s| < th) → red ≤ st.m_gain → st.m_gain ≤ 1 →
      red ≤ (gateRun th red att rel st buf).1.m_gain ∧
      (gateRun th red att rel st buf).1.m_gain
        ≤ max red (st.m_gain - (buf.length : α) * (step - 2 ^ (-25 : ℤ))) := by
  have hpos : (0 : α) < 2 ^ (-25 : ℤ) := two_zpow_pos _
  induction buf with
  | nil =>
    intro st _ hlo _
    exact ⟨hlo, by simp [gateRun]⟩
  | cons x rest ih =>
    intro st hbelow hlo hhi
    have hx : |x| < th := hbelow x (List.mem_cons_self _ _)
    have hrest : ∀ s ∈ rest, |s| < th := fun s hs => hbelow s (List.mem_cons_of_mem _ hs)
    obtain ⟨h1, h2⟩ := gateIteration_below_bounds th red att rel st x step hstep hx h0 hlo hhi
      (by linarith) hs1
    have h1' : (gateIteration th red att rel st x).1.m_gain ≤ 1 := by
      refine le_trans h2 (max_le (by linarith) (by linarith))
    obtain ⟨h3, h4⟩ := ih (gateIteration th red att rel st x).1 hrest h1 h1'
    simp only [gateRun]
    refine ⟨h3, le_trans h4 ?_⟩
    have hδ : 0 ≤ step - 2 ^ (-25 : ℤ) := by linarith
    have hn : (0 : α) ≤ (rest.length : α) := Nat.cast_nonneg _
    have hmul : 0 ≤ (rest.length : α) * (step - 2 ^ (-25 : ℤ)) := mul_nonneg hn hδ
    apply max_le (le_max_left _ _)
    rcases le_max_iff.mp h2 with h | h
    · exact le_trans (by linarith) (le_max_left _ _)
    · refine le_trans ?_ (le_max_right _ _)
      simp only [List.length_cons]
      push_cast
      linarith

/-- Over a run of samples at or above the threshold the gain stays at or below `1` and has
gone up by one attack step per sample, less `2^-25` for each rounding, unless `1` stopped
it. -/
theorem gateRun_above_bounds (th red : α) (att rel : ℤ) (step : α)
    (hstep : step = roundF32 (roundF32 (1 - red) / roundF32 (att : α)))
    (hs0 : 2 ^ (-25 : ℤ) ≤ step) (buf : List α) :
    ∀ st : GateState α, (∀ s ∈ buf, ¬ |s| < th) → 0 ≤ st.m_gain → st.m_gain ≤ 1 →
      (gateRun th red att rel st buf).1.m_gain ≤ 1 ∧
      min 1 (st.m_gain + (buf.length : α) * (step - 2 ^ (-25 : ℤ)))
        ≤ (gateRun th red att rel st buf).1.m_gain := by
  have hpos : (0 : α) < 2 ^ (-25 : ℤ) := two_zpow_pos _
  induction buf with
  | nil =>
    intro st _ _ hhi
    exact ⟨hhi, by simp [gateRun]⟩
  | cons x rest ih =>
    intro st habove hlo hhi
    have hx : ¬ |x| < th := habove x (List.mem_cons_self _ _)
    have hrest : ∀ s ∈ rest, ¬ |s| < th := fun s hs => habove s (List.mem_cons_of_mem _ hs)
    obtain ⟨h1, h2⟩ := gateIteration_above_bounds th red att rel st x step hstep hx hlo hhi
      (by linarith)
    have hδ : 0 ≤ step - 2 ^ (-25 : ℤ) := by linarith
    have h2' : 0 ≤ (gateIteration th red att rel st x).1.m_gain :=
      le_trans (le_min (by norm_num) (by linarith)) h2
    obtain ⟨h3, h4⟩ := ih (gateIteration th red att rel st x).1 hrest h2' h1
    simp only [gateRun]
    refine ⟨h3, le_trans ?_ h4⟩
    have hn : (0 : α) ≤ (rest.length : α) := Nat.cast_nonneg _
    have hmul : 0 ≤ (rest.length : α) * (step - 2 ^ (-25 : ℤ)) := mul_nonneg hn hδ
    apply le_min (min_le_left _ _)
    rcases min_le_iff.mp h2 with h | h
    · exact le_trans (min_le_left _ _) (by linarith)
    · refine le_trans (min_le_right _ _) ?_
      simp only [List.length_cons]
      push_cast
      linarith


/-- A window computed from a product below `2^31` has at most `3145728` samples. -/
theorem window_le (n : ℤ) (h : n < 2 ^ 31) :
    truncToInt (roundF32 (roundF32 (n : ℚ) / 1000)) ≤ 3145728 := by
  have h1 : (n : ℚ) ≤ ((2 ^ 23 : ℤ) : ℚ) * 2 ^ (8 : ℤ) := by
    have : (n : ℚ) ≤ ((2 ^ 31 : ℤ) : ℚ) := by exact_mod_cast h.le
    refine le_trans this ?_
    norm_num
  have h2 := roundF32_mono h1
  rw [roundF32_of_grid (2 ^ 23) 8 (by norm_num) (by norm_num)] at h2
  have h3 : roundF32 (n : ℚ) / 1000 ≤ ((3145728 : ℤ) : ℚ) := by
    rw [div_le_iff₀ (by norm_num)]
    refine le_trans h2 ?_
    norm_num
  have h4 := roundF32_mono h3
  rw [roundF32_intCast 3145728 (by norm_num)] at h4
  have h5 := truncToInt_mono h4
  have h6 : truncToInt ((3145728 : ℤ) : ℚ) = 3145728 := by
    rw [truncToInt_of_nonneg (by norm_num), Int.floor_intCast]
  rw [h6] at h5
  exact h5

/-- C8, as amended: for a sample rate whose product with `releaseMs` fits an `int` and gives
a release window of at least one sample, and a gate state with gain in `[reduction, 1]`,
applying the gate to a buffer of at least `releaseSamples` samples whose magnitudes are all
below the linear threshold leaves the gain at or above the floor `reduction` and at most
`(releaseSamples + 3) * 2^-25` above it; and `reduction` lies in `[0, 0.9]`. -/
theorem applyNoiseGate_release_near_floor (powf : α → α → α) (noiseGateDB : ℤ)
    (st : GateState α) (inBuffer : List α) (sampleRate : ℤ)
    (hwin : 1 ≤ releaseSamples sampleRate) (hrate : sampleRate * 50 < 2 ^ 31)
    (hlo : reduction powf noiseGateDB ≤ st.m_gain) (hhi : st.m_gain ≤ 1)
    (hlen : releaseSamples sampleRate ≤ (inBuffer.length : ℤ))
    (hquiet : ∀ s ∈ inBuffer, |s| < thresholdLinear powf noiseGateDB) :
    reduction powf noiseGateDB
        ≤ (applyNoiseGate powf noiseGateDB st inBuffer sampleRate).1.m_gain ∧
    (applyNoiseGate powf noiseGateDB st inBuffer sampleRate).1.m_gain
        ≤ reduction powf noiseGateDB
          + ((releaseSamples sampleRate : α) + 3) * 2 ^ (-25 : ℤ) ∧
    0 ≤ reduction powf noiseGateDB ∧ reduction powf noiseGateDB ≤ 9 / 10 := by
  obtain ⟨hr0, hr9⟩ := reduction_range_binary32 powf noiseGateDB
  have hN : releaseSamples sampleRate ≤ 3145728 := window_le _ hrate
  obtain ⟨hs0, hs1, hNs⟩ := gainStep_bounds (reduction powf noiseGateDB)
    (releaseSamples sampleRate) hr0 hr9 hwin hN
  rw [applyNoiseGate_eq_gateRun_binary32]
  obtain ⟨h1, h2⟩ := gateRun_below_bounds (thresholdLinear powf noiseGateDB)
    (reduction powf noiseGateDB) (attackSamples sampleRate) (releaseSamples sampleRate) _ rfl
    hr0 hs0 hs1 inBuffer st hquiet hlo hhi
  have hpos : (0 : α) < 2 ^ (-25 : ℤ) := two_zpow_pos _
  have hNnn : (0 : α) ≤ (releaseSamples sampleRate : α) := by
    exact_mod_cast (by omega : (0 : ℤ) ≤ releaseSamples sampleRate)
  have hlen' : (releaseSamples sampleRate : α) ≤ (inBuffer.length : α) := by
    exact_mod_cast hlen
  refine ⟨h1, le_trans h2 (max_le ?_ ?_), hr0, hr9⟩
  · have : 0 ≤ ((releaseSamples sampleRate : α) + 3) * 2 ^ (-25 : ℤ) :=
      mul_nonneg (by linarith) hpos.le
    linarith
  · have hmul := mul_le_mul_of_nonneg_right hlen' (sub_nonneg.mpr hs0)
    linarith

/-- C9, as amended: for a threshold of at most `1.0`, a sample rate whose product with
`attackMs` fits an `int` and gives an attack window of at least one sample, and a gate
state with gain in `[reduction, 1]`, applying the gate to a buffer of at least
`attackSamples` full-scale samples (magnitude `1.0`) leaves the gain at most `1.0` and at
most `(attackSamples + 3) * 2^-25` below it. -/
theorem applyNoiseGate_attack_near_unity (powf : α → α → α) (noiseGateDB : ℤ)
    (st : GateState α) (inBuffer : List α) (sampleRate : ℤ)
    (hth : thresholdLinear powf noiseGateDB ≤ 1)
    (hwin : 1 ≤ attackSamples sampleRate) (hrate : sampleRate * 10 < 2 ^ 31)
    (hlo : reduction powf noiseGateDB ≤ st.m_gain) (hhi : st.m_gain ≤ 1)
    (hlen : attackSamples sampleRate ≤ (inBuffer.length : ℤ))
    (hfull : ∀ s ∈ inBuffer, |s| = 1) :
    1 - ((attackSamples sampleRate : α) + 3) * 2 ^ (-25 : ℤ)
        ≤ (applyNoiseGate powf noiseGateDB st inBuffer sampleRate).1.m_gain ∧
    (applyNoiseGate powf noiseGateDB st inBuffer sampleRate).1.m_gain ≤ 1 := by
  obtain ⟨hr0, hr9⟩ := reduction_range_binary32 powf noiseGateDB
  have hN : attackSamples sampleRate ≤ 3145728 := window_le _ hrate
  obtain ⟨hs0, hs1, hNs⟩ := gainStep_bounds (reduction powf noiseGateDB)
    (attackSamples sampleRate) hr0 hr9 hwin hN
  have habove : ∀ s ∈ inBuffer, ¬ |s| < thresholdLinear powf noiseGateDB := by
    intro s hs
    rw [hfull s hs]
    exact not_lt.mpr hth
  rw [applyNoiseGate_eq_gateRun_binary32]
  obtain ⟨h1, h2⟩ := gateRun_above_bounds (thresholdLinear powf noiseGateDB)
    (reduction powf noiseGateDB) (attackSamples sampleRate) (releaseSamples sampleRate) _ rfl
    hs0 inBuffer st habove (le_trans hr0 hlo) hhi
  have hpos : (0 : α) < 2 ^ (-25 : ℤ) := two_zpow_pos _
  have hNnn : (0 : α) ≤ (attackSamples sampleRate : α) := by
    exact_mod_cast (by omega : (0 : ℤ) ≤ attackSamples sampleRate)
  have hlen' : (attackSamples sampleRate : α) ≤ (inBuffer.length : α) := by
    exact_mod_cast hlen
  refine ⟨le_trans (le_min ?_ ?_) h2, h1⟩
  · have : 0 ≤ ((attackSamples sampleRate : α) + 3) * 2 ^ (-25 : ℤ) :=
      mul_nonneg (by linarith) hpos.le
    linarith
  · have hmul := mul_le_mul_of_nonneg_right hlen' (sub_nonneg.mpr hs0)
    linarith

end NoiseGateLoop

section NoiseGateValues

/-- `std::pow(10.0f, -20 / 20.0f)` is the `float` nearest to `1/10`. -/
theorem thresholdLinear_init_binary32 :
    thresholdLinear (fun x y : ℝ => roundF32 (x ^ y)) noiseGateDB_init
      = 13421773 / 2 ^ 27 := by
  unfold thresholdLinear noiseGateDB_init
  have h20 : roundF32 (((-20 : ℤ) : ℝ)) = -20 := by
    have := roundF32_intCast (α := ℝ) (-20) (by norm_num)
    simpa using this
  have hq : roundF32 ((-20 : ℝ) / 20) = -1 := by
    have : (-20 : ℝ) / 20 = -1 := by norm_num
    rw [this, roundF32_neg, roundF32_one]
  have hpow : (10 : ℝ) ^ (-1 : ℝ) = 1 / 10 := by
    rw [Real.rpow_neg_one]; norm_num
  have hr := roundF32_eq_of_close (x := (1 / 10 : ℝ)) (-4) (-27) 13421773
    (by norm_num) (by norm_num) (by decide) (by norm_num) (by norm_num)
  beta_reduce
  rw [h20, hq, hpow, hr]
  norm_num

/-- The floor derived from the constructor's `-20`: the `float` nearest to `9/10`. -/
theorem reduction_init_binary32 :
    reduction (fun x y : ℝ => roundF32 (x ^ y)) noiseGateDB_init = 15099494 / 2 ^ 24 := by
  have hth := thresholdLinear_init_binary32
  unfold thresholdLinear at hth
  unfold reduction
  beta_reduce at hth ⊢
  rw [hth, roundF32_nine_tenths]
  have hr := roundF32_eq_of_close (x := (1 - 13421773 / 2 ^ 27 : ℝ)) (-1) (-24) 15099494
    (by norm_num) (by norm_num) (by decide) (by norm_num) (by norm_num)
  rw [hr]
  unfold clamp
  norm_num

/-- A sample rate of 100 Hz gives a release window of five samples. -/
theorem releaseSamples_100 : releaseSamples 100 = 5 := by
  unfold releaseSamples
  have h1 : roundF32 (((100 * 50 : ℤ) : ℚ)) = 5000 := by
    have := roundF32_intCast (α := ℚ) 5000 (by norm_num)
    simpa using this
  have h2 : roundF32 ((5000 : ℚ) / 1000) = 5 := by
    have := roundF32_intCast (α := ℚ) 5 (by norm_num)
    norm_num at this ⊢
    exact this
  rw [h1, h2, truncToInt_of_nonneg (by norm_num)]
  simp

/-- A sample rate of 400 Hz gives an attack window of four samples. -/
theorem attackSamples_400 : attackSamples 400 = 4 := by
  unfold attackSamples
  have h1 : roundF32 (((400 * 10 : ℤ) : ℚ)) = 4000 := by
    have := roundF32_intCast (α := ℚ) 4000 (by norm_num)
    simpa using this
  have h2 : roundF32 ((4000 : ℚ) / 1000) = 4 := by
    have := roundF32_intCast (α := ℚ) 4 (by norm_num)
    norm_num at this ⊢
    exact this
  rw [h1, h2, truncToInt_of_nonneg (by norm_num)]
  simp


end NoiseGateValues

section NoiseGateRuns

variable {α : Type u} [LinearOrderedField α] [FloorRing α]

/-- Over samples below the threshold the final gain is the release step applied once per
sample. -/
theorem gateRun_below_gain_foldl (th red : α) (att rel : ℤ) (buf : List α) :
    ∀ st : GateState α, (∀ s ∈ buf, |s| < th) →
      (gateRun th red att rel st buf).1.m_gain
        = buf.foldl (fun g _ =>
            if g > red then
              max (roundF32 (g - roundF32 (roundF32 (1 - red) / roundF32 (rel : α)))) red
            else g) st.m_gain := by
  induction buf with
  | nil => intro st _; rfl
  | cons x rest ih =>
    intro st hbelow
    have hx : |x| < th := hbelow x (List.mem_cons_self _ _)
    have hrest : ∀ s ∈ rest, |s| < th := fun s hs => hbelow s (List.mem_cons_of_mem _ hs)
    simp only [gateRun, List.foldl_cons]
    rw [ih _ hrest, gateIteration_below_gain th red att rel st x hx]

/-- Over samples at or above the threshold the final gain is the attack step applied once
per sample. -/
theorem gateRun_above_gain_foldl (th red : α) (att rel : ℤ) (buf : List α) :
    ∀ st : GateState α, (∀ s ∈ buf, ¬ |s| < th) →
      (gateRun th red att rel st buf).1.m_gain
        = buf.foldl (fun g _ =>
            if g < 1 then
              min (roundF32 (g + roundF32 (roundF32 (1 - red) / roundF32 (att : α)))) 1
            else g) st.m_gain := by
  induction buf with
  | nil => intro st _; rfl
  | cons x rest ih =>
    intro st habove
    have hx : ¬ |x| < th := habove x (List.mem_cons_self _ _)
    have hrest : ∀ s ∈ rest, ¬ |s| < th := fun s hs => habove s (List.mem_cons_of_mem _ hs)
    simp only [gateRun, List.foldl_cons]
    rw [ih _ hrest, gateIteration_above_gain th red att rel st x hx]

end NoiseGateRuns

section NoiseGateExamples

/-- One release step above the floor `0.9f` at 100 Hz. -/
theorem release_step_100 (g c : ℝ) (hg : 15099494 / 2 ^ 24 < g)
    (hr : roundF32 (g - 10737421 / 2 ^ 29) = c) (hc : 15099494 / 2 ^ 24 ≤ c) :
    (if g > 15099494 / 2 ^ 24 then max (roundF32 (g - 10737421 / 2 ^ 29)) (15099494 / 2 ^ 24)
      else g) = c := by
  rw [if_pos hg, hr, max_eq_left hc]

/-- The release step `(1.0f - 0.9f) / 5`. -/
theorem release_gainStep_100 :
    roundF32 (roundF32 (1 - 15099494 / 2 ^ 24 : ℝ) / roundF32 (((5 : ℤ) : ℝ)))
      = 10737421 / 2 ^ 29 := by
  have h1 := roundF32_eq_of_close (x := (1 - 15099494 / 2 ^ 24 : ℝ)) (-4) (-27) 13421776
    (by norm_num) (by norm_num) (by decide) (by norm_num) (by norm_num)
  have h5 : roundF32 (((5 : ℤ) : ℝ)) = 5 := by
    have := roundF32_intCast (α := ℝ) 5 (by norm_num)
    simpa using this
  have h2 := roundF32_eq_of_close (x := ((13421776 : ℤ) : ℝ) * 2 ^ (-27 : ℤ) / 5) (-6) (-29)
    10737421 (by norm_num) (by norm_num) (by decide) (by norm_num) (by norm_num)
  rw [h1, h5, h2]
  norm_num

/-- Five silent samples at 100 Hz, from the constructor's gate state. -/
theorem release_run_100 :
    (applyNoiseGate (fun x y : ℝ => roundF32 (x ^ y)) noiseGateDB_init GateState.init
        [0, 0, 0, 0, 0] 100).1.m_gain = 15099496 / 2 ^ 24 := by
  have hquiet : ∀ s ∈ ([0, 0, 0, 0, 0] : List ℝ),
      |s| < thresholdLinear (fun x y : ℝ => roundF32 (x ^ y)) noiseGateDB_init := by
    intro s hs
    rw [thresholdLinear_init_binary32]
    simp at hs
    subst hs
    norm_num
  rw [applyNoiseGate_eq_gateRun_binary32, gateRun_below_gain_foldl _ _ _ _ _ _ hquiet, reduction_init_binary32,
    releaseSamples_100, release_gainStep_100]
  simp only [List.foldl, GateState.init]
  have e1 := roundF32_eq_of_close (x := (1 - 10737421 / 2 ^ 29 : ℝ)) (-1) (-24) 16441672
    (by norm_num) (by norm_num) (by decide) (by norm_num) (by norm_num)
  have e2 := roundF32_eq_of_close (x := (16441672 / 2 ^ 24 - 10737421 / 2 ^ 29 : ℝ)) (-1) (-24)
    16106128 (by norm_num) (by norm_num) (by decide) (by norm_num) (by norm_num)
  have e3 := roundF32_eq_of_close (x := (16106128 / 2 ^ 24 - 10737421 / 2 ^ 29 : ℝ)) (-1) (-24)
    15770584 (by norm_num) (by norm_num) (by decide) (by norm_num) (by norm_num)
  have e4 := roundF32_eq_of_close (x := (15770584 / 2 ^ 24 - 10737421 / 2 ^ 29 : ℝ)) (-1) (-24)
    15435040 (by norm_num) (by norm_num) (by decide) (by norm_num) (by norm_num)
  have e5 := roundF32_eq_of_close (x := (15435040 / 2 ^ 24 - 10737421 / 2 ^ 29 : ℝ)) (-1) (-24)
    15099496 (by norm_num) (by norm_num) (by decide) (by norm_num) (by norm_num)
  rw [release_step_100 1 (16441672 / 2 ^ 24) (by norm_num) (by rw [e1]; norm_num) (by norm_num),
    release_step_100 (16441672 / 2 ^ 24) (16106128 / 2 ^ 24) (by norm_num)
      (by rw [e2]; norm_num) (by norm_num),
    release_step_100 (16106128 / 2 ^ 24) (15770584 / 2 ^ 24) (by norm_num)
      (by rw [e3]; norm_num) (by norm_num),
    release_step_100 (15770584 / 2 ^ 24) (15435040 / 2 ^ 24) (by norm_num)
      (by rw [e4]; norm_num) (by norm_num),
    release_step_100 (15435040 / 2 ^ 24) (15099496 / 2 ^ 24) (by norm_num)
      (by rw [e5]; norm_num) (by norm_num)]


/-- One attack step below `1.0` at 400 Hz. -/
theorem attack_step_400 (g c : ℝ) (hg : g < 1)
    (hr : roundF32 (g + 13421776 / 2 ^ 29) = c) (hc : c ≤ 1) :
    (if g < 1 then min (roundF32 (g + 13421776 / 2 ^ 29)) 1 else g) = c := by
  rw [if_pos hg, hr, min_eq_left hc]

/-- The attack step `(1.0f - 0.9f) / 4`. -/
theorem attack_gainStep_400 :
    roundF32 (roundF32 (1 - 15099494 / 2 ^ 24 : ℝ) / roundF32 (((4 : ℤ) : ℝ)))
      = 13421776 / 2 ^ 29 := by
  have h1 := roundF32_eq_of_close (x := (1 - 15099494 / 2 ^ 24 : ℝ)) (-4) (-27) 13421776
    (by norm_num) (by norm_num) (by decide) (by norm_num) (by norm_num)
  have h4 : roundF32 (((4 : ℤ) : ℝ)) = 4 := by
    have := roundF32_intCast (α := ℝ) 4 (by norm_num)
    simpa using this
  have h2 := roundF32_eq_of_close (x := ((13421776 : ℤ) : ℝ) * 2 ^ (-27 : ℤ) / 4) (-6) (-29)
    13421776 (by norm_num) (by norm_num) (by decide) (by norm_num) (by norm_num)
  rw [h1, h4, h2]
  norm_num

/-- Four full-scale samples at 400 Hz, from a closed gate with the gain on the floor. -/
theorem attack_run_400 :
    (applyNoiseGate (fun x y : ℝ => roundF32 (x ^ y)) noiseGateDB_init
        { m_isGateClosed := true, m_holdCounter := 0, m_gain := 15099494 / 2 ^ 24 }
        [1, 1, 1, 1] 400).1.m_gain = 16777214 / 2 ^ 24 := by
  have hloud : ∀ s ∈ ([1, 1, 1, 1] : List ℝ),
      ¬ |s| < thresholdLinear (fun x y : ℝ => roundF32 (x ^ y)) noiseGateDB_init := by
    intro s hs
    rw [thresholdLinear_init_binary32]
    simp at hs
    subst hs
    norm_num
  rw [applyNoiseGate_eq_gateRun_binary32, gateRun_above_gain_foldl _ _ _ _ _ _ hloud, reduction_init_binary32,
    attackSamples_400, attack_gainStep_400]
  simp only [List.foldl]
  have e1 := roundF32_eq_of_tie (x := (15099494 / 2 ^ 24 + 13421776 / 2 ^ 29 : ℝ)) (-1) (-24)
    15518924 (by norm_num) (by norm_num) (by decide) (by norm_num) (by decide)
  have e2 := roundF32_eq_of_tie (x := (15518924 / 2 ^ 24 + 13421776 / 2 ^ 29 : ℝ)) (-1) (-24)
    15938354 (by norm_num) (by norm_num) (by decide) (by norm_num) (by decide)
  have e3 := roundF32_eq_of_tie (x := (15938354 / 2 ^ 24 + 13421776 / 2 ^ 29 : ℝ)) (-1) (-24)
    16357784 (by norm_num) (by norm_num) (by decide) (by norm_num) (by decide)
  have e4 := roundF32_eq_of_tie (x := (16357784 / 2 ^ 24 + 13421776 / 2 ^ 29 : ℝ)) (-1) (-24)
    16777214 (by norm_num) (by norm_num) (by decide) (by norm_num) (by decide)
  rw [attack_step_400 (15099494 / 2 ^ 24) (15518924 / 2 ^ 24) (by norm_num)
      (by rw [e1]; norm_num) (by norm_num),
    attack_step_400 (15518924 / 2 ^ 24) (15938354 / 2 ^ 24) (by norm_num)
      (by rw [e2]; norm_num) (by norm_num),
    attack_step_400 (15938354 / 2 ^ 24) (16357784 / 2 ^ 24) (by norm_num)
      (by rw [e3]; norm_num) (by norm_num),
    attack_step_400 (16357784 / 2 ^ 24) (16777214 / 2 ^ 24) (by norm_num)
      (by rw [e4]; norm_num) (by norm_num)]

/-- Counterexample to C8 as stated: at 100 Hz the release window is five samples; after
five silent samples from the constructor's state the gain is `15099496 / 2^24`
(`0.900000095`), two spacings above the floor `0.9f = 15099494 / 2^24`. -/
theorem applyNoiseGate_release_misses_floor :
    releaseSamples 100 = 5 ∧
    reduction (fun x y : ℝ => roundF32 (x ^ y)) noiseGateDB_init = 15099494 / 2 ^ 24 ∧
    (applyNoiseGate (fun x y : ℝ => roundF32 (x ^ y)) noiseGateDB_init GateState.init
        [0, 0, 0, 0, 0] 100).1.m_gain = 15099496 / 2 ^ 24 ∧
    (applyNoiseGate (fun x y : ℝ => roundF32 (x ^ y)) noiseGateDB_init GateState.init
        [0, 0, 0, 0, 0] 100).1.m_gain
      ≠ reduction (fun x y : ℝ => roundF32 (x ^ y)) noiseGateDB_init := by
  refine ⟨releaseSamples_100, reduction_init_binary32, release_run_100, ?_⟩
  rw [release_run_100, reduction_init_binary32]
  norm_num

/-- Witness for C8: five silent samples at 100 Hz from the constructor's state. -/
theorem applyNoiseGate_release_near_floor_witness :
    (1 ≤ releaseSamples 100 ∧ (100 : ℤ) * 50 < 2 ^ 31 ∧
     reduction (fun x y : ℝ => roundF32 (x ^ y)) noiseGateDB_init
       ≤ (GateState.init : GateState ℝ).m_gain ∧
     (GateState.init : GateState ℝ).m_gain ≤ 1 ∧
     releaseSamples 100 ≤ (([0, 0, 0, 0, 0] : List ℝ).length : ℤ) ∧
     ∀ s ∈ ([0, 0, 0, 0, 0] : List ℝ),
       |s| < thresholdLinear (fun x y : ℝ => roundF32 (x ^ y)) noiseGateDB_init) ∧
    (applyNoiseGate (fun x y : ℝ => roundF32 (x ^ y)) noiseGateDB_init GateState.init
        [0, 0, 0, 0, 0] 100).1.m_gain
      ≤ reduction (fun x y : ℝ => roundF32 (x ^ y)) noiseGateDB_init
        + ((releaseSamples 100 : ℝ) + 3) * 2 ^ (-25 : ℤ) :=
  ⟨⟨by rw [releaseSamples_100]; norm_num, by norm_num,
    by rw [reduction_init_binary32]; norm_num [GateState.init],
    le_refl _,
    by rw [releaseSamples_100]; norm_num,
    by intro s hs; rw [thresholdLinear_init_binary32]; simp at hs; subst hs; norm_num⟩,
   (applyNoiseGate_release_near_floor (fun x y : ℝ => roundF32 (x ^ y)) noiseGateDB_init
      GateState.init [0, 0, 0, 0, 0] 100
      (by rw [releaseSamples_100]; norm_num) (by norm_num)
      (by rw [reduction_init_binary32]; norm_num [GateState.init])
      (le_refl _)
      (by rw [releaseSamples_100]; norm_num)
      (by intro s hs; rw [thresholdLinear_init_binary32]; simp at hs; subst hs; norm_num)).2.1⟩

/-- Counterexample to C9 as stated: at 400 Hz the attack window is four samples; after four
full-scale samples from a closed gate with the gain on the floor `0.9f` the gain is
`16777214 / 2^24` (`0.999999881`), two spacings below `1.0`. -/
theorem applyNoiseGate_attack_misses_unity :
    attackSamples 400 = 4 ∧
    reduction (fun x y : ℝ => roundF32 (x ^ y)) noiseGateDB_init = 15099494 / 2 ^ 24 ∧
    (applyNoiseGate (fun x y : ℝ => roundF32 (x ^ y)) noiseGateDB_init
        { m_isGateClosed := true, m_holdCounter := 0, m_gain := 15099494 / 2 ^ 24 }
        [1, 1, 1, 1] 400).1.m_gain = 16777214 / 2 ^ 24 ∧
    (applyNoiseGate (fun x y : ℝ => roundF32 (x ^ y)) noiseGateDB_init
        { m_isGateClosed := true, m_holdCounter := 0, m_gain := 15099494 / 2 ^ 24 }
        [1, 1, 1, 1] 400).1.m_gain ≠ 1 := by
  refine ⟨attackSamples_400, reduction_init_binary32, attack_run_400, ?_⟩
  rw [attack_run_400]
  norm_num

/-- Witness for C9: four full-scale samples at 400 Hz from a closed gate with the gain on
the floor, so that the whole ramp is run. -/
theorem applyNoiseGate_attack_near_unity_witness :
    (thresholdLinear (fun x y : ℝ => roundF32 (x ^ y)) noiseGateDB_init ≤ 1 ∧
     1 ≤ attackSamples 400 ∧ (400 : ℤ) * 10 < 2 ^ 31 ∧
     reduction (fun x y : ℝ => roundF32 (x ^ y)) noiseGateDB_init
       ≤ ({ m_isGateClosed := true, m_holdCounter := 0, m_gain := 15099494 / 2 ^ 24 } :
            GateState ℝ).m_gain ∧
     ({ m_isGateClosed := true, m_holdCounter := 0, m_gain := 15099494 / 2 ^ 24 } :
            GateState ℝ).m_gain ≤ 1 ∧
     attackSamples 400 ≤ (([1, 1, 1, 1] : List ℝ).length : ℤ) ∧
     ∀ s ∈ ([1, 1, 1, 1] : List ℝ), |s| = 1) ∧
    1 - ((attackSamples 400 : ℝ) + 3) * 2 ^ (-25 : ℤ)
      ≤ (applyNoiseGate (fun x y : ℝ => roundF32 (x ^ y)) noiseGateDB_init
          { m_isGateClosed := true, m_holdCounter := 0, m_gain := 15099494 / 2 ^ 24 }
          [1, 1, 1, 1] 400).1.m_gain :=
  ⟨⟨by rw [thresholdLinear_init_binary32]; norm_num,
    by rw [attackSamples_400]; norm_num, by norm_num,
    by rw [reduction_init_binary32],
    by norm_num,
    by rw [attackSamples_400]; norm_num,
    by intro s hs; simp at hs; subst hs; norm_num⟩,
   (applyNoiseGate_attack_near_unity (fun x y : ℝ => roundF32 (x ^ y)) noiseGateDB_init
      { m_isGateClosed := true, m_holdCounter := 0, m_gain := 15099494 / 2 ^ 24 }
      [1, 1, 1, 1] 400
      (by rw [thresholdLinear_init_binary32]; norm_num)
      (by rw [attackSamples_400]; norm_num) (by norm_num)
      (by rw [reduction_init_binary32])
      (by norm_num)
      (by rw [attackSamples_400]; norm_num)
      (by intro s hs; simp at hs; subst hs; norm_num)).1⟩

end NoiseGateExamples

end Binary32

section GateInvariant

variable {α : Type u} [LinearOrderedField α]

/-- One pass through the loop body keeps a gain in `[0, 1]` inside `[0, 1]`. -/
theorem gateIteration_gain_unit (th red : α) (att rel : ℤ) (st : GateState α) (s : α)
    (hred0 : 0 ≤ red) (hred1 : red ≤ 1)
    (hsa : 0 ≤ (1 - red) / (att : α)) (hsr : 0 ≤ (1 - red) / (rel : α))
    (h0 : 0 ≤ st.m_gain) (h1 : st.m_gain ≤ 1) :
    0 ≤ (gateIteration th red att rel st s).1.m_gain ∧
    (gateIteration th red att rel st s).1.m_gain ≤ 1 := by
  unfold gateIteration
  by_cases hs : |s| < th
  · simp only [if_pos hs]
    by_cases hg : st.m_gain > red
    · have hle : max (st.m_gain - (1 - red) / (rel : α)) red ≤ 1 :=
        max_le (by linarith) hred1
      have hge : 0 ≤ max (st.m_gain - (1 - red) / (rel : α)) red :=
        le_trans hred0 (le_max_right _ _)
      cases hc : st.m_isGateClosed <;> simp [hg, hle, hge]
    · cases hc : st.m_isGateClosed <;> simp [hg, h0, h1]
  · simp only [if_neg hs]
    by_cases hg : st.m_gain < 1
    · have hle : min (st.m_gain + (1 - red) / (att : α)) 1 ≤ 1 := min_le_right _ _
      have hge : 0 ≤ min (st.m_gain + (1 - red) / (att : α)) 1 :=
        le_min (by linarith) zero_le_one
      cases hc : st.m_isGateClosed
      · simp [hg, hle, hge]
      · by_cases hh : st.m_holdCounter + 1 > att <;> simp [hg, hh, hle, hge]
    · cases hc : st.m_isGateClosed
      · simp [hg, h0, h1]
      · by_cases hh : st.m_holdCounter + 1 > att <;> simp [hg, hh, h0, h1]

/-- The value written back is the sample times the new gain. -/
theorem gateIteration_output (th red : α) (att rel : ℤ) (st : GateState α) (s : α) :
    (gateIteration th red att rel st s).2
      = s * (gateIteration th red att rel st s).1.m_gain := rfl

/-- Over any run of samples a gain in `[0, 1]` stays in `[0, 1]`, the buffer keeps its
length and no sample grows in magnitude. -/
theorem gateRun_gain_unit (th red : α) (att rel : ℤ)
    (hred0 : 0 ≤ red) (hred1 : red ≤ 1)
    (hsa : 0 ≤ (1 - red) / (att : α)) (hsr : 0 ≤ (1 - red) / (rel : α))
    (buf : List α) : ∀ st : GateState α, 0 ≤ st.m_gain → st.m_gain ≤ 1 →
      (0 ≤ (gateRun th red att rel st buf).1.m_gain ∧
        (gateRun th red att rel st buf).1.m_gain ≤ 1) ∧
      (gateRun th red att rel st buf).2.length = buf.length ∧
      ∀ i, |(gateRun th red att rel st buf).2.getD i 0| ≤ |buf.getD i 0| := by
  induction buf with
  | nil =>
    intro st h0 h1
    exact ⟨⟨h0, h1⟩, rfl, fun i => le_refl _⟩
  | cons x rest ih =>
    intro st h0 h1
    obtain ⟨g0, g1⟩ := gateIteration_gain_unit th red att rel st x hred0 hred1 hsa hsr h0 h1
    obtain ⟨hg, hlen, hout⟩ := ih (gateIteration th red att rel st x).1 g0 g1
    simp only [gateRun]
    refine ⟨hg, by simp [hlen], ?_⟩
    intro i
    cases i with
    | zero =>
      simp only [List.getD_cons_zero]
      rw [gateIteration_output, abs_mul, abs_of_nonneg g0]
      exact mul_le_of_le_one_right (abs_nonneg x) g1
    | succ j =>
      simp only [List.getD_cons_succ]
      exact hout j

/-- C12: when the attack and release windows are at least one sample and the gain is in
`[0, 1]` on entry, the gain is in `[0, 1]` after every processed sample (after every prefix
of the buffer), the buffer keeps its length, and every output sample has magnitude no
greater than its input sample. -/
theorem applyNoiseGate_gain_invariant (pow : α → α → α) (noiseGateDB : ℤ)
    (st : GateState α) (buf : List α) (sampleRate : ℤ)
    (hatt : 1 ≤ attackSamples sampleRate) (hrel : 1 ≤ releaseSamples sampleRate)
    (h0 : 0 ≤ st.m_gain) (h1 : st.m_gain ≤ 1) :
    (∀ k, 0 ≤ (applyNoiseGate pow noiseGateDB st (buf.take k) sampleRate).1.m_gain ∧
        (applyNoiseGate pow noiseGateDB st (buf.take k) sampleRate).1.m_gain ≤ 1) ∧
    (applyNoiseGate pow noiseGateDB st buf sampleRate).2.length = buf.length ∧
    ∀ i, |(applyNoiseGate pow noiseGateDB st buf sampleRate).2.getD i 0| ≤ |buf.getD i 0| := by
  obtain ⟨hr0, hr9⟩ := reduction_range pow noiseGateDB
  have hr1 : reduction pow noiseGateDB ≤ 1 := le_trans hr9 (by norm_num)
  have hA : (0 : α) ≤ (attackSamples sampleRate : α) := by
    have : (0 : ℤ) ≤ attackSamples sampleRate := by omega
    exact_mod_cast this
  have hR : (0 : α) ≤ (releaseSamples sampleRate : α) := by
    have : (0 : ℤ) ≤ releaseSamples sampleRate := by omega
    exact_mod_cast this
  have hsa : 0 ≤ (1 - reduction pow noiseGateDB) / (attackSamples sampleRate : α) :=
    div_nonneg (by linarith) hA
  have hsr : 0 ≤ (1 - reduction pow noiseGateDB) / (releaseSamples sampleRate : α) :=
    div_nonneg (by linarith) hR
  refine ⟨?_, ?_, ?_⟩
  · intro k
    rw [applyNoiseGate_eq_gateRun]
    exact (gateRun_gain_unit _ _ _ _ hr0 hr1 hsa hsr (buf.take k) st h0 h1).1
  · rw [applyNoiseGate_eq_gateRun]
    exact (gateRun_gain_unit _ _ _ _ hr0 hr1 hsa hsr buf st h0 h1).2.1
  · rw [applyNoiseGate_eq_gateRun]
    exact (gateRun_gain_unit _ _ _ _ hr0 hr1 hsa hsr buf st h0 h1).2.2

/-- Witness for C12: at 100 Hz (attack 1 sample, release 5 samples) from the constructor's
gate members, on a quiet sample followed by a loud one. -/
theorem applyNoiseGate_gain_invariant_witness :
    (1 ≤ attackSamples 100 ∧ 1 ≤ releaseSamples 100 ∧
      0 ≤ (GateState.init : GateState ℚ).m_gain ∧ (GateState.init : GateState ℚ).m_gain ≤ 1) ∧
    ∀ i, |(applyNoiseGate (fun _ _ => (1 / 10 : ℚ)) noiseGateDB_init GateState.init
            [1 / 100, 1 / 2] 100).2.getD i 0| ≤ |([1 / 100, 1 / 2] : List ℚ).getD i 0| :=
  ⟨⟨by decide, by decide, by norm_num [GateState.init], by norm_num [GateState.init]⟩,
   (applyNoiseGate_gain_invariant (fun _ _ => (1 / 10 : ℚ)) noiseGateDB_init GateState.init
      [1 / 100, 1 / 2] 100 (by decide) (by decide) (by norm_num [GateState.init])
      (by norm_num [GateState.init])).2.2⟩

end GateInvariant

section ConversionShape

variable {α : Type u} [LinearOrderedField α]

/-- On a non-empty chunk and at least one channel the format conversion gives the scaled
16-bit words of the whole frames, in order. -/
theorem int16ToFloat_eq_map (input : List (Fin 256)) (channels : ℕ)
    (hne : input ≠ []) (hch : 1 ≤ channels) :
    int16ToFloat input channels
      = some ((List.range (input.length / (2 * channels) * channels)).map
          (fun i => (int16At input i : α) / 32768)) := by
  unfold int16ToFloat
  have h1 : input.isEmpty = false := by
    cases input with
    | nil => exact absurd rfl hne
    | cons _ _ => rfl
  have h2 : ¬ channels = 0 := by omega
  rw [h1]
  simp only [Bool.false_eq_true, if_false, if_neg h2]
  rw [int16ToFloatLoop_replicate, mul_comm channels 2]
  simp only [mul_one_div]

end ConversionShape

section Bypass

variable {α : Type u} [LinearOrderedField α] [FloorRing α] {σ τ : Type}

/-- With equal rates and the pitch, distortion and filter stages switched off, one pass
through the loop body converts the chunk, gates it when the slider value read by the loop
is negative, and writes the result. -/
theorem runIterationWith_bypass (libs : Libs σ τ α) (t : AudioThread σ τ α)
    (uiSnapshot uiGate uiPitch : MainWindow α) (inputBuffer : List (Fin 256))
    (conv : List α)
    (hrate : t.inputSampleRate = t.outputSampleRate)
    (hpitch : ¬ |uiSnapshot.m_pitchFactor - 1| > 1 / 10000)
    (hdist : ¬ |uiSnapshot.m_distortionGain - 1| > 1 / 10000)
    (hfilt : uiSnapshot.m_filterIndex = 0)
    (hconv : int16ToFloat inputBuffer t.m_inChannels = some conv) :
    runIterationWith libs t uiSnapshot uiGate uiPitch inputBuffer
      = some
          { thread :=
              { t with
                m_soundTouch := libs.soundTouch.setPitchSemiTones t.m_soundTouch 0
                gate :=
                  (if uiGate.getNoiseGate < 0 then
                    applyNoiseGate libs.pow t.noiseGateDB t.gate conv t.outputSampleRate
                  else (t.gate, conv)).1 }
            written :=
              (if uiGate.getNoiseGate < 0 then
                applyNoiseGate libs.pow t.noiseGateDB t.gate conv t.outputSampleRate
              else (t.gate, conv)).2
            level :=
              computeLevel
                (if uiGate.getNoiseGate < 0 then
                  applyNoiseGate libs.pow t.noiseGateDB t.gate conv t.outputSampleRate
                else (t.gate, conv)).2 } := by
  unfold runIterationWith
  simp only [hrate, ne_eq, not_true_eq_false, if_false, hconv, Option.map_some', if_neg hpitch,
    if_neg hdist, hfilt, List.drop_length, List.append_nil]

/-- C13: with equal input and output rates, `filterIndex = 0`, `pitchFactor = 1`,
`distortionGain = 1` and a noise-gate slider at `0`, one pass through the loop body on a
non-empty chunk writes exactly the format-converted input: sample `i` of the written
buffer is the `i`-th 16-bit word divided by `32768`, and there are `frames * channels` of
them. -/
theorem runIteration_identity (libs : Libs σ τ α) (t : AudioThread σ τ α)
    (ui : MainWindow α) (inputBuffer : List (Fin 256))
    (hrate : t.inputSampleRate = t.outputSampleRate)
    (hne : inputBuffer ≠ []) (hch : 1 ≤ t.m_inChannels)
    (hfilt : ui.m_filterIndex = 0) (hpitch : ui.m_pitchFactor = 1)
    (hdist : ui.m_distortionGain = 1) (hgate : ui.getNoiseGate = 0) :
    ∃ r, runIteration libs t ui inputBuffer = some r ∧
      r.written = (List.range (inputBuffer.length / (2 * t.m_inChannels) * t.m_inChannels)).map
        (fun i => (int16At inputBuffer i : α) / 32768) ∧
      r.written.length = inputBuffer.length / (2 * t.m_inChannels) * t.m_inChannels := by
  have hp : ¬ |ui.m_pitchFactor - 1| > 1 / 10000 := by
    rw [hpitch]; norm_num
  have hd : ¬ |ui.m_distortionGain - 1| > 1 / 10000 := by
    rw [hdist]; norm_num
  have hconv := int16ToFloat_eq_map (α := α) inputBuffer t.m_inChannels hne hch
  have hg : ¬ ui.getNoiseGate < 0 := by rw [hgate]; decide
  unfold runIteration
  rw [runIterationWith_bypass libs t ui ui ui inputBuffer _ hrate hp hd hfilt hconv]
  refine ⟨_, rfl, ?_, ?_⟩
  · simp only [if_neg hg]
  · simp only [if_neg hg, List.length_map, List.length_range]

/-- Witness for C13: a mono 48 kHz thread with the constructor's parameters on the chunk of
the two words `16384`, `-32768`. -/
theorem runIteration_identity_witness :
    ∃ r, runIteration
        ({ math := ⟨id, id, id, id, 3⟩, tanh := id, pow := fun _ _ => 1 / 10,
           src_process := fun c d => (c, d, 0),
           soundTouch :=
            { setPitchSemiTones := fun s _ => s, numUnprocessedSamples := fun _ => 0,
              clear := fun s => s, putSamples := fun s _ => some s,
              numSamples := fun _ => 0, receiveSamples := fun s _ => (s, []) } } :
          Libs Unit Unit ℚ)
        { m_audioSource := some 1, m_audioSink := some 2, m_sampleRateConverter := some (),
          m_soundTouch := (), m_biquadFilter := Biquad.init, m_previousPitchOutput := [],
          gate := GateState.init, noiseGateDB := noiseGateDB_init, m_inChannels := 1,
          inputSampleRate := 48000, outputSampleRate := 48000 }
        MainWindow.init [0, 64, 0, 128] = some r ∧
      r.written = (List.range (([0, 64, 0, 128] : List (Fin 256)).length / (2 * 1) * 1)).map
        (fun i => (int16At [0, 64, 0, 128] i : ℚ) / 32768) ∧
      r.written.length = ([0, 64, 0, 128] : List (Fin 256)).length / (2 * 1) * 1 :=
  runIteration_identity _
    { m_audioSource := some 1, m_audioSink := some 2, m_sampleRateConverter := some (),
      m_soundTouch := (), m_biquadFilter := Biquad.init, m_previousPitchOutput := [],
      gate := GateState.init, noiseGateDB := noiseGateDB_init, m_inChannels := 1,
      inputSampleRate := 48000, outputSampleRate := 48000 }
    MainWindow.init [0, 64, 0, 128] rfl (by simp) (by decide) rfl rfl rfl rfl

/-- Among negative slider values the one the operator selected has no influence on a pass
through the loop body: the loop only tests its sign. -/
theorem runIterationWith_gate_value_unused (libs : Libs σ τ α) (t : AudioThread σ τ α)
    (uiSnapshot uiGate uiGate2 uiPitch : MainWindow α) (inputBuffer : List (Fin 256))
    (h1 : uiGate.getNoiseGate < 0) (h2 : uiGate2.getNoiseGate < 0) :
    runIterationWith libs t uiSnapshot uiGate uiPitch inputBuffer
      = runIterationWith libs t uiSnapshot uiGate2 uiPitch inputBuffer := by
  unfold runIterationWith
  simp only [if_pos h1, if_pos h2]

end Bypass

section GateThreshold

/-- The linear threshold for the constructor's `-20` dB is `1/10`. -/
theorem thresholdLinear_init :
    thresholdLinear (fun x y : ℝ => x ^ y) noiseGateDB_init = 1 / 10 := by
  unfold thresholdLinear noiseGateDB_init
  have h : (((-20 : ℤ) : ℝ)) / 20 = -1 := by norm_num
  rw [h]
  beta_reduce
  rw [Real.rpow_neg_one]
  norm_num

/-- The floor for the constructor's `-20` dB is `9/10`. -/
theorem reduction_init :
    reduction (fun x y : ℝ => x ^ y) noiseGateDB_init = 9 / 10 := by
  unfold reduction noiseGateDB_init clamp
  have h : (((-20 : ℤ) : ℝ)) / 20 = -1 := by norm_num
  rw [h]
  beta_reduce
  rw [Real.rpow_neg_one]
  norm_num

/-- C11, on the code: with the slider at `-40` dB the sample `1/16` is above the selected
threshold `10^(-40/20) = 1/100`, yet the pass through the loop body gates it as a sample
below threshold (it is below the constructor's `10^(-20/20) = 1/10`) and writes
`1/16 * 49/50`. -/
theorem runIteration_gate_ignores_selected_threshold :
    thresholdLinear (fun x y : ℝ => x ^ y) (-40) ≤ |(1 / 16 : ℝ)| ∧
    ∃ r, runIteration
        ({ math := ⟨Real.sin, Real.cos, Real.sinh, Real.log, Real.pi⟩, tanh := Real.tanh,
           pow := fun x y => x ^ y, src_process := fun c d => (c, d, 0),
           soundTouch :=
            { setPitchSemiTones := fun s _ => s, numUnprocessedSamples := fun _ => 0,
              clear := fun s => s, putSamples := fun s _ => some s,
              numSamples := fun _ => 0, receiveSamples := fun s _ => (s, []) } } :
          Libs Unit Unit ℝ)
        { m_audioSource := some 1, m_audioSink := some 2, m_sampleRateConverter := some (),
          m_soundTouch := (), m_biquadFilter := Biquad.init, m_previousPitchOutput := [],
          gate := GateState.init, noiseGateDB := noiseGateDB_init, m_inChannels := 1,
          inputSampleRate := 100, outputSampleRate := 100 }
        { (MainWindow.init : MainWindow ℝ) with
          noiseGateSlider := { minimum := -60, maximum := 0, value := -40 } }
        [0, 8] = some r ∧
      r.written = [1 / 16 * (49 / 50)] := by
  constructor
  · unfold thresholdLinear
    have h : (((-40 : ℤ) : ℝ)) / 20 = -2 := by norm_num
    rw [h]
    beta_reduce
    rw [Real.rpow_neg (by norm_num), Real.rpow_two, abs_of_nonneg (by norm_num)]
    norm_num
  · have hconv : int16ToFloat (α := ℝ) [0, 8] 1 = some [1 / 16] := by
      rw [int16ToFloat_eq_map _ _ (by simp) (by decide)]
      have e0 : int16At [0, 8] 0 = 2048 := by decide
      simp [List.range_succ, e0]
      norm_num
    unfold runIteration
    rw [runIterationWith_bypass _ _ _ _ _ _ [1 / 16] rfl (by norm_num [MainWindow.init])
      (by norm_num [MainWindow.init]) rfl hconv]
    refine ⟨_, rfl, ?_⟩
    have hneg : (-40 : ℤ) < 0 := by decide
    simp only [MainWindow.getNoiseGate, if_pos hneg]
    rw [applyNoiseGate_eq_gateRun, thresholdLinear_init, reduction_init]
    have hatt : attackSamples 100 = 1 := by decide
    have hrel : releaseSamples 100 = 5 := by decide
    rw [hatt, hrel]
    have habs : |(1 / 16 : ℝ)| < 1 / 10 := by
      rw [abs_of_nonneg (by norm_num)]; norm_num
    simp only [gateRun, gateIteration, if_pos habs, GateState.init]
    norm_num

end GateThreshold

section StageChain

/-- C14, on the code: a SoundTouch object that holds one earlier sample (`3/4`) returns two
samples for a chunk of one sample (`1/2`).  With pitch factor `2` and distortion gain `0`
the pass through the loop body distorts only the first `numSamples = 1` samples and
writes `[0, 1/2]`, whereas the stages composed in order give `[0, 0]`. -/
theorem runIteration_tail_bypasses_stages :
    (runIteration
        ({ math := ⟨Real.sin, Real.cos, Real.sinh, Real.log, Real.pi⟩, tanh := Real.tanh,
           pow := fun x y => x ^ y, src_process := fun c d => (c, d, 0),
           soundTouch :=
            { setPitchSemiTones := fun q _ => q, numUnprocessedSamples := fun _ => 0,
              clear := fun _ => [], putSamples := fun q xs => some (q ++ xs),
              numSamples := fun q => q.length,
              receiveSamples := fun q n => (q.drop n, q.take n) } } :
          Libs Unit (List ℝ) ℝ)
        { m_audioSource := some 1, m_audioSink := some 2, m_sampleRateConverter := some (),
          m_soundTouch := [3 / 4], m_biquadFilter := Biquad.init, m_previousPitchOutput := [],
          gate := GateState.init, noiseGateDB := noiseGateDB_init, m_inChannels := 1,
          inputSampleRate := 48000, outputSampleRate := 48000 }
        { (MainWindow.init : MainWindow ℝ) with m_pitchFactor := 2, m_distortionGain := 0 }
        [0, 64]).map (fun r => r.written) = some [0, 1 / 2] ∧
      composedStages
        ({ math := ⟨Real.sin, Real.cos, Real.sinh, Real.log, Real.pi⟩, tanh := Real.tanh,
           pow := fun x y => x ^ y, src_process := fun c d => (c, d, 0),
           soundTouch :=
            { setPitchSemiTones := fun q _ => q, numUnprocessedSamples := fun _ => 0,
              clear := fun _ => [], putSamples := fun q xs => some (q ++ xs),
              numSamples := fun q => q.length,
              receiveSamples := fun q n => (q.drop n, q.take n) } } :
          Libs Unit (List ℝ) ℝ)
        { m_audioSource := some 1, m_audioSink := some 2, m_sampleRateConverter := some (),
          m_soundTouch := [3 / 4], m_biquadFilter := Biquad.init, m_previousPitchOutput := [],
          gate := GateState.init, noiseGateDB := noiseGateDB_init, m_inChannels := 1,
          inputSampleRate := 48000, outputSampleRate := 48000 }
        { (MainWindow.init : MainWindow ℝ) with m_pitchFactor := 2, m_distortionGain := 0 }
        [1 / 2] = [0, 0] ∧
      int16ToFloat (α := ℝ) [0, 64] 1 = some [1 / 2] := by
  have hconv : int16ToFloat (α := ℝ) [0, 64] 1 = some [1 / 2] := by
    rw [int16ToFloat_eq_map _ _ (by simp) (by decide)]
    have e0 : int16At [0, 64] 0 = 16384 := by decide
    simp [List.range_succ, e0]
    norm_num
  have hp : |(2 : ℝ) - 1| > 1 / 10000 := by norm_num
  have hd : |(0 : ℝ) - 1| > 1 / 10000 := by norm_num
  have hg : ¬ ((0 : ℤ) < 0) := by decide
  have hdist1 : applyDistortion Real.tanh [3 / 4] 1 0 = [0] := by
    have h := applyDistortion_eq_map Real.tanh [3 / 4] 0
    simpa using h
  have hdist2 : applyDistortion Real.tanh [3 / 4, 2⁻¹] 2 0 = [0, 0] := by
    have h := applyDistortion_eq_map Real.tanh [3 / 4, 2⁻¹] 0
    simpa using h
  refine ⟨?_, ?_, hconv⟩
  · unfold runIteration runIterationWith
    simp only [hconv, MainWindow.init, MainWindow.getNoiseGate, ne_eq, not_true_eq_false,
      if_false, Option.map_some', hp, hd, if_true, hg, applyPitchShifting, receiveLoop]
    simp [hdist1]
  · unfold composedStages
    simp only [MainWindow.init, MainWindow.getNoiseGate, ne_eq, not_true_eq_false,
      if_false, hp, hd, if_true, hg, applyPitchShifting, receiveLoop]
    simp [hdist2]

end StageChain

section FilterConfiguration

variable {α : Type u} [LinearOrderedField α]

/-- A `process` call does not touch the coefficients. -/
theorem Biquad.process_coefficients (f : Biquad α) (x : α) :
    (f.process x).2.b0 = f.b0 ∧ (f.process x).2.b1 = f.b1 ∧ (f.process x).2.b2 = f.b2 ∧
    (f.process x).2.a0 = f.a0 ∧ (f.process x).2.a1 = f.a1 ∧ (f.process x).2.a2 = f.a2 :=
  ⟨rfl, rfl, rfl, rfl, rfl, rfl⟩

/-- Filtering a buffer does not touch the coefficients. -/
theorem Biquad.processBuffer_coefficients (buffer : List α) : ∀ f : Biquad α,
    (f.processBuffer buffer).2.b0 = f.b0 ∧ (f.processBuffer buffer).2.b1 = f.b1 ∧
    (f.processBuffer buffer).2.b2 = f.b2 ∧ (f.processBuffer buffer).2.a0 = f.a0 ∧
    (f.processBuffer buffer).2.a1 = f.a1 ∧ (f.processBuffer buffer).2.a2 = f.a2 := by
  induction buffer with
  | nil => intro f; exact ⟨rfl, rfl, rfl, rfl, rfl, rfl⟩
  | cons x rest ih =>
    intro f
    simp only [Biquad.processBuffer]
    exact ih (f.process x).2

/-- C15, on the code: for the band edges `1000` Hz and `3000` Hz at `8000` Hz,
`updateFilter` and `initializeFilters` configure the band-pass with centre
`(low + high) / 2 = 2000` and bandwidth `high - low`, which makes `a1 = 0`; the per-chunk
stage `applyBandFilterFloat` calls `applyBandPass` with `low` as the centre frequency and
`high` as the bandwidth, and leaves a filter with `a1 ≠ 0`. -/
theorem applyBandFilterFloat_passes_band_edges :
    (∀ (m : MathFns ℝ) (f : Biquad ℝ) (buf : List ℝ) (low high : ℝ) (sr : ℤ),
      applyBandFilterFloat m f buf (buf.length : ℤ) 3 low high sr
        = f.applyBandPass m buf low high sr ∧
      applyBandFilterFloat m f buf (buf.length : ℤ) 4 low high sr
        = f.applyBandStop m buf low high sr ∧
      updateFilter m f 3 low high sr
        = f.setupBandPass m ((low + high) / 2) (high - low) (sr : ℝ) Biquad.defaultQ ∧
      initializeFilters m f 3 low high sr
        = f.setupBandPass m ((low + high) / 2) (high - low) (sr : ℝ) Biquad.defaultQ) ∧
    (updateFilter ⟨Real.sin, Real.cos, Real.sinh, Real.log, Real.pi⟩ Biquad.init 3
        1000 3000 8000).a1 = 0 ∧
    (applyBandFilterFloat ⟨Real.sin, Real.cos, Real.sinh, Real.log, Real.pi⟩ Biquad.init
        [1] 1 3 1000 3000 8000).2.a1 ≠ 0 := by
  refine ⟨?_, ?_, ?_⟩
  · intro m f buf low high sr
    refine ⟨?_, ?_, ?_, ?_⟩
    · simp [applyBandFilterFloat]
    · simp [applyBandFilterFloat]
    · simp [updateFilter]
    · simp only [initializeFilters, mul_one_div]
      norm_num
  · simp only [updateFilter, Biquad.setupBandPass]
    norm_num
    left
    have : 2 * Real.pi * 2000 / 8000 = Real.pi / 2 := by ring
    rw [this, Real.cos_pi_div_two]
  · have hguard : ¬ ((1000 : ℝ) ≤ 0 ∨ (1000 : ℝ) ≥ ((8000 : ℤ) : ℝ) * (1 / 2)) := by
      push_cast; norm_num
    simp only [applyBandFilterFloat, Biquad.applyBandPass, if_neg hguard]
    norm_num
    rw [(Biquad.processBuffer_coefficients _ _).2.2.2.2.1]
    simp only [Biquad.setupBandPass]
    have hω : 2 * Real.pi * 1000 / 8000 = Real.pi / 4 := by ring
    rw [hω]
    have hs : 0 < Real.sin (Real.pi / 4) := by
      apply Real.sin_pos_of_pos_of_lt_pi <;> linarith [Real.pi_pos]
    have hc : 0 < Real.cos (Real.pi / 4) := by
      apply Real.cos_pos_of_mem_Ioo
      constructor <;> linarith [Real.pi_pos]
    have harg : 0 < Real.log 2 / 2 * 3000 * (Real.pi / 4) / Real.sin (Real.pi / 4) := by
      have hl : 0 < Real.log 2 := Real.log_pos (by norm_num)
      have hp := Real.pi_pos
      positivity
    have hsh : 0 < Real.sinh (Real.log 2 / 2 * 3000 * (Real.pi / 4) / Real.sin (Real.pi / 4)) :=
      Real.sinh_pos_iff.mpr harg
    have hα : 0 < 1 + Real.sin (Real.pi / 4)
        * Real.sinh (Real.log 2 / 2 * 3000 * (Real.pi / 4) / Real.sin (Real.pi / 4)) := by
      positivity
    have : -2 * Real.cos (Real.pi / 4) * (1 / (1 + Real.sin (Real.pi / 4)
        * Real.sinh (Real.log 2 / 2 * 3000 * (Real.pi / 4) / Real.sin (Real.pi / 4)))) < 0 := by
      have h1 : 0 < 1 / (1 + Real.sin (Real.pi / 4)
        * Real.sinh (Real.log 2 / 2 * 3000 * (Real.pi / 4) / Real.sin (Real.pi / 4))) := by
        positivity
      nlinarith [mul_pos hc h1]
    exact ne_of_lt this

end FilterConfiguration

section Shutdown

variable {α : Type u} {σ τ : Type}

/-- C18: after `cleanup` the capture stream, the playback stream and the resampler handle
are all absent, and a second `cleanup` releases nothing and leaves the state the first
one produced. -/
theorem cleanup_idempotent [LinearOrderedField α] [FloorRing α] (t : AudioThread σ τ α) :
    (cleanup t).1.m_audioSource = none ∧ (cleanup t).1.m_audioSink = none ∧
    (cleanup t).1.m_sampleRateConverter = none ∧
    (cleanup (cleanup t).1).2 = [] ∧
    (cleanup (cleanup t).1).1 = (cleanup t).1 :=
  ⟨rfl, rfl, rfl, rfl, rfl⟩

end Shutdown

section EntryValidation

/-- Setting a slider to a new value inside its range stores it and emits `valueChanged`. -/
theorem QSlider.setValue_in_range (s : QSlider) (v : ℤ) (hlo : s.minimum ≤ v)
    (hhi : v ≤ s.maximum) (hne : s.value ≠ v) :
    s.setValue v = ({ s with value := v }, true) := by
  unfold QSlider.setValue
  have hb : max s.minimum (min s.maximum v) = v := by
    rw [min_eq_right hhi, max_eq_right hlo]
  simp only [hb]
  rw [if_neg (fun h => hne h.symm)]

variable {α : Type u} [LinearOrderedField α] [FloorRing α]

/-- The pitch entry handler leaves the window as it is on an entry that does not parse or
is out of range, and otherwise stores a pitch factor in `[0.5, 2]`. -/
theorem MainWindow.pitch_entry (w : MainWindow α) (parsed : Option α)
    (hrange : w.pitchSlider.minimum = 50 ∧ w.pitchSlider.maximum = 200) :
    ((∀ v, parsed = some v → ¬ (v ≥ 1 / 2 ∧ v ≤ 2)) →
      w.on_pitchValueEditLine_editingFinished parsed = w) ∧
    ((∃ v, parsed = some v ∧ v ≥ 1 / 2 ∧ v ≤ 2) →
      1 / 2 ≤ (w.on_pitchValueEditLine_editingFinished parsed).m_pitchFactor ∧
      (w.on_pitchValueEditLine_editingFinished parsed).m_pitchFactor ≤ 2) := by
  constructor
  · intro hbad
    cases parsed with
    | none => rfl
    | some v =>
      simp only [MainWindow.on_pitchValueEditLine_editingFinished]
      rw [if_neg (hbad v rfl)]
  · rintro ⟨v, rfl, hv1, hv2⟩
    have hlo : (50 : ℤ) ≤ ⌊v * 100⌋ := by
      apply Int.le_floor.mpr
      push_cast
      linarith
    have hhi : ⌊v * 100⌋ ≤ (200 : ℤ) := by
      have h := Int.floor_le (v * 100)
      have h2 : ((⌊v * 100⌋ : ℤ) : α) ≤ ((200 : ℤ) : α) := by
        push_cast
        linarith
      exact_mod_cast h2
    simp only [MainWindow.on_pitchValueEditLine_editingFinished]
    rw [if_pos ⟨hv1, hv2⟩]
    by_cases hne : w.pitchSlider.value ≠ ⌊v * 100⌋
    · simp only [if_pos hne]
      rw [QSlider.setValue_in_range _ _ (by rw [hrange.1]; exact hlo)
        (by rw [hrange.2]; exact hhi) hne]
      simp only [if_true, MainWindow.on_pitchSlider_valueChanged]
      have c1 : ((50 : ℤ) : α) ≤ ((⌊v * 100⌋ : ℤ) : α) := by exact_mod_cast hlo
      have c2 : ((⌊v * 100⌋ : ℤ) : α) ≤ ((200 : ℤ) : α) := by exact_mod_cast hhi
      push_cast at c1 c2
      constructor
      · rw [le_div_iff₀ (by norm_num)]; linarith
      · rw [div_le_iff₀ (by norm_num)]; linarith
    · simp only [if_neg hne]
      exact ⟨hv1, hv2⟩

/-- The distortion entry handler leaves the window as it is on an entry that does not parse
or is out of range, and otherwise stores a gain in `[0, 4]`. -/
theorem MainWindow.distortion_entry (w : MainWindow α) (parsed : Option α)
    (hrange : w.distortionSlider.minimum = 0 ∧ w.distortionSlider.maximum = 400) :
    ((∀ v, parsed = some v → ¬ (v ≥ 0 ∧ v ≤ 4)) →
      w.on_distortionValueEditLine_editingFinished parsed = w) ∧
    ((∃ v, parsed = some v ∧ v ≥ 0 ∧ v ≤ 4) →
      0 ≤ (w.on_distortionValueEditLine_editingFinished parsed).m_distortionGain ∧
      (w.on_distortionValueEditLine_editingFinished parsed).m_distortionGain ≤ 4) := by
  constructor
  · intro hbad
    cases parsed with
    | none => rfl
    | some v =>
      simp only [MainWindow.on_distortionValueEditLine_editingFinished]
      rw [if_neg (hbad v rfl)]
  · rintro ⟨v, rfl, hv1, hv2⟩
    have hlo : (0 : ℤ) ≤ ⌊v * 100⌋ := by
      apply Int.le_floor.mpr
      push_cast
      have : (0 : α) ≤ v := hv1
      linarith
    have hhi : ⌊v * 100⌋ ≤ (400 : ℤ) := by
      have h := Int.floor_le (v * 100)
      have h2 : ((⌊v * 100⌋ : ℤ) : α) ≤ ((400 : ℤ) : α) := by
        push_cast
        linarith
      exact_mod_cast h2
    simp only [MainWindow.on_distortionValueEditLine_editingFinished]
    rw [if_pos ⟨hv1, hv2⟩]
    by_cases hne : w.distortionSlider.value ≠ ⌊v * 100⌋
    · simp only [if_pos hne]
      rw [QSlider.setValue_in_range _ _ (by rw [hrange.1]; exact hlo)
        (by rw [hrange.2]; exact hhi) hne]
      simp only [if_true, MainWindow.on_distortionSlider_valueChanged]
      have c1 : ((0 : ℤ) : α) ≤ ((⌊v * 100⌋ : ℤ) : α) := by exact_mod_cast hlo
      have c2 : ((⌊v * 100⌋ : ℤ) : α) ≤ ((400 : ℤ) : α) := by exact_mod_cast hhi
      push_cast at c1 c2
      constructor
      · rw [le_div_iff₀ (by norm_num)]; linarith
      · rw [div_le_iff₀ (by norm_num)]; linarith
    · simp only [if_neg hne]
      exact ⟨hv1, hv2⟩

end EntryValidation

section BandEntryValidation

variable {α : Type u}

/-- The low-band entry handler leaves the window as it is on an entry that does not parse
or is out of range, and otherwise stores a frequency in `[20, 22000]`. -/
theorem MainWindow.lowBand_entry (w : MainWindow α) (parsed : Option ℤ)
    (hrange : w.lowBandSlider.minimum = 20 ∧ w.lowBandSlider.maximum = 22000) :
    ((∀ v, parsed = some v → ¬ (v ≥ 20 ∧ v ≤ 22000)) →
      w.on_lowBandValueEditLine_editingFinished parsed = w) ∧
    ((∃ v, parsed = some v ∧ v ≥ 20 ∧ v ≤ 22000) →
      20 ≤ (w.on_lowBandValueEditLine_editingFinished parsed).m_lowBandFreq ∧
      (w.on_lowBandValueEditLine_editingFinished parsed).m_lowBandFreq ≤ 22000) := by
  constructor
  · intro hbad
    cases parsed with
    | none => rfl
    | some v =>
      simp only [MainWindow.on_lowBandValueEditLine_editingFinished]
      rw [if_neg (hbad v rfl)]
  · rintro ⟨v, rfl, hv1, hv2⟩
    simp only [MainWindow.on_lowBandValueEditLine_editingFinished]
    rw [if_pos ⟨hv1, hv2⟩]
    by_cases hne : w.lowBandSlider.value ≠ v
    · simp only [if_pos hne]
      rw [QSlider.setValue_in_range _ _ (by rw [hrange.1]; exact hv1)
        (by rw [hrange.2]; exact hv2) hne]
      simp only [if_true, MainWindow.on_lowBandSlider_valueChanged]
      exact ⟨hv1, hv2⟩
    · simp only [if_neg hne]
      exact ⟨hv1, hv2⟩

/-- The high-band entry handler leaves the window as it is on an entry that does not parse
or is out of range, and otherwise stores a frequency in `[20, 22000]`. -/
theorem MainWindow.highBand_entry (w : MainWindow α) (parsed : Option ℤ)
    (hrange : w.highBandSlider.minimum = 20 ∧ w.highBandSlider.maximum = 22000) :
    ((∀ v, parsed = some v → ¬ (v ≥ 20 ∧ v ≤ 22000)) →
      w.on_highBandValueEditLine_editingFinished parsed = w) ∧
    ((∃ v, parsed = some v ∧ v ≥ 20 ∧ v ≤ 22000) →
      20 ≤ (w.on_highBandValueEditLine_editingFinished parsed).m_highBandFreq ∧
      (w.on_highBandValueEditLine_editingFinished parsed).m_highBandFreq ≤ 22000) := by
  constructor
  · intro hbad
    cases parsed with
    | none => rfl
    | some v =>
      simp only [MainWindow.on_highBandValueEditLine_editingFinished]
      rw [if_neg (hbad v rfl)]
  · rintro ⟨v, rfl, hv1, hv2⟩
    simp only [MainWindow.on_highBandValueEditLine_editingFinished]
    rw [if_pos ⟨hv1, hv2⟩]
    by_cases hne : w.highBandSlider.value ≠ v
    · simp only [if_pos hne]
      rw [QSlider.setValue_in_range _ _ (by rw [hrange.1]; exact hv1)
        (by rw [hrange.2]; exact hv2) hne]
      simp only [if_true, MainWindow.on_highBandSlider_valueChanged]
      exact ⟨hv1, hv2⟩
    · simp only [if_neg hne]
      exact ⟨hv1, hv2⟩

end BandEntryValidation

section EntryDomains

variable {α : Type u} [LinearOrderedField α] [FloorRing α]

/-- C17: with the slider ranges the constructor sets, each of the four `editingFinished`
handlers keeps the stored parameter when the entry does not parse (`none`) or is outside
the domain (`[0.5, 2]`, `[0, 4]`, `[20, 22000]`, `[20, 22000]`); and a parameter that was
inside its domain before the handler ran is inside it afterwards, whatever was typed. -/
theorem editingFinished_keeps_domain (w : MainWindow α) (pitchText gainText : Option α)
    (lowText highText : Option ℤ)
    (hp : w.pitchSlider.minimum = 50 ∧ w.pitchSlider.maximum = 200)
    (hd : w.distortionSlider.minimum = 0 ∧ w.distortionSlider.maximum = 400)
    (hl : w.lowBandSlider.minimum = 20 ∧ w.lowBandSlider.maximum = 22000)
    (hh : w.highBandSlider.minimum = 20 ∧ w.highBandSlider.maximum = 22000) :
    (((∀ v, pitchText = some v → ¬ (v ≥ 1 / 2 ∧ v ≤ 2)) →
        (w.on_pitchValueEditLine_editingFinished pitchText).m_pitchFactor = w.m_pitchFactor) ∧
      (1 / 2 ≤ w.m_pitchFactor ∧ w.m_pitchFactor ≤ 2 →
        1 / 2 ≤ (w.on_pitchValueEditLine_editingFinished pitchText).m_pitchFactor ∧
        (w.on_pitchValueEditLine_editingFinished pitchText).m_pitchFactor ≤ 2)) ∧
    (((∀ v, gainText = some v → ¬ (v ≥ 0 ∧ v ≤ 4)) →
        (w.on_distortionValueEditLine_editingFinished gainText).m_distortionGain
          = w.m_distortionGain) ∧
      (0 ≤ w.m_distortionGain ∧ w.m_distortionGain ≤ 4 →
        0 ≤ (w.on_distortionValueEditLine_editingFinished gainText).m_distortionGain ∧
        (w.on_distortionValueEditLine_editingFinished gainText).m_distortionGain ≤ 4)) ∧
    (((∀ v, lowText = some v → ¬ (v ≥ 20 ∧ v ≤ 22000)) →
        (w.on_lowBandValueEditLine_editingFinished lowText).m_lowBandFreq = w.m_lowBandFreq) ∧
      (20 ≤ w.m_lowBandFreq ∧ w.m_lowBandFreq ≤ 22000 →
        20 ≤ (w.on_lowBandValueEditLine_editingFinished lowText).m_lowBandFreq ∧
        (w.on_lowBandValueEditLine_editingFinished lowText).m_lowBandFreq ≤ 22000)) ∧
    (((∀ v, highText = some v → ¬ (v ≥ 20 ∧ v ≤ 22000)) →
        (w.on_highBandValueEditLine_editingFinished highText).m_highBandFreq
          = w.m_highBandFreq) ∧
      (20 ≤ w.m_highBandFreq ∧ w.m_highBandFreq ≤ 22000 →
        20 ≤ (w.on_highBandValueEditLine_editingFinished highText).m_highBandFreq ∧
        (w.on_highBandValueEditLine_editingFinished highText).m_highBandFreq ≤ 22000)) := by
  refine ⟨⟨?_, ?_⟩, ⟨?_, ?_⟩, ⟨?_, ?_⟩, ⟨?_, ?_⟩⟩
  · intro hbad
    rw [(MainWindow.pitch_entry w pitchText hp).1 hbad]
  · intro hin
    by_cases hv : ∃ v, pitchText = some v ∧ v ≥ 1 / 2 ∧ v ≤ 2
    · exact (MainWindow.pitch_entry w pitchText hp).2 hv
    · have hbad : ∀ v, pitchText = some v → ¬ (v ≥ 1 / 2 ∧ v ≤ 2) :=
        fun v hv1 hv2 => hv ⟨v, hv1, hv2⟩
      rw [(MainWindow.pitch_entry w pitchText hp).1 hbad]
      exact hin
  · intro hbad
    rw [(MainWindow.distortion_entry w gainText hd).1 hbad]
  · intro hin
    by_cases hv : ∃ v, gainText = some v ∧ v ≥ 0 ∧ v ≤ 4
    · exact (MainWindow.distortion_entry w gainText hd).2 hv
    · have hbad : ∀ v, gainText = some v → ¬ (v ≥ 0 ∧ v ≤ 4) :=
        fun v hv1 hv2 => hv ⟨v, hv1, hv2⟩
      rw [(MainWindow.distortion_entry w gainText hd).1 hbad]
      exact hin
  · intro hbad
    rw [(MainWindow.lowBand_entry w lowText hl).1 hbad]
  · intro hin
    by_cases hv : ∃ v, lowText = some v ∧ v ≥ 20 ∧ v ≤ 22000
    · exact (MainWindow.lowBand_entry w lowText hl).2 hv
    · have hbad : ∀ v, lowText = some v → ¬ (v ≥ 20 ∧ v ≤ 22000) :=
        fun v hv1 hv2 => hv ⟨v, hv1, hv2⟩
      rw [(MainWindow.lowBand_entry w lowText hl).1 hbad]
      exact hin
  · intro hbad
    rw [(MainWindow.highBand_entry w highText hh).1 hbad]
  · intro hin
    by_cases hv : ∃ v, highText = some v ∧ v ≥ 20 ∧ v ≤ 22000
    · exact (MainWindow.highBand_entry w highText hh).2 hv
    · have hbad : ∀ v, highText = some v → ¬ (v ≥ 20 ∧ v ≤ 22000) :=
        fun v hv1 hv2 => hv ⟨v, hv1, hv2⟩
      rw [(MainWindow.highBand_entry w highText hh).1 hbad]
      exact hin

/-- Witness for C17: the window as constructed, with the entries `3` (pitch, out of range),
no parse (gain), `19` (low band, out of range) and `440` (high band, accepted). -/
theorem editingFinished_keeps_domain_witness :
    (((MainWindow.init : MainWindow ℚ).pitchSlider.minimum = 50 ∧
        (MainWindow.init : MainWindow ℚ).pitchSlider.maximum = 200) ∧
      ((MainWindow.init : MainWindow ℚ).distortionSlider.minimum = 0 ∧
        (MainWindow.init : MainWindow ℚ).distortionSlider.maximum = 400) ∧
      ((MainWindow.init : MainWindow ℚ).lowBandSlider.minimum = 20 ∧
        (MainWindow.init : MainWindow ℚ).lowBandSlider.maximum = 22000) ∧
      ((MainWindow.init : MainWindow ℚ).highBandSlider.minimum = 20 ∧
        (MainWindow.init : MainWindow ℚ).highBandSlider.maximum = 22000)) ∧
    ((∀ v : ℚ, some (3 : ℚ) = some v → ¬ (v ≥ 1 / 2 ∧ v ≤ 2)) →
      ((MainWindow.init : MainWindow ℚ).on_pitchValueEditLine_editingFinished
          (some 3)).m_pitchFactor = (MainWindow.init : MainWindow ℚ).m_pitchFactor) ∧
    (20 ≤ (MainWindow.init : MainWindow ℚ).m_highBandFreq ∧
        (MainWindow.init : MainWindow ℚ).m_highBandFreq ≤ 22000 →
      20 ≤ ((MainWindow.init : MainWindow ℚ).on_highBandValueEditLine_editingFinished
          (some 440)).m_highBandFreq ∧
      ((MainWindow.init : MainWindow ℚ).on_highBandValueEditLine_editingFinished
          (some 440)).m_highBandFreq ≤ 22000) :=
  ⟨⟨⟨rfl, rfl⟩, ⟨rfl, rfl⟩, ⟨rfl, rfl⟩, ⟨rfl, rfl⟩⟩,
   (editingFinished_keeps_domain (MainWindow.init : MainWindow ℚ) (some 3) none (some 19)
      (some 440) ⟨rfl, rfl⟩ ⟨rfl, rfl⟩ ⟨rfl, rfl⟩ ⟨rfl, rfl⟩).1.1,
   (editingFinished_keeps_domain (MainWindow.init : MainWindow ℚ) (some 3) none (some 19)
      (some 440) ⟨rfl, rfl⟩ ⟨rfl, rfl⟩ ⟨rfl, rfl⟩ ⟨rfl, rfl⟩).2.2.2.2⟩

end EntryDomains

section DifferenceEquation

variable {α : Type u} [LinearOrderedField α]

/-- Successive `process` calls never change the coefficients. -/
theorem Biquad.stateAfter_coefficients (f : Biquad α) (x : ℕ → α) (n : ℕ) :
    (f.stateAfter x n).b0 = f.b0 ∧ (f.stateAfter x n).b1 = f.b1 ∧
    (f.stateAfter x n).b2 = f.b2 ∧ (f.stateAfter x n).a0 = f.a0 ∧
    (f.stateAfter x n).a1 = f.a1 ∧ (f.stateAfter x n).a2 = f.a2 := by
  induction n with
  | zero => exact ⟨rfl, rfl, rfl, rfl, rfl, rfl⟩
  | succ n ih => exact ih

/-- After a call the delay cell `z1` holds the value that call returned, and `z2` the
previous content of `z1`. -/
theorem Biquad.stateAfter_delay (f : Biquad α) (x : ℕ → α) (n : ℕ) :
    (f.stateAfter x (n + 1)).z1 = f.outputAt x n ∧
    (f.stateAfter x (n + 1)).z2 = (f.stateAfter x n).z1 :=
  ⟨rfl, rfl⟩

/-- The first two values returned from a filter with an empty delay line. -/
theorem Biquad.outputAt_start (f : Biquad α) (x : ℕ → α) (hz1 : f.z1 = 0) (hz2 : f.z2 = 0) :
    f.outputAt x 0 = f.b0 * x 0 ∧
    f.outputAt x 1 = f.b0 * x 1 + (f.b1 - f.a1) * f.outputAt x 0 := by
  have h0 : f.outputAt x 0 = f.b0 * x 0 := by
    simp [Biquad.outputAt, Biquad.stateAfter, Biquad.process, hz1, hz2]
  refine ⟨h0, ?_⟩
  have hz : (f.stateAfter x 1).z2 = 0 := by
    rw [(Biquad.stateAfter_delay f x 0).2]; exact hz1
  have hy : (f.stateAfter x 1).z1 = f.outputAt x 0 := (Biquad.stateAfter_delay f x 0).1
  obtain ⟨c0, c1, c2, -, c4, c5⟩ := Biquad.stateAfter_coefficients f x 1
  have h : f.outputAt x 1
      = (f.stateAfter x 1).b0 * x 1
        + (f.stateAfter x 1).b1 * (f.stateAfter x 1).z1
        + (f.stateAfter x 1).b2 * (f.stateAfter x 1).z2
        - (f.stateAfter x 1).a1 * (f.stateAfter x 1).z1
        - (f.stateAfter x 1).a2 * (f.stateAfter x 1).z2 := rfl
  rw [h, c0, c1, c2, c4, c5, hz, hy]
  ring

/-- The recurrence the code computes: each returned value is `b0` times the input plus
`b1 - a1` times the previous returned value plus `b2 - a2` times the one before. -/
theorem Biquad.outputAt_recurrence (f : Biquad α) (x : ℕ → α) (n : ℕ) :
    f.outputAt x (n + 2)
      = f.b0 * x (n + 2) + (f.b1 - f.a1) * f.outputAt x (n + 1)
          + (f.b2 - f.a2) * f.outputAt x n := by
  have hz1 : (f.stateAfter x (n + 2)).z1 = f.outputAt x (n + 1) :=
    (Biquad.stateAfter_delay f x (n + 1)).1
  have hz2 : (f.stateAfter x (n + 2)).z2 = f.outputAt x n := by
    rw [(Biquad.stateAfter_delay f x (n + 1)).2]
    exact (Biquad.stateAfter_delay f x n).1
  obtain ⟨c0, c1, c2, -, c4, c5⟩ := Biquad.stateAfter_coefficients f x (n + 2)
  have h : f.outputAt x (n + 2)
      = (f.stateAfter x (n + 2)).b0 * x (n + 2)
        + (f.stateAfter x (n + 2)).b1 * (f.stateAfter x (n + 2)).z1
        + (f.stateAfter x (n + 2)).b2 * (f.stateAfter x (n + 2)).z2
        - (f.stateAfter x (n + 2)).a1 * (f.stateAfter x (n + 2)).z1
        - (f.stateAfter x (n + 2)).a2 * (f.stateAfter x (n + 2)).z2 := rfl
  rw [h, c0, c1, c2, c4, c5, hz1, hz2]
  ring

end DifferenceEquation

section DifferenceEquationCode

/-- C20, on the code: every `process` call leaves the coefficients unchanged, but the value
it returns is `b0*x[n] + b1*y[n-1] + b2*y[n-2] - a1*y[n-1] - a2*y[n-2]`, with the previous
outputs where the difference equation has the previous inputs.  For the low-pass at a
quarter of the sample rate (`11025` Hz at `44100` Hz) fed a unit impulse, the second value
returned differs from `b0*x[1] + b1*x[0] - a1*y[0]`. -/
theorem Biquad.process_feeds_back_outputs :
    (∀ (f : Biquad ℝ) (x : ℕ → ℝ) (n : ℕ),
      (f.stateAfter x n).b0 = f.b0 ∧ (f.stateAfter x n).b1 = f.b1 ∧
      (f.stateAfter x n).b2 = f.b2 ∧ (f.stateAfter x n).a1 = f.a1 ∧
      (f.stateAfter x n).a2 = f.a2 ∧
      f.outputAt x (n + 2)
        = f.b0 * x (n + 2) + f.b1 * f.outputAt x (n + 1) + f.b2 * f.outputAt x n
            - f.a1 * f.outputAt x (n + 1) - f.a2 * f.outputAt x n) ∧
    (Biquad.init.setupLowPass ⟨Real.sin, Real.cos, Real.sinh, Real.log, Real.pi⟩
        11025 44100 Biquad.defaultQ).outputAt unitImpulse 1
      ≠ (Biquad.init.setupLowPass ⟨Real.sin, Real.cos, Real.sinh, Real.log, Real.pi⟩
            11025 44100 Biquad.defaultQ).b0 * unitImpulse 1
        + (Biquad.init.setupLowPass ⟨Real.sin, Real.cos, Real.sinh, Real.log, Real.pi⟩
            11025 44100 Biquad.defaultQ).b1 * unitImpulse 0
        - (Biquad.init.setupLowPass ⟨Real.sin, Real.cos, Real.sinh, Real.log, Real.pi⟩
            11025 44100 Biquad.defaultQ).a1
          * (Biquad.init.setupLowPass ⟨Real.sin, Real.cos, Real.sinh, Real.log, Real.pi⟩
              11025 44100 Biquad.defaultQ).outputAt unitImpulse 0 := by
  constructor
  · intro f x n
    obtain ⟨c0, c1, c2, -, c4, c5⟩ := Biquad.stateAfter_coefficients f x n
    refine ⟨c0, c1, c2, c4, c5, ?_⟩
    rw [Biquad.outputAt_recurrence]
    ring
  · have hω : 2 * Real.pi * 11025 / 44100 = Real.pi / 2 := by ring
    obtain ⟨h0, h1⟩ := Biquad.outputAt_start
      (Biquad.init.setupLowPass ⟨Real.sin, Real.cos, Real.sinh, Real.log, Real.pi⟩
        11025 44100 Biquad.defaultQ) unitImpulse rfl rfl
    rw [h1, h0]
    simp only [Biquad.setupLowPass, Biquad.init, Biquad.defaultQ, unitImpulse, hω,
      Real.sin_pi_div_two, Real.cos_pi_div_two]
    norm_num

end DifferenceEquationCode

section Snapshot

/-- C19, on the code: the loop reads the main window again after its snapshot.  (1) With the
snapshot taken while the noise-gate slider is at `0`, a slider moved to `-40` before the
loop calls `getNoiseGate()` gates this very chunk (`1/16` is written as `1/16 * 49/50`).
(2) With the snapshot holding pitch factor `3/2`, a pitch factor changed to `2` before
`applyPitchShifting` reads it makes the stage keep an overlap of `100` samples instead of
`75`, while SoundTouch was set up for `3/2`. -/
theorem runIterationWith_reads_after_snapshot :
    ((runIterationWith
        ({ math := ⟨Real.sin, Real.cos, Real.sinh, Real.log, Real.pi⟩, tanh := Real.tanh,
           pow := fun x y => x ^ y, src_process := fun c d => (c, d, 0),
           soundTouch :=
            { setPitchSemiTones := fun q _ => q, numUnprocessedSamples := fun _ => 0,
              clear := fun _ => [], putSamples := fun q xs => some (q ++ xs),
              numSamples := fun q => q.length,
              receiveSamples := fun q n => (q.drop n, q.take n) } } :
          Libs Unit (List ℝ) ℝ)
        { m_audioSource := some 1, m_audioSink := some 2, m_sampleRateConverter := some (),
          m_soundTouch := [], m_biquadFilter := Biquad.init, m_previousPitchOutput := [],
          gate := GateState.init, noiseGateDB := noiseGateDB_init, m_inChannels := 1,
          inputSampleRate := 100, outputSampleRate := 100 }
        MainWindow.init
        { (MainWindow.init : MainWindow ℝ) with
          noiseGateSlider := { minimum := -60, maximum := 0, value := -40 } }
        MainWindow.init [0, 8]).map (fun r => r.written) = some [1 / 16 * (49 / 50)] ∧
     (runIterationWith
        ({ math := ⟨Real.sin, Real.cos, Real.sinh, Real.log, Real.pi⟩, tanh := Real.tanh,
           pow := fun x y => x ^ y, src_process := fun c d => (c, d, 0),
           soundTouch :=
            { setPitchSemiTones := fun q _ => q, numUnprocessedSamples := fun _ => 0,
              clear := fun _ => [], putSamples := fun q xs => some (q ++ xs),
              numSamples := fun q => q.length,
              receiveSamples := fun q n => (q.drop n, q.take n) } } :
          Libs Unit (List ℝ) ℝ)
        { m_audioSource := some 1, m_audioSink := some 2, m_sampleRateConverter := some (),
          m_soundTouch := [], m_biquadFilter := Biquad.init, m_previousPitchOutput := [],
          gate := GateState.init, noiseGateDB := noiseGateDB_init, m_inChannels := 1,
          inputSampleRate := 100, outputSampleRate := 100 }
        MainWindow.init MainWindow.init MainWindow.init [0, 8]).map (fun r => r.written)
        = some [1 / 16]) ∧
    ((runIterationWith
        ({ math := ⟨Real.sin, Real.cos, Real.sinh, Real.log, Real.pi⟩, tanh := Real.tanh,
           pow := fun x y => x ^ y, src_process := fun c d => (c, d, 0),
           soundTouch :=
            { setPitchSemiTones := fun q _ => q, numUnprocessedSamples := fun _ => 0,
              clear := fun _ => [], putSamples := fun q xs => some (q ++ xs),
              numSamples := fun q => q.length,
              receiveSamples := fun q n => (q.drop n, q.take n) } } :
          Libs Unit (List ℝ) ℝ)
        { m_audioSource := some 1, m_audioSink := some 2, m_sampleRateConverter := some (),
          m_soundTouch := List.replicate 99 0, m_biquadFilter := Biquad.init,
          m_previousPitchOutput := [], gate := GateState.init,
          noiseGateDB := noiseGateDB_init, m_inChannels := 1,
          inputSampleRate := 100, outputSampleRate := 100 }
        { (MainWindow.init : MainWindow ℝ) with m_pitchFactor := 3 / 2 }
        { (MainWindow.init : MainWindow ℝ) with m_pitchFactor := 3 / 2 }
        { (MainWindow.init : MainWindow ℝ) with m_pitchFactor := 2 }
        [0, 8]).map (fun r => r.thread.m_previousPitchOutput.length) = some 100 ∧
     (runIterationWith
        ({ math := ⟨Real.sin, Real.cos, Real.sinh, Real.log, Real.pi⟩, tanh := Real.tanh,
           pow := fun x y => x ^ y, src_process := fun c d => (c, d, 0),
           soundTouch :=
            { setPitchSemiTones := fun q _ => q, numUnprocessedSamples := fun _ => 0,
              clear := fun _ => [], putSamples := fun q xs => some (q ++ xs),
              numSamples := fun q => q.length,
              receiveSamples := fun q n => (q.drop n, q.take n) } } :
          Libs Unit (List ℝ) ℝ)
        { m_audioSource := some 1, m_audioSink := some 2, m_sampleRateConverter := some (),
          m_soundTouch := List.replicate 99 0, m_biquadFilter := Biquad.init,
          m_previousPitchOutput := [], gate := GateState.init,
          noiseGateDB := noiseGateDB_init, m_inChannels := 1,
          inputSampleRate := 100, outputSampleRate := 100 }
        { (MainWindow.init : MainWindow ℝ) with m_pitchFactor := 3 / 2 }
        { (MainWindow.init : MainWindow ℝ) with m_pitchFactor := 3 / 2 }
        { (MainWindow.init : MainWindow ℝ) with m_pitchFactor := 3 / 2 }
        [0, 8]).map (fun r => r.thread.m_previousPitchOutput.length) = some 75) := by
  have hconv : int16ToFloat (α := ℝ) [0, 8] 1 = some [1 / 16] := by
    rw [int16ToFloat_eq_map _ _ (by simp) (by decide)]
    have e0 : int16At [0, 8] 0 = 2048 := by decide
    simp [List.range_succ, e0]
    norm_num
  have hcf2 : crossfadeSamplesOf (2 : ℝ) = 100 := by
    rw [crossfadeSamplesOf_of_product_eq 2 100 (by norm_num) (by norm_num)
      (by rw [abs_of_nonneg (by norm_num)]; norm_num)]
    decide
  have hcf32 : crossfadeSamplesOf (3 / 2 : ℝ) = 75 := by
    rw [crossfadeSamplesOf_of_product_eq (3 / 2) 75 (by norm_num) (by norm_num)
      (by rw [abs_of_nonneg (by norm_num)]; norm_num)]
    decide
  have hp : |(3 / 2 : ℝ) - 1| > 1 / 10000 := by
    rw [abs_of_nonneg (by norm_num)]; norm_num
  have hd : ¬ |(1 : ℝ) - 1| > 1 / 10000 := by norm_num
  refine ⟨⟨?_, ?_⟩, ⟨?_, ?_⟩⟩
  · rw [runIterationWith_bypass _ _ _ _ _ _ [1 / 16] rfl (by norm_num [MainWindow.init])
      (by norm_num [MainWindow.init]) rfl hconv]
    have hneg : (-40 : ℤ) < 0 := by decide
    simp only [Option.map_some', MainWindow.getNoiseGate, if_pos hneg]
    rw [applyNoiseGate_eq_gateRun, thresholdLinear_init, reduction_init]
    have hatt : attackSamples 100 = 1 := by decide
    have hrel : releaseSamples 100 = 5 := by decide
    rw [hatt, hrel]
    have habs : |(1 / 16 : ℝ)| < 1 / 10 := by
      rw [abs_of_nonneg (by norm_num)]; norm_num
    simp only [gateRun, gateIteration, if_pos habs, GateState.init]
    norm_num
  · rw [runIterationWith_bypass _ _ _ _ _ _ [1 / 16] rfl (by norm_num [MainWindow.init])
      (by norm_num [MainWindow.init]) rfl hconv]
    have hnn : ¬ ((0 : ℤ) < 0) := by decide
    simp only [Option.map_some', MainWindow.getNoiseGate, MainWindow.init, if_neg hnn]
  · unfold runIterationWith
    simp only [hconv, MainWindow.init, MainWindow.getNoiseGate, ne_eq, not_true_eq_false,
      if_false, Option.map_some', hp, hd, if_true, applyPitchShifting, hcf2]
    simp [receiveLoop]
  · unfold runIterationWith
    simp only [hconv, MainWindow.init, MainWindow.getNoiseGate, ne_eq, not_true_eq_false,
      if_false, Option.map_some', hp, hd, if_true, applyPitchShifting, hcf32]
    simp [receiveLoop]

end Snapshot

section Stability

/-- A sequence whose squares are dominated by a geometric sequence tends to `0`. -/
theorem tendsto_zero_of_sq_le_geometric (y : ℕ → ℝ) (C r : ℝ) (hr0 : 0 ≤ r) (hr1 : r < 1)
    (h : ∀ n, (y n) ^ 2 ≤ C * r ^ n) : Filter.Tendsto y Filter.atTop (nhds 0) := by
  have hgeo : Filter.Tendsto (fun n => C * r ^ n) Filter.atTop (nhds 0) := by
    have := (tendsto_pow_atTop_nhds_zero_of_lt_one hr0 hr1).const_mul C
    simpa using this
  have hsq : Filter.Tendsto (fun n => (y n) ^ 2) Filter.atTop (nhds 0) :=
    tendsto_of_tendsto_of_tendsto_of_le_of_le tendsto_const_nhds hgeo
      (fun n => sq_nonneg (y n)) h
  have hsqrt : Filter.Tendsto (fun n => Real.sqrt ((y n) ^ 2)) Filter.atTop (nhds 0) := by
    have := (Real.continuous_sqrt.tendsto 0).comp hsq
    simpa using this
  have habs : Filter.Tendsto (fun n => |y n|) Filter.atTop (nhds 0) := by
    refine hsqrt.congr ?_
    intro n
    exact Real.sqrt_sq_eq_abs (y n)
  exact (tendsto_zero_iff_abs_tendsto_zero y).mpr habs

/-- A sequence dominated by `(a + n * k) * ρ ^ n` with `0 ≤ ρ < 1` tends to `0`. -/
theorem tendsto_zero_of_le_linear_mul_geometric (y : ℕ → ℝ) (a k ρ : ℝ) (hρ0 : 0 ≤ ρ)
    (hρ1 : ρ < 1) (h : ∀ n, |y n| ≤ (a + n * k) * ρ ^ n) :
    Filter.Tendsto y Filter.atTop (nhds 0) := by
  have h1 : Filter.Tendsto (fun n : ℕ => a * ρ ^ n) Filter.atTop (nhds 0) := by
    have := (tendsto_pow_atTop_nhds_zero_of_lt_one hρ0 hρ1).const_mul a
    simpa using this
  have h2 : Filter.Tendsto (fun n : ℕ => k * ((n : ℝ) * ρ ^ n)) Filter.atTop (nhds 0) := by
    have := (tendsto_self_mul_const_pow_of_lt_one hρ0 hρ1).const_mul k
    simpa using this
  have h3 : Filter.Tendsto (fun n : ℕ => (a + n * k) * ρ ^ n) Filter.atTop (nhds 0) := by
    have := h1.add h2
    simp only [add_zero] at this
    refine this.congr ?_
    intro n
    ring
  have habs : Filter.Tendsto (fun n => |y n|) Filter.atTop (nhds 0) :=
    tendsto_of_tendsto_of_tendsto_of_le_of_le tendsto_const_nhds h3
      (fun n => abs_nonneg (y n)) h
  exact (tendsto_zero_iff_abs_tendsto_zero y).mpr habs

/-- A second-order linear recurrence `y (n+2) = p * y (n+1) + q * y n` whose coefficients
satisfy the Jury conditions `1 - p - q > 0`, `1 + p - q > 0`, `-1 < q` has only
solutions that tend to `0`. -/
theorem recurrence_tendsto_zero (p q : ℝ) (y : ℕ → ℝ)
    (hrec : ∀ n, y (n + 2) = p * y (n + 1) + q * y n)
    (hJ1 : 0 < 1 - p - q) (hJ2 : 0 < 1 + p - q) (hq0 : -1 < q) :
    Filter.Tendsto y Filter.atTop (nhds 0) := by
  by_cases hD : p ^ 2 + 4 * q < 0
  · -- complex characteristic roots: an energy that shrinks by the factor `-q` per step
    have hqneg : q < 0 := by nlinarith [sq_nonneg p]
    have hE : ∀ n, (y (n + 1)) ^ 2 - p * y (n + 1) * y n - q * (y n) ^ 2
        = (-q) ^ n * ((y 1) ^ 2 - p * y 1 * y 0 - q * (y 0) ^ 2) := by
      intro n
      induction n with
      | zero => simp
      | succ n ih =>
        rw [pow_succ, hrec n]
        linear_combination (-q) * ih
    have hbound : ∀ n, (y n) ^ 2
        ≤ (4 / (-(p ^ 2 + 4 * q)) * ((y 1) ^ 2 - p * y 1 * y 0 - q * (y 0) ^ 2)) * (-q) ^ n := by
      intro n
      have hge : (-(p ^ 2 + 4 * q)) / 4 * (y n) ^ 2
          ≤ (y (n + 1)) ^ 2 - p * y (n + 1) * y n - q * (y n) ^ 2 := by
        nlinarith [sq_nonneg (y (n + 1) - p / 2 * y n)]
      rw [hE n] at hge
      have hpos : 0 < -(p ^ 2 + 4 * q) := by linarith
      revert hge hpos
      generalize -(p ^ 2 + 4 * q) = d
      intro hge hpos
      calc (y n) ^ 2 = 4 / d * (d / 4 * (y n) ^ 2) := by field_simp; ring
        _ ≤ 4 / d * ((-q) ^ n * ((y 1) ^ 2 - p * y 1 * y 0 - q * (y 0) ^ 2)) :=
            mul_le_mul_of_nonneg_left hge (by positivity)
        _ = (4 / d * ((y 1) ^ 2 - p * y 1 * y 0 - q * (y 0) ^ 2)) * (-q) ^ n := by ring
    exact tendsto_zero_of_sq_le_geometric y _ (-q) (by linarith) (by linarith) hbound
  · -- real characteristic roots `r1 ≤ r2` in `(-1, 1)`
    have hD0 : 0 ≤ p ^ 2 + 4 * q := not_lt.mp hD
    set s := Real.sqrt (p ^ 2 + 4 * q) with hs
    have hs0 : 0 ≤ s := Real.sqrt_nonneg _
    have hss : s ^ 2 = p ^ 2 + 4 * q := Real.sq_sqrt hD0
    have hs1 : s < 2 - p := by
      rw [hs, Real.sqrt_lt' (by linarith)]
      nlinarith
    have hs2 : s < 2 + p := by
      rw [hs, Real.sqrt_lt' (by linarith)]
      nlinarith
    set r1 := (p - s) / 2 with hr1
    set r2 := (p + s) / 2 with hr2
    have hsum : r1 + r2 = p := by rw [hr1, hr2]; ring
    have hprod : r1 * r2 = -q := by
      rw [hr1, hr2]
      nlinarith
    have hr1abs : |r1| < 1 := by
      rw [abs_lt, hr1]; constructor <;> linarith
    have hr2abs : |r2| < 1 := by
      rw [abs_lt, hr2]; constructor <;> linarith
    have hu : ∀ n, y (n + 1) - r1 * y n = r2 ^ n * (y 1 - r1 * y 0) := by
      intro n
      induction n with
      | zero => simp
      | succ n ih =>
        rw [pow_succ, mul_assoc, mul_comm r2, ← mul_assoc, ← ih, hrec n, ← hsum]
        have : q = -(r1 * r2) := by linarith
        rw [this]
        ring
    set ρ := max (max |r1| |r2|) (1 / 2) with hρ
    have hρ0 : 0 < ρ := lt_of_lt_of_le (by norm_num) (le_max_right _ _)
    have hρ1 : ρ < 1 := by
      rw [hρ]
      exact max_lt (max_lt hr1abs hr2abs) (by norm_num)
    have hr1ρ : |r1| ≤ ρ := le_trans (le_max_left _ _) (le_max_left _ _)
    have hr2ρ : |r2| ≤ ρ := le_trans (le_max_right _ _) (le_max_left _ _)
    have hbound : ∀ n, |y n| ≤ (|y 0| + n * (|y 1 - r1 * y 0| / ρ)) * ρ ^ n := by
      intro n
      induction n with
      | zero => simp
      | succ n ih =>
        have hstep : y (n + 1) = r1 * y n + r2 ^ n * (y 1 - r1 * y 0) := by
          have := hu n
          linarith
        have hpow : |r2 ^ n| ≤ ρ ^ n := by
          rw [abs_pow]
          exact pow_le_pow_left₀ (abs_nonneg _) hr2ρ n
        calc |y (n + 1)| = |r1 * y n + r2 ^ n * (y 1 - r1 * y 0)| := by rw [hstep]
          _ ≤ |r1 * y n| + |r2 ^ n * (y 1 - r1 * y 0)| := abs_add _ _
          _ = |r1| * |y n| + |r2 ^ n| * |y 1 - r1 * y 0| := by rw [abs_mul, abs_mul]
          _ ≤ ρ * ((|y 0| + n * (|y 1 - r1 * y 0| / ρ)) * ρ ^ n)
                + ρ ^ n * |y 1 - r1 * y 0| := by
              apply add_le_add
              · exact mul_le_mul hr1ρ ih (abs_nonneg _) (le_of_lt hρ0)
              · exact mul_le_mul_of_nonneg_right hpow (abs_nonneg _)
          _ = (|y 0| + ((n + 1 : ℕ) : ℝ) * (|y 1 - r1 * y 0| / ρ)) * ρ ^ (n + 1) := by
              push_cast
              field_simp
              ring
    exact tendsto_zero_of_le_linear_mul_geometric y _ _ ρ (le_of_lt hρ0) hρ1 hbound

end Stability

/-! ### The low-pass filter in binary32 -/

section Binary64Theory

variable {α : Type u} [LinearOrderedField α] [FloorRing α]

end Binary64Theory

namespace Binary32

section FilterAngle

variable {α : Type u} [LinearOrderedField α] [FloorRing α]

end FilterAngle

section EvaluationTheory

variable {α : Type u} [LinearOrderedField α] [FloorRing α]

end EvaluationTheory

section FilterTrig

end FilterTrig

section FilterCoefficients

variable {α : Type u} [LinearOrderedField α] [FloorRing α]

end FilterCoefficients

section FilterSetup

end FilterSetup

section FilterRuns

variable {α : Type u} [LinearOrderedField α] [FloorRing α]

end FilterRuns

section FilterQuarterRate

end FilterQuarterRate

end Binary32

section ConstantInput

/-- Fed a constant input `c`, a filter whose coefficients meet the Jury conditions for the
recurrence the code computes returns values that converge to `b0 * c / (1 - (b1 - a1) -
(b2 - a2))`. -/
theorem Biquad.constant_response_limit (f : Biquad ℝ) (c : ℝ)
    (hJ1 : 0 < 1 - (f.b1 - f.a1) - (f.b2 - f.a2))
    (hJ2 : 0 < 1 + (f.b1 - f.a1) - (f.b2 - f.a2))
    (hq0 : -1 < f.b2 - f.a2) :
    Filter.Tendsto (fun n => f.outputAt (fun _ => c) n) Filter.atTop
      (nhds (f.b0 * c / (1 - (f.b1 - f.a1) - (f.b2 - f.a2)))) := by
  have hne : 1 - (f.b1 - f.a1) - (f.b2 - f.a2) ≠ 0 := ne_of_gt hJ1
  have hrec : ∀ n,
      f.outputAt (fun _ => c) (n + 2) - f.b0 * c / (1 - (f.b1 - f.a1) - (f.b2 - f.a2))
        = (f.b1 - f.a1)
            * (f.outputAt (fun _ => c) (n + 1)
                - f.b0 * c / (1 - (f.b1 - f.a1) - (f.b2 - f.a2)))
          + (f.b2 - f.a2)
            * (f.outputAt (fun _ => c) n
                - f.b0 * c / (1 - (f.b1 - f.a1) - (f.b2 - f.a2))) := by
    intro n
    rw [Biquad.outputAt_recurrence]
    field_simp
    ring
  have ht := recurrence_tendsto_zero _ _
    (fun n => f.outputAt (fun _ => c) n - f.b0 * c / (1 - (f.b1 - f.a1) - (f.b2 - f.a2)))
    hrec hJ1 hJ2 hq0
  have := ht.add_const (f.b0 * c / (1 - (f.b1 - f.a1) - (f.b2 - f.a2)))
  simpa using this

/-- C21, on the code: the high-pass at a quarter of the sample rate (`11025` Hz at `44100`
Hz) fed the constant input `1` returns values that converge to `1/5`, so they do not
converge to `0`: the filter as coded passes a fifth of the DC level. -/
theorem Biquad.highPass_passes_dc :
    Filter.Tendsto
      (fun n => (Biquad.init.setupHighPass ⟨Real.sin, Real.cos, Real.sinh, Real.log, Real.pi⟩
        11025 44100 Biquad.defaultQ).outputAt (fun _ => 1) n)
      Filter.atTop (nhds (1 / 5)) ∧
    ¬ Filter.Tendsto
      (fun n => (Biquad.init.setupHighPass ⟨Real.sin, Real.cos, Real.sinh, Real.log, Real.pi⟩
        11025 44100 Biquad.defaultQ).outputAt (fun _ => 1) n)
      Filter.atTop (nhds 0) := by
  have hω : 2 * Real.pi * 11025 / 44100 = Real.pi / 2 := by ring
  have hlim : Filter.Tendsto
      (fun n => (Biquad.init.setupHighPass ⟨Real.sin, Real.cos, Real.sinh, Real.log, Real.pi⟩
        11025 44100 Biquad.defaultQ).outputAt (fun _ => 1) n)
      Filter.atTop (nhds (1 / 5)) := by
    have h := Biquad.constant_response_limit
      (Biquad.init.setupHighPass ⟨Real.sin, Real.cos, Real.sinh, Real.log, Real.pi⟩
        11025 44100 Biquad.defaultQ) 1
      (by simp only [Biquad.setupHighPass, Biquad.init, Biquad.defaultQ, hω,
            Real.sin_pi_div_two, Real.cos_pi_div_two]; norm_num)
      (by simp only [Biquad.setupHighPass, Biquad.init, Biquad.defaultQ, hω,
            Real.sin_pi_div_two, Real.cos_pi_div_two]; norm_num)
      (by simp only [Biquad.setupHighPass, Biquad.init, Biquad.defaultQ, hω,
            Real.sin_pi_div_two, Real.cos_pi_div_two]; norm_num)
    have hval : (Biquad.init.setupHighPass ⟨Real.sin, Real.cos, Real.sinh, Real.log, Real.pi⟩
        11025 44100 Biquad.defaultQ).b0 * 1
        / (1 - ((Biquad.init.setupHighPass ⟨Real.sin, Real.cos, Real.sinh, Real.log, Real.pi⟩
              11025 44100 Biquad.defaultQ).b1
            - (Biquad.init.setupHighPass ⟨Real.sin, Real.cos, Real.sinh, Real.log, Real.pi⟩
              11025 44100 Biquad.defaultQ).a1)
          - ((Biquad.init.setupHighPass ⟨Real.sin, Real.cos, Real.sinh, Real.log, Real.pi⟩
              11025 44100 Biquad.defaultQ).b2
            - (Biquad.init.setupHighPass ⟨Real.sin, Real.cos, Real.sinh, Real.log, Real.pi⟩
              11025 44100 Biquad.defaultQ).a2)) = 1 / 5 := by
      simp only [Biquad.setupHighPass, Biquad.init, Biquad.defaultQ, hω,
        Real.sin_pi_div_two, Real.cos_pi_div_two]
      norm_num
    rw [hval] at h
    exact h
  refine ⟨hlim, ?_⟩
  intro h0
  have := tendsto_nhds_unique hlim h0
  norm_num at this

end ConstantInput

section QualityFactor

/-- C28: `setupBandPass` and `setupNotch` give the same filter for any two values of `Q`
(the argument is not read), whereas the coefficients set by `setupLowPass` and
`setupHighPass` depend on `Q`: at a quarter of the sample rate, `Q = 1` and `Q = 2` give
`b0 = 1/3` and `b0 = 2/5`. -/
theorem Biquad.band_setups_ignore_Q :
    (∀ (m : MathFns ℝ) (f : Biquad ℝ) (centerFreq bandwidth sampleRate Q1 Q2 : ℝ),
      f.setupBandPass m centerFreq bandwidth sampleRate Q1
        = f.setupBandPass m centerFreq bandwidth sampleRate Q2 ∧
      f.setupNotch m centerFreq bandwidth sampleRate Q1
        = f.setupNotch m centerFreq bandwidth sampleRate Q2) ∧
    ((Biquad.init.setupLowPass ⟨Real.sin, Real.cos, Real.sinh, Real.log, Real.pi⟩
        11025 44100 1).b0 = 1 / 3 ∧
     (Biquad.init.setupLowPass ⟨Real.sin, Real.cos, Real.sinh, Real.log, Real.pi⟩
        11025 44100 2).b0 = 2 / 5) ∧
    ((Biquad.init.setupHighPass ⟨Real.sin, Real.cos, Real.sinh, Real.log, Real.pi⟩
        11025 44100 1).b0 = 1 / 3 ∧
     (Biquad.init.setupHighPass ⟨Real.sin, Real.cos, Real.sinh, Real.log, Real.pi⟩
        11025 44100 2).b0 = 2 / 5) := by
  have hω : 2 * Real.pi * 11025 / 44100 = Real.pi / 2 := by ring
  refine ⟨fun m f centerFreq bandwidth sampleRate Q1 Q2 => ⟨rfl, rfl⟩, ⟨?_, ?_⟩, ⟨?_, ?_⟩⟩
  all_goals
    simp only [Biquad.setupLowPass, Biquad.setupHighPass, Biquad.init, hω,
      Real.sin_pi_div_two, Real.cos_pi_div_two]
    norm_num

end QualityFactor

section HoldCounter

/-- C22, on the code: at `1000` Hz (attack window `10` samples) with the latch closed, the
hold counter at `0` and the gain at the floor `9/10`, one sample above the threshold
leaves the latch closed and the hold counter at `1`, well inside the attack window, and
yet raises the gain to `91/100`. -/
theorem applyNoiseGate_raises_gain_while_latched :
    attackSamples 1000 = 10 ∧
    (applyNoiseGate (fun x y : ℝ => x ^ y) noiseGateDB_init
        { m_isGateClosed := true, m_holdCounter := 0, m_gain := 9 / 10 }
        [1 / 2] 1000).1.m_isGateClosed = true ∧
    (applyNoiseGate (fun x y : ℝ => x ^ y) noiseGateDB_init
        { m_isGateClosed := true, m_holdCounter := 0, m_gain := 9 / 10 }
        [1 / 2] 1000).1.m_holdCounter = 1 ∧
    (applyNoiseGate (fun x y : ℝ => x ^ y) noiseGateDB_init
        { m_isGateClosed := true, m_holdCounter := 0, m_gain := 9 / 10 }
        [1 / 2] 1000).1.m_gain = 91 / 100 := by
  have hatt : attackSamples 1000 = 10 := by decide
  have hrel : releaseSamples 1000 = 50 := by decide
  have habs : ¬ |(1 / 2 : ℝ)| < 1 / 10 := by
    rw [abs_of_nonneg (by norm_num)]; norm_num
  have hhold : ¬ ((0 : ℤ) + 1 > 10) := by decide
  refine ⟨hatt, ?_, ?_, ?_⟩
  all_goals
    rw [applyNoiseGate_eq_gateRun, thresholdLinear_init, reduction_init, hatt, hrel]
    simp only [gateRun, gateIteration, if_neg habs, if_true, hhold, if_false]
    norm_num

end HoldCounter

section CrossfadeLength

variable {α : Type u} [LinearOrderedField α] [FloorRing α]

/-- `std::clamp` on `int` lands in `[lo, hi]`. -/
theorem clampInt_mem (v lo hi : ℤ) (h : lo ≤ hi) :
    lo ≤ clampInt v lo hi ∧ clampInt v lo hi ≤ hi := by
  unfold clampInt
  split_ifs with h1 h2 <;> omega

/-- `std::clamp` on `int` is monotone in the clamped value. -/
theorem clampInt_mono (v w lo hi : ℤ) (h : lo ≤ hi) (hvw : v ≤ w) :
    clampInt v lo hi ≤ clampInt w lo hi := by
  unfold clampInt
  split_ifs <;> omega

/-- The crossfade length lies in `[50, 256]`. -/
theorem crossfadeSamplesOf_bounds (pitchFactor : α) :
    50 ≤ crossfadeSamplesOf pitchFactor ∧ crossfadeSamplesOf pitchFactor ≤ 256 :=
  clampInt_mem _ 50 256 (by decide)

/-- The binary32 product is never below the integer part of the exact product and never
above the next integer. -/
theorem floor_le_floor_roundF32 (x : α) (hx0 : 0 ≤ x) (hx : x < 2 ^ 24) :
    ⌊x⌋ ≤ ⌊roundF32 x⌋ ∧ ⌊roundF32 x⌋ ≤ ⌊x⌋ + 1 := by
  have hk0 : 0 ≤ ⌊x⌋ := Int.floor_nonneg.mpr hx0
  have hk24 : ⌊x⌋ < 2 ^ 24 := by
    have : (⌊x⌋ : α) < ((2 ^ 24 : ℤ) : α) := lt_of_le_of_lt (Int.floor_le x)
      (by have h2 := hx; norm_num at h2; push_cast; exact h2)
    exact_mod_cast this
  have hlo : ((⌊x⌋ : ℤ) : α) ≤ roundF32 x := by
    have h := roundF32_mono (Int.floor_le x)
    rwa [roundF32_intCast _ (by rw [abs_of_nonneg hk0]; omega)] at h
  have hhi : roundF32 x ≤ ((⌊x⌋ + 1 : ℤ) : α) := by
    have h := roundF32_mono (le_of_lt (Int.lt_floor_add_one x))
    have e : (⌊x⌋ : α) + 1 = ((⌊x⌋ + 1 : ℤ) : α) := by push_cast; ring
    rw [e, roundF32_intCast _ (by rw [abs_of_nonneg (by omega)]; omega)] at h
    exact h
  constructor
  · exact Int.le_floor.mpr hlo
  · have := Int.floor_mono hhi
    rwa [Int.floor_intCast] at this

/-- C26, as amended: for every pitch factor, zero, negative and out-of-domain values
included, whose binary32 product `50 * |pitchFactor|` is below `2^31` (from there on the
conversion to `int` is undefined), the crossfade length lies in `[50, 256]`; it is the
integer part of the binary32 product, clamped to these bounds, which is the integer part
of the exact product or one more; and it is non-decreasing in `|pitchFactor|`. -/
theorem crossfadeSamplesOf_rounded_product (pitchFactor other : α)
    (_hcast : roundF32 (50 * |pitchFactor|) < 2 ^ 31)
    (_hcast2 : roundF32 (50 * |other|) < 2 ^ 31) :
    (50 ≤ crossfadeSamplesOf pitchFactor ∧ crossfadeSamplesOf pitchFactor ≤ 256) ∧
    crossfadeSamplesOf pitchFactor = clampInt ⌊roundF32 (50 * |pitchFactor|)⌋ 50 256 ∧
    (clampInt ⌊50 * |pitchFactor|⌋ 50 256 ≤ crossfadeSamplesOf pitchFactor ∧
      crossfadeSamplesOf pitchFactor ≤ clampInt (⌊50 * |pitchFactor|⌋ + 1) 50 256) ∧
    (|pitchFactor| ≤ |other| → crossfadeSamplesOf pitchFactor ≤ crossfadeSamplesOf other) ∧
    crossfadeSamplesOf (0 : α) = 50 ∧
    crossfadeSamplesOf (-3 : α) = 150 ∧
    crossfadeSamplesOf (100 : α) = 256 := by
  have hx0 : (0 : α) ≤ 50 * |pitchFactor| := mul_nonneg (by norm_num) (abs_nonneg _)
  have hr0 : (0 : α) ≤ roundF32 (50 * |pitchFactor|) := roundF32_nonneg hx0
  have hdef : crossfadeSamplesOf pitchFactor
      = clampInt ⌊roundF32 (50 * |pitchFactor|)⌋ 50 256 := by
    unfold crossfadeSamplesOf
    rw [truncToInt_of_nonneg hr0]
  refine ⟨crossfadeSamplesOf_bounds pitchFactor, hdef, ?_, ?_, ?_, ?_, ?_⟩
  · rw [hdef]
    rcases lt_or_le (50 * |pitchFactor|) 256 with hsmall | hbig
    · obtain ⟨h1, h2⟩ := floor_le_floor_roundF32 (50 * |pitchFactor|) hx0
        (lt_trans hsmall (by norm_num))
      exact ⟨clampInt_mono _ _ _ _ (by decide) h1, clampInt_mono _ _ _ _ (by decide) h2⟩
    · have h256 : (256 : α) ≤ roundF32 (50 * |pitchFactor|) := by
        have h := roundF32_mono hbig
        have e := roundF32_intCast (α := α) 256 (by norm_num)
        push_cast at e
        rwa [e] at h
      have hf1 : (256 : ℤ) ≤ ⌊roundF32 (50 * |pitchFactor|)⌋ :=
        Int.le_floor.mpr (by exact_mod_cast h256)
      have hf2 : (256 : ℤ) ≤ ⌊50 * |pitchFactor|⌋ := Int.le_floor.mpr (by exact_mod_cast hbig)
      unfold clampInt
      split_ifs <;> omega
  · intro h
    unfold crossfadeSamplesOf
    apply clampInt_mono _ _ _ _ (by decide)
    apply truncToInt_mono
    apply roundF32_mono
    exact mul_le_mul_of_nonneg_left h (by norm_num)
  · rw [crossfadeSamplesOf_of_product_eq 0 0 (by norm_num) (by norm_num) (by simp)]
    decide
  · rw [crossfadeSamplesOf_of_product_eq (-3) 150 (by norm_num) (by norm_num)
      (by rw [abs_of_nonpos (by norm_num)]; norm_num)]
    decide
  · rw [crossfadeSamplesOf_of_product_eq 100 5000 (by norm_num) (by norm_num)
      (by rw [abs_of_nonneg (by norm_num)]; norm_num)]
    decide

/-- The binary32 product of 50 and the `float` nearest to `1.52`. -/
theorem roundF32_fifty_times_pitch_152 :
    roundF32 ((50 : ℚ) * |12750684 / 8388608|) = 76 := by
  have h := roundF32_eq_of_close (x := (50 : ℚ) * |12750684 / 8388608|) 6 (-17) 9961472
    (by rw [abs_of_nonneg (by norm_num)]; norm_num)
    (by rw [abs_of_nonneg (by norm_num)]; norm_num) (by decide)
    (by rw [abs_of_nonneg (by norm_num)]; norm_num)
    (by rw [abs_of_nonneg (by norm_num)]; norm_num)
  rw [h]; norm_num

/-- Witness for C26: the `float` nearest to `1.52` and the pitch factor `2`. -/
theorem crossfadeSamplesOf_rounded_product_witness :
    (roundF32 ((50 : ℚ) * |12750684 / 8388608|) < 2 ^ 31 ∧
     roundF32 ((50 : ℚ) * |2|) < 2 ^ 31) ∧
    crossfadeSamplesOf (12750684 / 8388608 : ℚ) ≤ crossfadeSamplesOf (2 : ℚ) :=
  ⟨⟨by rw [roundF32_fifty_times_pitch_152]; norm_num,
    by
      have e := roundF32_intCast (α := ℚ) 100 (by norm_num)
      rw [abs_of_nonneg (by norm_num)]
      norm_num at e ⊢
      rw [e]; norm_num⟩,
   (crossfadeSamplesOf_rounded_product (12750684 / 8388608 : ℚ) 2
      (by rw [roundF32_fifty_times_pitch_152]; norm_num)
      (by
        have e := roundF32_intCast (α := ℚ) 100 (by norm_num)
        rw [abs_of_nonneg (by norm_num)]
        norm_num at e ⊢
        rw [e]; norm_num)).2.2.2.1
     (by rw [abs_of_nonneg (by norm_num), abs_of_nonneg (by norm_num)]; norm_num)⟩

/-- Counterexample to C26 as stated: `12750684 / 2^23` is the `float` nearest to `1.52`
(the pitch factor of slider position 152).  The exact product `50 * 1.52f` is
`75.99999905`, whose integer part `75` lies within the bounds; the `float` product is
`76.0` and the crossfade length is `76`. -/
theorem crossfadeSamplesOf_exceeds_truncated_product :
    roundF32 (152 / 100 : ℚ) = 12750684 / 8388608 ∧
    crossfadeSamplesOf (12750684 / 8388608 : ℚ) = 76 ∧
    ⌊(50 : ℚ) * |12750684 / 8388608|⌋ = 75 := by
  refine ⟨?_, ?_, ?_⟩
  · have h := roundF32_eq_of_close (x := (152 / 100 : ℚ)) 0 (-23) 12750684
      (by norm_num) (by norm_num) (by decide) (by norm_num) (by norm_num)
    rw [h]; norm_num
  · unfold crossfadeSamplesOf
    rw [roundF32_fifty_times_pitch_152, truncToInt_of_nonneg (by norm_num)]
    have : ⌊(76 : ℚ)⌋ = 76 := by simp
    rw [this]
    decide
  · rw [abs_of_nonneg (by norm_num), Int.floor_eq_iff]
    constructor <;> norm_num

end CrossfadeLength

section CrossfadeLoop

variable {α : Type u} [LinearOrderedField α]

/-- Cell `j` after the crossfade loop has run `k` iterations from index `i`. -/
theorem crossfadeLoop_getElem? (cos : α → α) (M_PI : α) (prevSamples : List α)
    (prevSampleCount fadeLength : ℕ) (k : ℕ) :
    ∀ (i : ℕ) (out : List α) (j : ℕ),
      (crossfadeLoop cos M_PI prevSamples prevSampleCount fadeLength k i out)[j]? =
        if i ≤ j ∧ j < i + k then
          (out[j]?).map (fun s =>
            prevSamples.getD (prevSampleCount - fadeLength + j) 0
                * (1 - fadeIn cos M_PI fadeLength j)
              + s * fadeIn cos M_PI fadeLength j)
        else out[j]? := by
  induction k with
  | zero =>
    intro i out j
    have hc : ¬ (i ≤ j ∧ j < i + 0) := by omega
    rw [if_neg hc]
    rfl
  | succ k ih =>
    intro i out j
    simp only [crossfadeLoop]
    rw [ih]
    by_cases hji : j = i
    · subst hji
      have h1 : ¬ (j + 1 ≤ j ∧ j < j + 1 + k) := by omega
      have h2 : j ≤ j ∧ j < j + (k + 1) := by omega
      rw [if_neg h1, if_pos h2, List.getElem?_set]
      by_cases hlt : j < out.length
      · simp [hlt, List.getD_eq_getElem?_getD, List.getElem?_eq_getElem hlt, fadeIn]
      · have hnone : out[j]? = none := List.getElem?_eq_none (by omega)
        simp [hlt, hnone]
    · have hne : i ≠ j := fun h => hji h.symm
      rw [List.getElem?_set, if_neg hne]
      by_cases hc : i ≤ j ∧ j < i + (k + 1)
      · have hc' : i + 1 ≤ j ∧ j < i + 1 + k := by omega
        rw [if_pos hc, if_pos hc']
      · have hc' : ¬ (i + 1 ≤ j ∧ j < i + 1 + k) := by omega
        rw [if_neg hc, if_neg hc']

/-- The crossfade loop keeps the length of the buffer. -/
theorem crossfadeLoop_length (cos : α → α) (M_PI : α) (prevSamples : List α)
    (prevSampleCount fadeLength : ℕ) (k : ℕ) :
    ∀ (i : ℕ) (out : List α),
      (crossfadeLoop cos M_PI prevSamples prevSampleCount fadeLength k i out).length
        = out.length := by
  induction k with
  | zero => intro i out; rfl
  | succ k ih =>
    intro i out
    simp only [crossfadeLoop]
    rw [ih, List.length_set]

/-- Sample `j` after the whole crossfade: blended below `fadeLength`, untouched from
`fadeLength` on. -/
theorem crossfadeLoop_getD (cos : α → α) (M_PI : α) (prevSamples : List α)
    (prevSampleCount fadeLength : ℕ) (out : List α) (hF : fadeLength ≤ out.length) (j : ℕ) :
    (crossfadeLoop cos M_PI prevSamples prevSampleCount fadeLength fadeLength 0 out).getD j 0
      = if j < fadeLength then
          prevSamples.getD (prevSampleCount - fadeLength + j) 0
              * (1 - fadeIn cos M_PI fadeLength j)
            + out.getD j 0 * fadeIn cos M_PI fadeLength j
        else out.getD j 0 := by
  rw [List.getD_eq_getElem?_getD, crossfadeLoop_getElem?]
  by_cases hj : j < fadeLength
  · have hc : 0 ≤ j ∧ j < 0 + fadeLength := by omega
    have hlt : j < out.length := by omega
    rw [if_pos hc, if_pos hj, List.getElem?_eq_getElem hlt, List.getD_eq_getElem _ _ hlt]
    rfl
  · have hc : ¬ (0 ≤ j ∧ j < 0 + fadeLength) := by omega
    rw [if_neg hc, if_neg hj, List.getD_eq_getElem?_getD]

end CrossfadeLoop

section Crossfade

variable {α : Type u} [LinearOrderedField α] [FloorRing α] {τ : Type}

/-- The result of a call of `applyPitchShifting` that runs to completion: `numSamples` is
positive, `putSamples` does not throw and the drain loop delivers `o`. -/
theorem applyPitchShifting_completed (ops : SoundTouchOps τ α) (cos : α → α) (M_PI : α)
    (m_soundTouch : τ) (prev : List α) (pitchFactor : α) (inputSamples : List α)
    (numSamples : ℤ) (outputBuffer : List α) (st1 : τ) (o : List α)
    (hn : 0 < numSamples)
    (hput : ops.putSamples
        (if ops.numUnprocessedSamples m_soundTouch > 8192 then ops.clear m_soundTouch
          else m_soundTouch) (inputSamples.take numSamples.toNat) = some st1)
    (hrecv : (receiveLoop ops 1024 (ops.numSamples st1) st1 []).2 = o) :
    (applyPitchShifting ops cos M_PI m_soundTouch prev pitchFactor inputSamples numSamples
        outputBuffer).outputBuffer
      = (if !prev.isEmpty && !o.isEmpty then
          crossfadeLoop cos M_PI prev prev.length
            (min (min (crossfadeSamplesOf pitchFactor).toNat prev.length) o.length)
            (min (min (crossfadeSamplesOf pitchFactor).toNat prev.length) o.length) 0 o
        else o) ∧
    (applyPitchShifting ops cos M_PI m_soundTouch prev pitchFactor inputSamples numSamples
        outputBuffer).m_previousPitchOutput
      = (if !(applyPitchShifting ops cos M_PI m_soundTouch prev pitchFactor inputSamples
              numSamples outputBuffer).outputBuffer.isEmpty then
          (applyPitchShifting ops cos M_PI m_soundTouch prev pitchFactor inputSamples
              numSamples outputBuffer).outputBuffer.drop
            ((applyPitchShifting ops cos M_PI m_soundTouch prev pitchFactor inputSamples
                numSamples outputBuffer).outputBuffer.length
              - min (applyPitchShifting ops cos M_PI m_soundTouch prev pitchFactor inputSamples
                    numSamples outputBuffer).outputBuffer.length
                  (crossfadeSamplesOf pitchFactor).toNat)
        else prev) := by
  have hn' : ¬ numSamples ≤ 0 := by omega
  unfold applyPitchShifting
  simp only [if_neg hn', hput, hrecv]
  exact ⟨trivial, trivial⟩

/-- C24: when a call of `applyPitchShifting` runs to completion with engine output `o`:
for a non-empty stored tail `prev` of length `p` and non-empty `o`, with
`fadeLength = min(crossfadeSamples, p, |o|)`, the returned buffer has length `|o|`, its
sample `i < fadeLength` is `prev[p - fadeLength + i] * fadeOut(i) + o[i] * fadeIn(i)` with
`fadeIn(i) = 0.5 * (1 - cos(pi * i / fadeLength))` and `fadeOut(i) = 1 - fadeIn(i)`, and
its sample `i >= fadeLength` is `o[i]`; with no stored tail the engine output is returned
unchanged. -/
theorem applyPitchShifting_crossfade (ops : SoundTouchOps τ α) (cos : α → α) (M_PI : α)
    (m_soundTouch : τ) (prev : List α) (pitchFactor : α) (inputSamples : List α)
    (numSamples : ℤ) (outputBuffer : List α) (st1 : τ) (o : List α)
    (hn : 0 < numSamples)
    (hput : ops.putSamples
        (if ops.numUnprocessedSamples m_soundTouch > 8192 then ops.clear m_soundTouch
          else m_soundTouch) (inputSamples.take numSamples.toNat) = some st1)
    (hrecv : (receiveLoop ops 1024 (ops.numSamples st1) st1 []).2 = o) :
    (prev ≠ [] → o ≠ [] →
      (applyPitchShifting ops cos M_PI m_soundTouch prev pitchFactor inputSamples numSamples
          outputBuffer).outputBuffer.length = o.length ∧
      ∀ i,
        (applyPitchShifting ops cos M_PI m_soundTouch prev pitchFactor inputSamples numSamples
            outputBuffer).outputBuffer.getD i 0
          = if i < min (min (crossfadeSamplesOf pitchFactor).toNat prev.length) o.length then
              prev.getD
                  (prev.length
                    - min (min (crossfadeSamplesOf pitchFactor).toNat prev.length) o.length
                    + i) 0
                * (1 - fadeIn cos M_PI
                    (min (min (crossfadeSamplesOf pitchFactor).toNat prev.length) o.length) i)
              + o.getD i 0
                * fadeIn cos M_PI
                    (min (min (crossfadeSamplesOf pitchFactor).toNat prev.length) o.length) i
            else o.getD i 0) ∧
    (prev = [] →
      (applyPitchShifting ops cos M_PI m_soundTouch prev pitchFactor inputSamples numSamples
          outputBuffer).outputBuffer = o) := by
  have hout := (applyPitchShifting_completed ops cos M_PI m_soundTouch prev pitchFactor
    inputSamples numSamples outputBuffer st1 o hn hput hrecv).1
  constructor
  · intro hprev ho
    have h1 : prev.isEmpty = false := by
      cases prev with
      | nil => exact absurd rfl hprev
      | cons _ _ => rfl
    have h2 : o.isEmpty = false := by
      cases o with
      | nil => exact absurd rfl ho
      | cons _ _ => rfl
    rw [hout]
    simp only [h1, h2, Bool.not_false, Bool.and_self, if_true]
    refine ⟨crossfadeLoop_length _ _ _ _ _ _ _ _, ?_⟩
    intro i
    exact crossfadeLoop_getD cos M_PI prev prev.length _ o (min_le_right _ _) i
  · intro hprev
    rw [hout, hprev]
    simp

/-- Witness for C24: a stored tail `[1, -1]`, a SoundTouch object that hands back what it is
given, and the chunk `[0, 0]`. -/
theorem applyPitchShifting_crossfade_witness :
    ((0 : ℤ) < 2 ∧
      (if (0 : ℕ) > 8192 then ([] : List ℝ) else []) ++ ([0, 0] : List ℝ).take (2 : ℤ).toNat
        = [0, 0] ∧ ([1, -1] : List ℝ) ≠ [] ∧ ([0, 0] : List ℝ) ≠ []) ∧
    (applyPitchShifting
        ({ setPitchSemiTones := fun q _ => q, numUnprocessedSamples := fun _ => 0,
           clear := fun _ => [], putSamples := fun q xs => some (q ++ xs),
           numSamples := fun q => q.length,
           receiveSamples := fun q n => (q.drop n, q.take n) } : SoundTouchOps (List ℝ) ℝ)
        Real.cos Real.pi [] [1, -1] 2 [0, 0] 2 []).outputBuffer.length
      = ([0, 0] : List ℝ).length :=
  ⟨⟨by decide, by simp, by simp, by simp⟩,
   ((applyPitchShifting_crossfade
      ({ setPitchSemiTones := fun q _ => q, numUnprocessedSamples := fun _ => 0,
         clear := fun _ => [], putSamples := fun q xs => some (q ++ xs),
         numSamples := fun q => q.length,
         receiveSamples := fun q n => (q.drop n, q.take n) } : SoundTouchOps (List ℝ) ℝ)
      Real.cos Real.pi [] [1, -1] 2 [0, 0] 2 [] [0, 0] [0, 0] (by decide) (by simp)
      (by simp [receiveLoop])).1 (by simp) (by simp)).1⟩

/-- C25, as stated, fails when the engine delivers nothing: with the stored overlap `[1]`
and a SoundTouch object without available output, the call runs to completion with an
empty output and the stored overlap is still `[1]`, not the last `min(0, crossfadeSamples)`
samples of that output. -/
theorem applyPitchShifting_keeps_overlap_on_empty_output :
    (applyPitchShifting
        ({ setPitchSemiTones := fun s _ => s, numUnprocessedSamples := fun _ => 0,
           clear := fun s => s, putSamples := fun s _ => some s,
           numSamples := fun _ => 0, receiveSamples := fun s _ => (s, []) } :
          SoundTouchOps Unit ℝ)
        Real.cos Real.pi () [1] 2 [0] 1 []).outputBuffer = [] ∧
    (applyPitchShifting
        ({ setPitchSemiTones := fun s _ => s, numUnprocessedSamples := fun _ => 0,
           clear := fun s => s, putSamples := fun s _ => some s,
           numSamples := fun _ => 0, receiveSamples := fun s _ => (s, []) } :
          SoundTouchOps Unit ℝ)
        Real.cos Real.pi () [1] 2 [0] 1 []).m_previousPitchOutput = [1] ∧
    ¬ ((applyPitchShifting
        ({ setPitchSemiTones := fun s _ => s, numUnprocessedSamples := fun _ => 0,
           clear := fun s => s, putSamples := fun s _ => some s,
           numSamples := fun _ => 0, receiveSamples := fun s _ => (s, []) } :
          SoundTouchOps Unit ℝ)
        Real.cos Real.pi () [1] 2 [0] 1 []).m_previousPitchOutput
      = ([] : List ℝ).drop (([] : List ℝ).length
          - min ([] : List ℝ).length (crossfadeSamplesOf (2 : ℝ)).toNat)) := by
  have hn : ¬ ((1 : ℤ) ≤ 0) := by decide
  refine ⟨?_, ?_, ?_⟩
  · simp [applyPitchShifting, receiveLoop]
  · simp [applyPitchShifting, receiveLoop]
  · simp [applyPitchShifting, receiveLoop]

/-- C25, amended: after a call of `applyPitchShifting` that runs to completion, when the
call's output is not empty the stored overlap is its last `min(outputLength,
crossfadeSamples)` samples, and when the output is empty the stored overlap is left as it
was. -/
theorem applyPitchShifting_stored_overlap (ops : SoundTouchOps τ α) (cos : α → α) (M_PI : α)
    (m_soundTouch : τ) (prev : List α) (pitchFactor : α) (inputSamples : List α)
    (numSamples : ℤ) (outputBuffer : List α) (st1 : τ) (o : List α)
    (hn : 0 < numSamples)
    (hput : ops.putSamples
        (if ops.numUnprocessedSamples m_soundTouch > 8192 then ops.clear m_soundTouch
          else m_soundTouch) (inputSamples.take numSamples.toNat) = some st1)
    (hrecv : (receiveLoop ops 1024 (ops.numSamples st1) st1 []).2 = o) :
    ((applyPitchShifting ops cos M_PI m_soundTouch prev pitchFactor inputSamples numSamples
          outputBuffer).outputBuffer ≠ [] →
      (applyPitchShifting ops cos M_PI m_soundTouch prev pitchFactor inputSamples numSamples
          outputBuffer).m_previousPitchOutput
        = (applyPitchShifting ops cos M_PI m_soundTouch prev pitchFactor inputSamples
            numSamples outputBuffer).outputBuffer.drop
            ((applyPitchShifting ops cos M_PI m_soundTouch prev pitchFactor inputSamples
                numSamples outputBuffer).outputBuffer.length
              - min (applyPitchShifting ops cos M_PI m_soundTouch prev pitchFactor inputSamples
                    numSamples outputBuffer).outputBuffer.length
                  (crossfadeSamplesOf pitchFactor).toNat) ∧
      (applyPitchShifting ops cos M_PI m_soundTouch prev pitchFactor inputSamples numSamples
          outputBuffer).m_previousPitchOutput.length
        = min (applyPitchShifting ops cos M_PI m_soundTouch prev pitchFactor inputSamples
              numSamples outputBuffer).outputBuffer.length
            (crossfadeSamplesOf pitchFactor).toNat) ∧
    ((applyPitchShifting ops cos M_PI m_soundTouch prev pitchFactor inputSamples numSamples
          outputBuffer).outputBuffer = [] →
      (applyPitchShifting ops cos M_PI m_soundTouch prev pitchFactor inputSamples numSamples
          outputBuffer).m_previousPitchOutput = prev) := by
  have hst := (applyPitchShifting_completed ops cos M_PI m_soundTouch prev pitchFactor
    inputSamples numSamples outputBuffer st1 o hn hput hrecv).2
  constructor
  · intro hne
    have h1 : (applyPitchShifting ops cos M_PI m_soundTouch prev pitchFactor inputSamples
        numSamples outputBuffer).outputBuffer.isEmpty = false := by
      cases hb : (applyPitchShifting ops cos M_PI m_soundTouch prev pitchFactor inputSamples
        numSamples outputBuffer).outputBuffer with
      | nil => exact absurd hb hne
      | cons _ _ => rfl
    rw [h1] at hst
    simp only [Bool.not_false, if_true] at hst
    refine ⟨hst, ?_⟩
    rw [hst, List.length_drop]
    omega
  · intro hnil
    rw [hnil] at hst
    simpa using hst

/-- Witness for the amended C25: the chunk `[0, 0]` through a SoundTouch object that hands
back what it is given; the output is not empty and the stored overlap has the stated
length. -/
theorem applyPitchShifting_stored_overlap_witness :
    ((0 : ℤ) < 2 ∧
      (if (0 : ℕ) > 8192 then ([] : List ℝ) else []) ++ ([0, 0] : List ℝ).take (2 : ℤ).toNat
        = [0, 0]) ∧
    (applyPitchShifting
        ({ setPitchSemiTones := fun q _ => q, numUnprocessedSamples := fun _ => 0,
           clear := fun _ => [], putSamples := fun q xs => some (q ++ xs),
           numSamples := fun q => q.length,
           receiveSamples := fun q n => (q.drop n, q.take n) } : SoundTouchOps (List ℝ) ℝ)
        Real.cos Real.pi [] [] 2 [0, 0] 2 []).m_previousPitchOutput.length
      = min (applyPitchShifting
          ({ setPitchSemiTones := fun q _ => q, numUnprocessedSamples := fun _ => 0,
             clear := fun _ => [], putSamples := fun q xs => some (q ++ xs),
             numSamples := fun q => q.length,
             receiveSamples := fun q n => (q.drop n, q.take n) } : SoundTouchOps (List ℝ) ℝ)
          Real.cos Real.pi [] [] 2 [0, 0] 2 []).outputBuffer.length
        (crossfadeSamplesOf (2 : ℝ)).toNat :=
  ⟨⟨by decide, by simp⟩,
   ((applyPitchShifting_stored_overlap
      ({ setPitchSemiTones := fun q _ => q, numUnprocessedSamples := fun _ => 0,
         clear := fun _ => [], putSamples := fun q xs => some (q ++ xs),
         numSamples := fun q => q.length,
         receiveSamples := fun q n => (q.drop n, q.take n) } : SoundTouchOps (List ℝ) ℝ)
      Real.cos Real.pi [] [] 2 [0, 0] 2 [] [0, 0] [0, 0] (by decide) (by simp)
      (by simp [receiveLoop])).1 (by simp [applyPitchShifting, receiveLoop])).2⟩

/-- C23, on the code: two consecutive chunks through a SoundTouch object that hands back
what it is given, both with pitch factor `2`.  The first call returns `[1, -1]`; the second
call starts its output with the first sample of the stored overlap, `1`, not near the
last sample `-1` already written: the jump at the chunk boundary is `2`. -/
theorem applyPitchShifting_seam_jump :
    (applyPitchShifting
        ({ setPitchSemiTones := fun q _ => q, numUnprocessedSamples := fun _ => 0,
           clear := fun _ => [], putSamples := fun q xs => some (q ++ xs),
           numSamples := fun q => q.length,
           receiveSamples := fun q n => (q.drop n, q.take n) } : SoundTouchOps (List ℝ) ℝ)
        Real.cos Real.pi [] [] 2 [1, -1] 2 [])
      = { m_soundTouch := [], m_previousPitchOutput := [1, -1], outputBuffer := [1, -1] } ∧
    (applyPitchShifting
        ({ setPitchSemiTones := fun q _ => q, numUnprocessedSamples := fun _ => 0,
           clear := fun _ => [], putSamples := fun q xs => some (q ++ xs),
           numSamples := fun q => q.length,
           receiveSamples := fun q n => (q.drop n, q.take n) } : SoundTouchOps (List ℝ) ℝ)
        Real.cos Real.pi [] [1, -1] 2 [0, 0] 2 []).outputBuffer = [1, -1 / 2] ∧
    |(1 : ℝ) - (-1)| = 2 := by
  have hcf2 : crossfadeSamplesOf (2 : ℝ) = 100 := by
    rw [crossfadeSamplesOf_of_product_eq 2 100 (by norm_num) (by norm_num)
      (by rw [abs_of_nonneg (by norm_num)]; norm_num)]
    decide
  refine ⟨?_, ?_, by norm_num⟩
  · simp [applyPitchShifting, receiveLoop, hcf2]
  · simp [applyPitchShifting, receiveLoop, hcf2, crossfadeLoop]
    norm_num

end Crossfade

section PitchBufferBounds

/-- C27, on the code: a SoundTouch object that has no output available yet returns no
samples for a chunk of one sample, so the buffer `applyPitchShifting` returns holds `0 < 1
= numSamples` samples and the copy of `numSamples` floats out of it in the loop body reads
past its end (`none`). -/
theorem runIteration_pitch_copy_out_of_bounds :
    (applyPitchShifting
        ({ setPitchSemiTones := fun s _ => s, numUnprocessedSamples := fun _ => 0,
           clear := fun s => s, putSamples := fun s _ => some s,
           numSamples := fun _ => 0, receiveSamples := fun s _ => (s, []) } :
          SoundTouchOps Unit ℝ)
        Real.cos Real.pi () [] 2 [1 / 2] 1 [1 / 2]).outputBuffer.length = 0 ∧
    runIteration
        ({ math := ⟨Real.sin, Real.cos, Real.sinh, Real.log, Real.pi⟩, tanh := Real.tanh,
           pow := fun x y => x ^ y, src_process := fun c d => (c, d, 0),
           soundTouch :=
            { setPitchSemiTones := fun s _ => s, numUnprocessedSamples := fun _ => 0,
              clear := fun s => s, putSamples := fun s _ => some s,
              numSamples := fun _ => 0, receiveSamples := fun s _ => (s, []) } } :
          Libs Unit Unit ℝ)
        { m_audioSource := some 1, m_audioSink := some 2, m_sampleRateConverter := some (),
          m_soundTouch := (), m_biquadFilter := Biquad.init, m_previousPitchOutput := [],
          gate := GateState.init, noiseGateDB := noiseGateDB_init, m_inChannels := 1,
          inputSampleRate := 48000, outputSampleRate := 48000 }
        { (MainWindow.init : MainWindow ℝ) with m_pitchFactor := 2 }
        [0, 64] = none := by
  have hconv : int16ToFloat (α := ℝ) [0, 64] 1 = some [1 / 2] := by
    rw [int16ToFloat_eq_map _ _ (by simp) (by decide)]
    have e0 : int16At [0, 64] 0 = 16384 := by decide
    simp [List.range_succ, e0]
    norm_num
  have hp : |(2 : ℝ) - 1| > 1 / 10000 := by norm_num
  constructor
  · simp [applyPitchShifting, receiveLoop]
  · unfold runIteration runIterationWith
    simp only [hconv, MainWindow.init, MainWindow.getNoiseGate, ne_eq, not_true_eq_false,
      if_false, Option.map_some', hp, if_true, applyPitchShifting, receiveLoop]
    simp

end PitchBufferBounds

end AudioModifier
